import Mathlib

/-!
# taskfs: the synthetic directory tree of `fs/fs.go`

A shallow embedding of the tree of `fs/fs.go` (Root, ServiceDir, TaskDir, Text, Ctl).

* Go objects live in a heap (`World.heap`); a pointer is an index into it and
  `NewNode()` / `&T{...}` appends a new object.  The embedded `Node` handle carries
  no data that `fs.go` reads; the address of an object stands for its identity.
* A `Dir` interface value is an address; its dynamic type is the constructor of
  the object stored there.
* `Service.List()` and `time.Now()` are the two calls that leave the program.
  They are answered by an environment `Env`; the world records every `List()`
  call in `listLog` and counts the clock readings in `ticks`.
* A Go result pair `(value, error)` is a pair of options, `none` standing for `nil`.
* A method applied to an address that holds no object of the receiver's type has
  no Go counterpart (it would be a nil dereference); the embedding returns `none`.
* The paging loop of the gitlab adapter (`gitlab/gitlab.go`) is embedded at the end of
  the definitions, with the library call as an oracle.
-/

namespace Taskfs

/-- Timestamps (`time.Time`) on an integer line. -/
abbrev Time := Int

/-- Pointers: indices into the heap. -/
abbrev Addr := Nat

/-- The Go `error` values that travel through the tree. -/
inductive Error where
  /-- The package variable `errProtocol = errors.New("protocol botch")`. -/
  | errProtocol
  /-- The value `errors.New("unknown command")` of `Ctl.WriteFile`. -/
  | unknownCommand
  /-- An error produced by a tracker adapter in `Service.List`. -/
  | upstream (msg : String)
  deriving DecidableEq, Repr

/-- The values behind the `Task` interface. -/
structure Task where
  Key : String
  Subject : String
  Message : String
  PermaLink : String
  Creation : Time
  LastMod : Time
  deriving DecidableEq, Repr

/-- A `Service` interface value: the identity of the adapter object and its `Name()`.
What `List()` returns is decided by the environment. -/
structure Service where
  id : Nat
  Name : String
  deriving DecidableEq, Repr

/-- The outside of the program: `list id k` is what the `k`-th call (counted from 0)
of `List()` on the service `id` returns, `now k` is the `k`-th reading of `time.Now()`,
and `mapSeed k` selects the order in which the runtime walks a map in the `range`
loop that follows the `k`-th reading of the clock. -/
structure Env where
  list : Nat → Nat → Except Error (List Task)
  now : Nat → Time
  mapSeed : Nat → Nat

/-- The bit `os.ModeDir` (`1 << 31`). -/
def ModeDir : Nat := 2 ^ 31

/-- The struct `FileInfo`; `Size` is an `int64`, `Mode` an `os.FileMode`. -/
structure FileInfo where
  Name : String
  Size : Int
  Mode : Nat
  Creation : Time
  LastMod : Time
  deriving DecidableEq, Repr

/-- The method `FileInfo.IsDir`: `f.Mode&os.ModeDir != 0`. -/
def FileInfo.IsDir (f : FileInfo) : Bool :=
  f.Mode &&& ModeDir != 0

/-- The struct `Root`; the map `services` is kept as an association list with
distinct keys. -/
structure Root extends FileInfo where
  services : List (String × Service)
  deriving DecidableEq, Repr

/-- The struct `ServiceDir`; a `nil` cache is `none`. -/
structure ServiceDir extends FileInfo where
  svc : Service
  cache : Option (List Addr)
  deriving DecidableEq, Repr

/-- The struct `TaskDir`; a `nil` slice `files` is `none`. -/
structure TaskDir extends FileInfo where
  task : Task
  files : Option (List Addr)
  deriving DecidableEq, Repr

/-- The struct `Text`. -/
structure Text extends FileInfo where
  data : List UInt8
  deriving DecidableEq, Repr

/-- The struct `Ctl`; `parent` is a `Dir` interface value. -/
structure Ctl extends FileInfo where
  parent : Addr
  deriving DecidableEq, Repr

/-- A heap object: one of the five node types. -/
inductive Obj where
  | root (r : Root)
  | serviceDir (d : ServiceDir)
  | taskDir (d : TaskDir)
  | text (t : Text)
  | ctl (c : Ctl)
  deriving DecidableEq, Repr

/-- The program state: the heap, the log of `Service.List()` calls (service ids,
oldest first) and the number of `time.Now()` readings. -/
structure World where
  heap : List Obj
  listLog : List Nat
  ticks : Nat
  deriving DecidableEq, Repr

/-- The Go result `([]Dir, error)`. -/
abbrev DirResult := Option (List Addr) × Option Error

/-- The Go result `([]byte, error)`. -/
abbrev FileResult := Option (List UInt8) × Option Error

/-- The conversion `[]byte(s)`: the UTF-8 bytes of `s`. -/
def bytesOf (s : String) : List UInt8 :=
  s.data.flatMap String.utf8EncodeChar

/-- The `TaskDir` built for one task inside `ServiceDir.ReadDir`. -/
def newTaskDir (task : Task) : TaskDir :=
  { Name := task.Key, Size := 0, Mode := ModeDir ||| 0o755,
    Creation := task.Creation, LastMod := task.LastMod,
    task := task, files := none }

/-- The `Ctl` built inside `ServiceDir.ReadDir`. -/
def newCtl (now : Time) (parent : Addr) : Ctl :=
  { Name := "ctl", Size := 0, Mode := 0o644, Creation := now, LastMod := now,
    parent := parent }

/-- The method `ServiceDir.ReadDir`. -/
def ServiceDir.ReadDir (env : Env) (w : World) (self : Addr) : Option (World × DirResult) :=
  match w.heap[self]? with
  | some (.serviceDir dir) =>
    match dir.cache with
    | some c => some (w, (some c, none))
    | none =>
      let k := w.listLog.count dir.svc.id
      let log := w.listLog ++ [dir.svc.id]
      match env.list dir.svc.id k with
      | .error err => some ({ w with listLog := log }, (none, some err))
      | .ok a =>
        let base := w.heap.length
        let dirs := (List.range (a.length + 1)).map (base + ·)
        let tds := a.map (fun task => Obj.taskDir (newTaskDir task))
        let now := env.now w.ticks
        let heap := (w.heap ++ tds ++ [Obj.ctl (newCtl now self)]).set self
          (.serviceDir { dir with cache := some dirs })
        some ({ heap := heap, listLog := log, ticks := w.ticks + 1 }, (some dirs, none))
  | _ => none

/-- The method `ServiceDir.ReadFile`. -/
def ServiceDir.ReadFile (w : World) (self : Addr) : Option (World × FileResult) :=
  match w.heap[self]? with
  | some (.serviceDir _) => some (w, (none, some Error.errProtocol))
  | _ => none

/-- The method `ServiceDir.Refresh`. -/
def ServiceDir.Refresh (w : World) (self : Addr) : Option World :=
  match w.heap[self]? with
  | some (.serviceDir dir) =>
    some { w with heap := w.heap.set self (.serviceDir { dir with cache := none }) }
  | _ => none

/-- The helper `TaskDir.newText`: `Size` is `int64(len(data))` for `data := []byte(s)`. -/
def TaskDir.newText (dir : TaskDir) (name s : String) : Text :=
  let data := bytesOf s
  { Name := name, Size := Int.ofNat data.length, Mode := 0o644,
    Creation := dir.task.Creation, LastMod := dir.task.LastMod, data := data }

/-- The method `TaskDir.ReadDir`. -/
def TaskDir.ReadDir (w : World) (self : Addr) : Option (World × DirResult) :=
  match w.heap[self]? with
  | some (.taskDir dir) =>
    match dir.files with
    | some fs => some (w, (some fs, none))
    | none =>
      let base := w.heap.length
      let files := [base, base + 1, base + 2]
      let heap := (w.heap ++ [Obj.text (dir.newText "subject" dir.task.Subject),
        Obj.text (dir.newText "message" dir.task.Message),
        Obj.text (dir.newText "url" dir.task.PermaLink)]).set self
          (.taskDir { dir with files := some files })
      some ({ w with heap := heap }, (some files, none))
  | _ => none

/-- The method `TaskDir.ReadFile`. -/
def TaskDir.ReadFile (w : World) (self : Addr) : Option (World × FileResult) :=
  match w.heap[self]? with
  | some (.taskDir _) => some (w, (none, some Error.errProtocol))
  | _ => none

/-- The method `TaskDir.Refresh` (empty body). -/
def TaskDir.Refresh (w : World) (self : Addr) : Option World :=
  match w.heap[self]? with
  | some (.taskDir _) => some w
  | _ => none

/-- The method `Text.ReadDir`. -/
def Text.ReadDir (w : World) (self : Addr) : Option (World × DirResult) :=
  match w.heap[self]? with
  | some (.text _) => some (w, (none, some Error.errProtocol))
  | _ => none

/-- The method `Text.ReadFile`. -/
def Text.ReadFile (w : World) (self : Addr) : Option (World × FileResult) :=
  match w.heap[self]? with
  | some (.text t) => some (w, (some t.data, none))
  | _ => none

/-- The method `Text.Refresh` (empty body). -/
def Text.Refresh (w : World) (self : Addr) : Option World :=
  match w.heap[self]? with
  | some (.text _) => some w
  | _ => none

/-- The constructor `NewRoot`, with the reading of the clock it makes. -/
def NewRoot (env : Env) (w : World) : World × Addr :=
  let now := env.now w.ticks
  let root : Root :=
    { Name := "", Size := 0, Mode := ModeDir ||| 0o755, Creation := now, LastMod := now,
      services := [] }
  ({ w with heap := w.heap ++ [Obj.root root], ticks := w.ticks + 1 }, w.heap.length)

/-- The map assignment `m[k] = v` on an association list with distinct keys. -/
def mapSet (m : List (String × Service)) (k : String) (v : Service) : List (String × Service) :=
  match m with
  | [] => [(k, v)]
  | (k0, v0) :: rest => if k0 = k then (k, v) :: rest else (k0, v0) :: mapSet rest k v

/-- The method `Root.CreateService`. -/
def Root.CreateService (w : World) (self : Addr) (srv : Service) : Option World :=
  match w.heap[self]? with
  | some (.root root) =>
    let services := mapSet root.services srv.Name srv
    some { w with heap := w.heap.set self (.root { root with services := services }) }
  | _ => none

/-- The `ServiceDir` built for one registered service inside `Root.ReadDir`. -/
def newServiceDir (now : Time) (name : String) (svc : Service) : ServiceDir :=
  { Name := name, Size := 0, Mode := ModeDir ||| 0o755, Creation := now, LastMod := now,
    svc := svc, cache := none }

/-- The order in which `range` walks a map: some permutation of its entries. -/
def rangeOrder (seed : Nat) (m : List (String × Service)) : List (String × Service) :=
  m.permutations.getD (seed % m.permutations.length) m

/-- The method `Root.ReadDir`. -/
def Root.ReadDir (env : Env) (w : World) (self : Addr) : Option (World × DirResult) :=
  match w.heap[self]? with
  | some (.root root) =>
    let now := env.now w.ticks
    let kvs := rangeOrder (env.mapSeed w.ticks) root.services
    let base := w.heap.length
    let dirs := (List.range kvs.length).map (base + ·)
    let heap := w.heap ++ kvs.map (fun kv => Obj.serviceDir (newServiceDir now kv.1 kv.2))
    some ({ w with heap := heap, ticks := w.ticks + 1 }, (some dirs, none))
  | _ => none

/-- The method `Root.ReadFile`. -/
def Root.ReadFile (w : World) (self : Addr) : Option (World × FileResult) :=
  match w.heap[self]? with
  | some (.root _) => some (w, (none, some Error.errProtocol))
  | _ => none

/-- The method `Root.Refresh` (empty body). -/
def Root.Refresh (w : World) (self : Addr) : Option World :=
  match w.heap[self]? with
  | some (.root _) => some w
  | _ => none

/-- The method `Ctl.ReadDir`. -/
def Ctl.ReadDir (w : World) (self : Addr) : Option (World × DirResult) :=
  match w.heap[self]? with
  | some (.ctl _) => some (w, (none, some Error.errProtocol))
  | _ => none

/-- The method `Ctl.ReadFile`: the empty, non-nil slice `[]byte{}`. -/
def Ctl.ReadFile (w : World) (self : Addr) : Option (World × FileResult) :=
  match w.heap[self]? with
  | some (.ctl _) => some (w, (some [], none))
  | _ => none

/-- The method `Ctl.Refresh` (empty body). -/
def Ctl.Refresh (w : World) (self : Addr) : Option World :=
  match w.heap[self]? with
  | some (.ctl _) => some w
  | _ => none

/-- The call `d.Refresh()` on a `Dir` interface value: dispatch on the dynamic type. -/
def Dir.Refresh (w : World) (d : Addr) : Option World :=
  match w.heap[d]? with
  | some (.root _) => Root.Refresh w d
  | some (.serviceDir _) => ServiceDir.Refresh w d
  | some (.taskDir _) => TaskDir.Refresh w d
  | some (.text _) => Text.Refresh w d
  | some (.ctl _) => Ctl.Refresh w d
  | none => none

/-- The call `d.ReadDir()` on a `Dir` interface value. -/
def Dir.ReadDir (env : Env) (w : World) (d : Addr) : Option (World × DirResult) :=
  match w.heap[d]? with
  | some (.root _) => Root.ReadDir env w d
  | some (.serviceDir _) => ServiceDir.ReadDir env w d
  | some (.taskDir _) => TaskDir.ReadDir w d
  | some (.text _) => Text.ReadDir w d
  | some (.ctl _) => Ctl.ReadDir w d
  | none => none

/-- The call `d.ReadFile()` on a `Dir` interface value. -/
def Dir.ReadFile (w : World) (d : Addr) : Option (World × FileResult) :=
  match w.heap[d]? with
  | some (.root _) => Root.ReadFile w d
  | some (.serviceDir _) => ServiceDir.ReadFile w d
  | some (.taskDir _) => TaskDir.ReadFile w d
  | some (.text _) => Text.ReadFile w d
  | some (.ctl _) => Ctl.ReadFile w d
  | none => none

/-- The embedded `FileInfo` of a heap object. -/
def Obj.toFileInfo : Obj → FileInfo
  | .root r => r.toFileInfo
  | .serviceDir d => d.toFileInfo
  | .taskDir d => d.toFileInfo
  | .text t => t.toFileInfo
  | .ctl c => c.toFileInfo

/-- The call `d.Stat()` on a `Dir` interface value: the embedded `FileInfo`. -/
def Dir.Stat (w : World) (d : Addr) : Option FileInfo :=
  (w.heap[d]?).map Obj.toFileInfo

/-- The names of the entries of a listing, as `Stat().Name` gives them. -/
def entryNames (w : World) (entries : List Addr) : List (Option String) :=
  entries.map (fun e => (Dir.Stat w e).map (·.Name))

/-! ## `strings.Fields`

The standard library's tokenizer, as `Ctl.WriteFile` uses it: the bytes of the
payload are decoded rune by rune the way a Go `range` over a string does (a byte
that starts no well-formed sequence is the rune `U+FFFD` of width 1), and the
fields are the maximal runs of runes that are not `unicode.IsSpace`. -/

/-- The predicate `unicode.IsSpace` on a rune. -/
def IsSpace (r : Nat) : Bool :=
  (0x09 ≤ r && r ≤ 0x0D) || r == 0x20 || r == 0x85 || r == 0xA0 || r == 0x1680 ||
  (0x2000 ≤ r && r ≤ 0x200A) || r == 0x2028 || r == 0x2029 || r == 0x202F ||
  r == 0x205F || r == 0x3000

/-- The rune `utf8.RuneError`. -/
def RuneError : Nat := 0xFFFD

/-- A continuation byte `10xxxxxx`. -/
def isCont (b : Nat) : Bool :=
  0x80 ≤ b && b ≤ 0xBF

/-- The function `utf8.DecodeRuneInString`: the first rune of the bytes and its width. -/
def decodeRune (s : List UInt8) : Nat × Nat :=
  match s.map UInt8.toNat with
  | [] => (RuneError, 0)
  | b0 :: rest =>
    if b0 < 0x80 then (b0, 1)
    else if 0xC2 ≤ b0 && b0 ≤ 0xDF then
      match rest with
      | b1 :: _ => if isCont b1 then ((b0 % 32) * 64 + b1 % 64, 2) else (RuneError, 1)
      | _ => (RuneError, 1)
    else if 0xE0 ≤ b0 && b0 ≤ 0xEF then
      match rest with
      | b1 :: b2 :: _ =>
        let lo := if b0 = 0xE0 then 0xA0 else 0x80
        let hi := if b0 = 0xED then 0x9F else 0xBF
        if lo ≤ b1 && b1 ≤ hi && isCont b2 then
          ((b0 % 16) * 4096 + (b1 % 64) * 64 + b2 % 64, 3)
        else (RuneError, 1)
      | _ => (RuneError, 1)
    else if 0xF0 ≤ b0 && b0 ≤ 0xF4 then
      match rest with
      | b1 :: b2 :: b3 :: _ =>
        let lo := if b0 = 0xF0 then 0x90 else 0x80
        let hi := if b0 = 0xF4 then 0x8F else 0xBF
        if lo ≤ b1 && b1 ≤ hi && isCont b2 && isCont b3 then
          ((b0 % 8) * 262144 + (b1 % 64) * 4096 + (b2 % 64) * 64 + b3 % 64, 4)
        else (RuneError, 1)
      | _ => (RuneError, 1)
    else (RuneError, 1)

/-- The runes of a string with the bytes of each, in order, as `range` yields them;
the first argument bounds the number of runes. -/
def decodeRunes : Nat → List UInt8 → List (Nat × List UInt8)
  | 0, _ => []
  | _ + 1, [] => []
  | fuel + 1, b :: bs =>
    let n := (decodeRune (b :: bs)).2
    ((decodeRune (b :: bs)).1, (b :: bs).take n) :: decodeRunes fuel ((b :: bs).drop n)

/-- The runes of a string: every rune takes at least one byte. -/
def runes (s : List UInt8) : List (Nat × List UInt8) :=
  decodeRunes s.length s

/-- The loop of `strings.FieldsFunc` over the decoded runes; `cur` is the field
being read, if any. -/
def fieldsLoop (f : Nat → Bool) : List (Nat × List UInt8) → Option (List UInt8) → List (List UInt8)
  | [], none => []
  | [], some cur => [cur]
  | (r, bs) :: rest, cur =>
    if f r then
      match cur with
      | some c => c :: fieldsLoop f rest none
      | none => fieldsLoop f rest none
    else fieldsLoop f rest (some (cur.getD [] ++ bs))

/-- The function `strings.Fields`. -/
def Fields (s : List UInt8) : List (List UInt8) :=
  fieldsLoop IsSpace (runes s) none

/-- The method `Ctl.WriteFile`. -/
def Ctl.WriteFile (w : World) (self : Addr) (p : List UInt8) : Option (World × Option Error) :=
  match w.heap[self]? with
  | some (.ctl ctl) =>
    match Fields p with
    | [] => some (w, none)
    | a0 :: _ =>
      if a0 = bytesOf "refresh" then
        match Dir.Refresh w ctl.parent with
        | some w1 => some (w1, none)
        | none => none
      else some (w, some Error.unknownCommand)
  | _ => none


/-! ## A concrete tracker

The scenario of the specification: the service "tracker1" lists the tasks "1" and
"2" on its first call and only the task "1" afterwards. -/

/-- Task "1" of the scenario. -/
def demoTask1 : Task :=
  { Key := "1", Subject := "first", Message := "héllo", PermaLink := "http://t/1",
    Creation := 100, LastMod := 200 }

/-- Task "2" of the scenario. -/
def demoTask2 : Task :=
  { Key := "2", Subject := "second", Message := "", PermaLink := "http://t/2",
    Creation := 300, LastMod := 400 }

/-- The service of the scenario. -/
def demoSvc : Service :=
  { id := 7, Name := "tracker1" }

/-- The tracker of the scenario. -/
def demoEnv : Env :=
  { list := fun _ k => if k = 0 then .ok [demoTask1, demoTask2] else .ok [demoTask1],
    now := fun k => 1000 + k,
    mapSeed := fun _ => 0 }

/-- A tracker whose first call fails and whose later calls list the task "1". -/
def demoEnvFail : Env :=
  { list := fun _ k => if k = 0 then .error (Error.upstream "timeout") else .ok [demoTask1],
    now := fun k => 1000 + k,
    mapSeed := fun _ => 0 }

/-- A tracker that lists no task. -/
def demoEnvEmpty : Env :=
  { list := fun _ _ => .ok [],
    now := fun k => 1000 + k,
    mapSeed := fun _ => 0 }

/-- The `ServiceDir` of the scenario, never listed. -/
def demoDir : ServiceDir :=
  newServiceDir 1000 "tracker1" demoSvc

/-- A world that holds only the unlisted `ServiceDir` of the scenario, at address 0. -/
def demoCold : World :=
  { heap := [Obj.serviceDir demoDir], listLog := [], ticks := 1 }

/-- The world after the first listing of the scenario. -/
def demoWarm : World :=
  { heap := [Obj.serviceDir { demoDir with cache := some [1, 2, 3] },
      Obj.taskDir (newTaskDir demoTask1), Obj.taskDir (newTaskDir demoTask2),
      Obj.ctl (newCtl 1001 0)],
    listLog := [7], ticks := 2 }

/-- A world that holds only a `TaskDir` for task "1" whose leaves are not built, at
address 0. -/
def demoTaskWorld : World :=
  { heap := [Obj.taskDir (newTaskDir demoTask1)], listLog := [], ticks := 0 }

/-- A world with one node of each type: a Root at 0, the populated ServiceDir of the
scenario at 1, a TaskDir with built leaves at 2, a Text at 3 and a Ctl at 4. -/
def demoNodes : World :=
  { heap := [Obj.root { Name := "", Size := 0, Mode := ModeDir ||| 0o755, Creation := 1,
                        LastMod := 1, services := [("tracker1", demoSvc)] },
             Obj.serviceDir { demoDir with cache := some [2, 4] },
             Obj.taskDir { newTaskDir demoTask1 with files := some [3] },
             Obj.text ((newTaskDir demoTask1).newText "subject" "first"),
             Obj.ctl (newCtl 1001 1)],
    listLog := [7], ticks := 2 }

/-! ## Sequences of calls -/

/-- One call of the host driver on a node of the tree. -/
inductive Op where
  | readDir (d : Addr)
  | readFile (d : Addr)
  | refresh (d : Addr)
  | writeFile (c : Addr) (p : List UInt8)
  deriving DecidableEq, Repr

/-- The world after one call; the value returned is dropped. -/
def step (env : Env) (w : World) : Op → Option World
  | .readDir d => (Dir.ReadDir env w d).map (·.1)
  | .readFile d => (Dir.ReadFile w d).map (·.1)
  | .refresh d => Dir.Refresh w d
  | .writeFile c p => (Ctl.WriteFile w c p).map (·.1)

/-- The world after a sequence of calls. -/
def run (env : Env) (w : World) : List Op → Option World
  | [] => some w
  | op :: ops =>
    match step env w op with
    | some w1 => run env w1 ops
    | none => none

/-- The result of the most recent successful call among the first `n` calls of
`List()` on the service `id`. -/
def lastOk (env : Env) (id : Nat) : Nat → Option (List Task)
  | 0 => none
  | n + 1 =>
    match env.list id n with
    | .ok a => some a
    | .error _ => lastOk env id n

/-- An object without its mutable fields (the map of a Root, the cache of a
ServiceDir, the built leaves of a TaskDir). -/
def Obj.frozen : Obj → Obj
  | .root r => .root { r with services := [] }
  | .serviceDir d => .serviceDir { d with cache := none }
  | .taskDir d => .taskDir { d with files := none }
  | .text t => .text t
  | .ctl c => .ctl c

/-- The objects that never call `List()` and never build a ServiceDir. -/
def Obj.isTaskOrLeaf : Obj → Bool
  | .taskDir _ => true
  | .text _ => true
  | .ctl _ => true
  | _ => false

/-- The entries `es` are a complete snapshot of the task list `a` for the ServiceDir
`self`: one TaskDir per task, in order, each as `ServiceDir.ReadDir` builds it up to
its built leaves, then a Ctl whose parent is `self`. -/
def IsSnapshot (w : World) (self : Addr) (a : List Task) (es : List Addr) : Prop :=
  ∃ now, es.map (fun e => (w.heap[e]?).map Obj.frozen)
    = a.map (fun task => some (Obj.taskDir (newTaskDir task))) ++
      [some (Obj.ctl (newCtl now self))]

/-- The invariant of a world whose only ServiceDir is at address 0 and belongs to the
service `svc`: the cache is absent or a complete snapshot of the most recent
successful result of `List()`. -/
def CacheInv (env : Env) (svc : Service) (w : World) : Prop :=
  (∃ dir, w.heap[0]? = some (.serviceDir dir) ∧ dir.svc = svc ∧
    (dir.cache = none ∨ ∃ a es, dir.cache = some es ∧
      lastOk env svc.id (w.listLog.count svc.id) = some a ∧ IsSnapshot w 0 a es)) ∧
  ∀ (j : Addr) (o : Obj), w.heap[j]? = some o → j ≠ 0 → o.isTaskOrLeaf = true

/-- A sequence of calls on the scenario: the ServiceDir is listed, task "1" is listed,
"bogus" and then "refresh" are written to the ctl entry, the ServiceDir is listed again. -/
def demoOps : List Op :=
  [Op.readDir 0, Op.readDir 1, Op.writeFile 3 (bytesOf "bogus"),
    Op.writeFile 3 (bytesOf "refresh\n"), Op.readDir 0]

/-- The world of the scenario after the calls `demoOps`. -/
def demoRelisted : World :=
  { heap := [Obj.serviceDir { demoDir with cache := some [7, 8] },
             Obj.taskDir { newTaskDir demoTask1 with files := some [4, 5, 6] },
             Obj.taskDir (newTaskDir demoTask2),
             Obj.ctl (newCtl 1001 0),
             Obj.text ((newTaskDir demoTask1).newText "subject" "first"),
             Obj.text ((newTaskDir demoTask1).newText "message" "héllo"),
             Obj.text ((newTaskDir demoTask1).newText "url" "http://t/1"),
             Obj.taskDir (newTaskDir demoTask1),
             Obj.ctl (newCtl 1002 0)],
    listLog := [7, 7], ticks := 3 }

/-- A task whose key is the name of the control file. -/
def demoTaskCtl : Task :=
  { Key := "ctl", Subject := "named like the control file", Message := "", PermaLink := "",
    Creation := 500, LastMod := 600 }

/-- A tracker that lists the task keyed "ctl". -/
def demoEnvCtl : Env :=
  { list := fun _ _ => .ok [demoTaskCtl],
    now := fun k => 1000 + k,
    mapSeed := fun _ => 0 }

/-- The calls `root.CreateService(s)` for each `s` of a list, in order. -/
def registerAll (w : World) (root : Addr) : List Service → Option World
  | [] => some w
  | s :: rest =>
    match Root.CreateService w root s with
    | some w1 => registerAll w1 root rest
    | none => none

/-- The map lookup `m[k]`. -/
def mapGet (m : List (String × Service)) (k : String) : Option Service :=
  (m.find? (fun kv => kv.1 == k)).map (·.2)

/-- The service that was registered last under a name, if any. -/
def lastNamed (svcs : List Service) (name : String) : Option Service :=
  svcs.reverse.find? (fun s => s.Name == name)

/-- The map of a Root after the registration of a list of services. -/
def registered (m : List (String × Service)) (svcs : List Service) : List (String × Service) :=
  svcs.foldl (fun m s => mapSet m s.Name s) m

/-- The Root that `NewRoot` builds at the time `now`, with a given map of services. -/
def rootWith (now : Time) (services : List (String × Service)) : Root :=
  { Name := "", Size := 0, Mode := ModeDir ||| 0o755, Creation := now, LastMod := now,
    services := services }

/-- Two services that bear the same name "tracker1": the service of the scenario and a
second adapter object. -/
def demoSvcB : Service :=
  { id := 8, Name := "tracker1" }

/-- A service under another name. -/
def demoSvcOther : Service :=
  { id := 9, Name := "other" }

/-- A world that holds only a Root in which the service "other" is registered. -/
def demoRootWorld : World :=
  { heap := [Obj.root (rootWith 1000 [("other", demoSvcOther)])], listLog := [], ticks := 1 }

/-! ## What a call can change -/

/-- The calls that can reach `Refresh`: a `Refresh` itself and a write to a control file. -/
def Op.mayRefresh : Op → Bool
  | .refresh _ => true
  | .writeFile _ _ => true
  | _ => false

/-- What one call can make of an existing object: a ServiceDir with a nil cache can get a
cache, a ServiceDir can lose its cache when the call may refresh, a TaskDir whose
leaves are not built can get them; everything else stays as it is. -/
def Obj.stepsTo (mayRefresh : Bool) : Obj → Obj → Prop
  | .serviceDir d, o =>
    o = .serviceDir d ∨ (d.cache = none ∧ ∃ es, o = .serviceDir { d with cache := some es }) ∨
      (mayRefresh = true ∧ o = .serviceDir { d with cache := none })
  | .taskDir d, o =>
    o = .taskDir d ∨ (d.files = none ∧ ∃ fs, o = .taskDir { d with files := some fs })
  | .root r, o => o = .root r
  | .text t, o => o = .text t
  | .ctl c, o => o = .ctl c

/-- The objects that no call changes: a Root, a Text, a Ctl, and a TaskDir whose leaves
are built. -/
def Obj.settled : Obj → Bool
  | .serviceDir _ => false
  | .taskDir d => d.files.isSome
  | _ => true

/-- A call on a TaskDir. -/
inductive TaskCall where
  | readDir
  | refresh
  deriving DecidableEq, Repr

/-- A sequence of `ReadDir` and `Refresh` calls on the TaskDir `t`: the world after them
and what the `ReadDir` calls returned, in order. -/
def TaskDir.calls (w : World) (t : Addr) : List TaskCall → Option (World × List DirResult)
  | [] => some (w, [])
  | .readDir :: rest =>
    match TaskDir.ReadDir w t with
    | some (w1, r) => (TaskDir.calls w1 t rest).map (fun x => (x.1, r :: x.2))
    | none => none
  | .refresh :: rest =>
    match TaskDir.Refresh w t with
    | some w1 => TaskDir.calls w1 t rest
    | none => none

/-- A world with two ServiceDirs: the one of the scenario at 0, never listed, and a
populated one of the service "other" at 1, with its TaskDir at 2 and its Ctl at 3. -/
def demoTwo : World :=
  { heap := [Obj.serviceDir demoDir,
             Obj.serviceDir { newServiceDir 1000 "other" demoSvcOther with cache := some [2, 3] },
             Obj.taskDir (newTaskDir demoTask2),
             Obj.ctl (newCtl 1001 1)],
    listLog := [9], ticks := 2 }

/-! ## The gitlab adapter (`gitlab/gitlab.go`)

`Service.List` pages through `Issues.ListIssues` of the library go-gitlab.  The library
call is an oracle: `api k page` is the answer to the `k`-th request (counted from 0),
made with `opt.Page = page`: an error, or the issues of the page with `resp.NextPage`.
A nil slice is the empty list. -/

/-- The fields of the library type `gitlab.Issue` that the adapter reads. -/
structure Gitlab.ApiIssue where
  ID : Int
  ProjectID : Int
  Title : String
  Description : String
  WebURL : String
  CreatedAt : Time
  UpdatedAt : Time
  deriving DecidableEq, Repr

/-- The struct `Issue` of the adapter: the library issue and the service it came from. -/
structure Gitlab.Issue where
  issue : Gitlab.ApiIssue
  svc : Nat
  deriving DecidableEq, Repr

/-- The method `Issue.Key`: `fmt.Sprintf("%d", p.issue.ID)`. -/
def Gitlab.Issue.Key (p : Gitlab.Issue) : String :=
  toString p.issue.ID

/-- The `fs.Task` behind an `Issue`, method by method. -/
def Gitlab.Issue.toTask (p : Gitlab.Issue) : Task :=
  { Key := p.Key, Subject := p.issue.Title, Message := p.issue.Description,
    PermaLink := p.issue.WebURL, Creation := p.issue.CreatedAt, LastMod := p.issue.UpdatedAt }

/-- The answers of `Issues.ListIssues`. -/
abbrev Gitlab.Api := Nat → Int → Except Error (List Gitlab.ApiIssue × Int)

/-- The method `Service.appendIssues`; `svc` is the receiver. -/
def Gitlab.Service.appendIssues (svc : Nat) (a : List Gitlab.Issue) (b : List Gitlab.ApiIssue) :
    List Gitlab.Issue :=
  b.foldl (fun a v => a ++ [{ issue := v, svc := svc }]) a

/-- The loop of `Service.List` from its `k`-th request on, with `opt.Page = page` and the
tasks `a` collected so far; the first argument bounds the number of requests and
`none` says that the loop is still running when the bound is reached. -/
def Gitlab.Service.listLoop (api : Gitlab.Api) (svc : Nat) :
    Nat → Nat → Int → List Gitlab.Issue → Option (List Gitlab.Issue × Option Error)
  | 0, _, _, _ => none
  | fuel + 1, k, page, a =>
    match api k page with
    | .error err => some ([], some err)
    | .ok (b, next) =>
      if next = 0 then some (Gitlab.Service.appendIssues svc a b, none)
      else Gitlab.Service.listLoop api svc fuel (k + 1) next
        (Gitlab.Service.appendIssues svc a b)

/-- The method `Service.List`: `a` starts nil and `opt` is the zero value. -/
def Gitlab.Service.List (api : Gitlab.Api) (svc : Nat) (fuel : Nat) :
    Option (List Gitlab.Issue × Option Error) :=
  Gitlab.Service.listLoop api svc fuel 0 0 []

/-- The page that the `k`-th request of `List` asks for, when `List` gets that far: page 0
first, then the `NextPage` of the previous answer as long as it is not 0. -/
def Gitlab.requests (api : Gitlab.Api) : Nat → Option Int
  | 0 => some 0
  | k + 1 =>
    match Gitlab.requests api k with
    | some p =>
      match api k p with
      | .ok (_, next) => if next = 0 then none else some next
      | .error _ => none
    | none => none

/-- The issues of the answer to the `k`-th request of `List`. -/
def Gitlab.issuesAt (api : Gitlab.Api) (k : Nat) : List Gitlab.ApiIssue :=
  match Gitlab.requests api k with
  | some p =>
    match api k p with
    | .ok (b, _) => b
    | .error _ => []
  | none => []

/-- Three library issues. -/
def Gitlab.demoIssue (id : Int) : Gitlab.ApiIssue :=
  { ID := id, ProjectID := 1, Title := "t", Description := "d", WebURL := "u",
    CreatedAt := 10, UpdatedAt := 20 }

/-- A tracker with three pages: page 0 holds the issues 11 and 12 and names page 2 next,
page 2 holds the issue 13 and names page 3, page 3 is empty and is the last one. -/
def Gitlab.demoApi : Gitlab.Api :=
  fun _ page =>
    if page = 0 then .ok ([Gitlab.demoIssue 11, Gitlab.demoIssue 12], 2)
    else if page = 2 then .ok ([Gitlab.demoIssue 13], 3)
    else .ok ([], 0)

/-- The same tracker, whose request of page 3 fails. -/
def Gitlab.demoApiFail : Gitlab.Api :=
  fun _ page =>
    if page = 0 then .ok ([Gitlab.demoIssue 11, Gitlab.demoIssue 12], 2)
    else if page = 2 then .ok ([Gitlab.demoIssue 13], 3)
    else .error (Error.upstream "502")

/-! ## Overlapping calls of `ServiceDir.ReadDir`

`fs.go` takes no lock.  A call of `ServiceDir.ReadDir` is cut at the two places where
another call can come in between: after the test of the cache and after `List()`
returns.  Each part runs in one piece. -/

/-- Where a call of `ServiceDir.ReadDir` stands: before the test `dir.cache != nil`,
before `dir.svc.List()` (the cache was seen nil), before the test of `err` with what
`List()` returned, or after its `return`. -/
inductive ReadDirPc where
  | check
  | fetch
  | store (res : Except Error (List Task))
  | done (r : DirResult)

/-- The next part of a call of `ServiceDir.ReadDir` on `self`. -/
def ServiceDir.advance (env : Env) (self : Addr) (w : World) :
    ReadDirPc → Option (World × ReadDirPc)
  | .check =>
    match w.heap[self]? with
    | some (.serviceDir dir) =>
      match dir.cache with
      | some c => some (w, .done (some c, none))
      | none => some (w, .fetch)
    | _ => none
  | .fetch =>
    match w.heap[self]? with
    | some (.serviceDir dir) =>
      some ({ w with listLog := w.listLog ++ [dir.svc.id] },
        .store (env.list dir.svc.id (w.listLog.count dir.svc.id)))
    | _ => none
  | .store (.error err) => some (w, .done (none, some err))
  | .store (.ok a) =>
    match w.heap[self]? with
    | some (.serviceDir dir) =>
      let base := w.heap.length
      let dirs := (List.range (a.length + 1)).map (base + ·)
      let tds := a.map (fun task => Obj.taskDir (newTaskDir task))
      let now := env.now w.ticks
      let heap := (w.heap ++ tds ++ [Obj.ctl (newCtl now self)]).set self
        (.serviceDir { dir with cache := some dirs })
      some ({ heap := heap, listLog := w.listLog, ticks := w.ticks + 1 },
        .done (some dirs, none))
    | _ => none
  | .done r => some (w, .done r)

/-- A call of `ServiceDir.ReadDir` that runs in one piece: its three parts in a row. -/
def ServiceDir.advance3 (env : Env) (self : Addr) (w : World) : Option (World × ReadDirPc) :=
  match ServiceDir.advance env self w .check with
  | some (w1, pc1) =>
    match ServiceDir.advance env self w1 pc1 with
    | some (w2, pc2) => ServiceDir.advance env self w2 pc2
    | none => none
  | none => none

/-- What happens next while calls on one ServiceDir overlap: the call number `i` runs its
next part, or a `Refresh` of the ServiceDir runs. -/
inductive Event where
  | advance (i : Nat)
  | refresh
  deriving DecidableEq, Repr

/-- The world and the calls after a sequence of events; an event for a call that does
not exist is skipped. -/
def interleave (env : Env) (self : Addr) :
    World × List ReadDirPc → List Event → Option (World × List ReadDirPc)
  | s, [] => some s
  | (w, pcs), .advance i :: rest =>
    match pcs[i]? with
    | some pc =>
      match ServiceDir.advance env self w pc with
      | some (w1, pc1) => interleave env self (w1, pcs.set i pc1) rest
      | none => none
    | none => interleave env self (w, pcs) rest
  | (w, pcs), .refresh :: rest =>
    match ServiceDir.Refresh w self with
    | some w1 => interleave env self (w1, pcs) rest
    | none => none

/-- A call that has not yet called `List()` and still may. -/
def ReadDirPc.pending : ReadDirPc → Nat
  | .check => 1
  | .fetch => 1
  | _ => 0

/-- What a call returned, once it has. -/
def ReadDirPc.result : ReadDirPc → Option DirResult
  | .done r => some r
  | _ => none

/-- The call refreshes the ServiceDir `s`: it is `s.Refresh()`, or a write to a control
file whose parent is `s` of a payload whose first field is "refresh". -/
def Op.refreshes (w : World) (s : Addr) : Op → Bool
  | .refresh d => d == s
  | .writeFile c p =>
    match w.heap[c]? with
    | some (.ctl ctl) => ctl.parent == s && (Fields p).head? == some (bytesOf "refresh")
    | _ => false
  | _ => false

/-- The call is a new listing of the ServiceDir `s`: `s.ReadDir()` while the cache of `s`
is nil. -/
def Op.relists (w : World) (s : Addr) : Op → Bool
  | .readDir d =>
    d == s &&
      (match w.heap[s]? with
      | some (.serviceDir x) => x.cache.isNone
      | _ => false)
  | _ => false

/-- Some call of the sequence satisfies `f` in the world in which it is made. -/
def runAny (env : Env) (f : World → Op → Bool) : World → List Op → Bool
  | _, [] => false
  | w, op :: ops =>
    f w op ||
      (match step env w op with
      | some w1 => runAny env f w1 ops
      | none => false)

/-- Calls in the world `demoTwo` that do not refresh the ServiceDir at 1: the ServiceDir at
0 is listed, refreshed directly and through its control file (at 6) and listed again,
a TaskDir and a Ctl are refreshed, and a rejected and an empty payload are written to
the control file of the ServiceDir at 1. -/
def demoOpsOther : List Op :=
  [Op.readDir 0, Op.refresh 0, Op.readDir 0, Op.writeFile 6 (bytesOf "refresh"),
    Op.refresh 2, Op.refresh 3, Op.writeFile 3 (bytesOf "bogus"), Op.writeFile 3 [],
    Op.readDir 0, Op.readDir 1]

/-- The call `dir.ReadDir()` made `n` times in a row on the ServiceDir `self`: the world
after the calls and what they returned, in order. -/
def ServiceDir.readDirs (env : Env) (self : Addr) : World → Nat → Option (World × List DirResult)
  | w, 0 => some (w, [])
  | w, n + 1 =>
    match ServiceDir.ReadDir env w self with
    | some (w1, r) => (ServiceDir.readDirs env self w1 n).map (fun x => (x.1, r :: x.2))
    | none => none

/-- The events of `n` calls that do not overlap: the three parts of call 0, then the three
parts of call 1, and so on. -/
def serialEvents (n : Nat) : List Event :=
  (List.range n).flatMap (fun i => [Event.advance i, Event.advance i, Event.advance i])

/-- Some call of the sequence satisfies `f` in the world in which it is made and a later
call satisfies `g` in the world in which that one is made. -/
def runAnyThen (env : Env) (f g : World → Op → Bool) : World → List Op → Bool
  | _, [] => false
  | w, op :: ops =>
    match step env w op with
    | some w1 => (f w op && runAny env g w1 ops) || runAnyThen env f g w1 ops
    | none => false

/-- The number of parts a call of `ServiceDir.ReadDir` has at most left to run. -/
def ReadDirPc.stepsLeft : ReadDirPc → Nat
  | .check => 3
  | .fetch => 2
  | .store _ => 1
  | .done _ => 0

end Taskfs

namespace Taskfs

theorem getElem?_set_append_self {α : Type} (l m : List α) (i : Nat) (x y : α)
    (h : l[i]? = some x) : ((l ++ m).set i y)[i]? = some y := by
  have hi : i < l.length := (List.getElem?_eq_some.mp h).1
  rw [List.getElem?_set_self]
  simp; omega

/-- C1: two consecutive listings of a ServiceDir whose List succeeds return the same
entries and leave the same world; List is called once by the first listing when the
cache is cold and by neither listing otherwise. -/
theorem ServiceDir.ReadDir_twice (env : Env) (w : World) (self : Addr) (dir : ServiceDir)
    (a : List Task)
    (hdir : w.heap[self]? = some (.serviceDir dir))
    (hlist : env.list dir.svc.id (w.listLog.count dir.svc.id) = .ok a) :
    ∃ w1 entries,
      ServiceDir.ReadDir env w self = some (w1, (some entries, none)) ∧
      ServiceDir.ReadDir env w1 self = some (w1, (some entries, none)) ∧
      w1.listLog = w.listLog ++ (match dir.cache with
        | none => [dir.svc.id]
        | some _ => []) := by
  cases hc : dir.cache with
  | some c =>
    refine ⟨w, c, ?_, ?_, by simp⟩ <;> simp [ServiceDir.ReadDir, hdir, hc]
  | none =>
    simp only [ServiceDir.ReadDir, hdir, hc, hlist]
    refine ⟨_, _, rfl, ?_, rfl⟩
    simp only [List.append_assoc]
    rw [getElem?_set_append_self _ _ _ _ _ hdir]

/-- Witness of C1 on a tracker that lists no task: the cold ServiceDir is listed twice,
both listings return the one entry ctl and List is called once. -/
theorem ServiceDir.ReadDir_twice_witness :
    demoCold.heap[0]? = some (.serviceDir demoDir) ∧
    demoEnvEmpty.list demoDir.svc.id (demoCold.listLog.count demoDir.svc.id) = .ok [] ∧
    (ServiceDir.ReadDir demoEnvEmpty demoCold 0).map (·.2) = some (some [1], none) ∧
    ∃ w1 entries,
      ServiceDir.ReadDir demoEnvEmpty demoCold 0 = some (w1, (some entries, none)) ∧
      ServiceDir.ReadDir demoEnvEmpty w1 0 = some (w1, (some entries, none)) ∧
      w1.listLog = demoCold.listLog ++ [7] :=
  ⟨rfl, rfl, by decide,
    ServiceDir.ReadDir_twice demoEnvEmpty demoCold 0 demoDir [] rfl rfl⟩

theorem getElem?_set_append_fresh {α : Type} (l m : List α) (self i : Nat) (x : α)
    (hs : self < l.length) : ((l ++ m).set self x)[l.length + i]? = m[i]? := by
  rw [List.getElem?_set_ne (Nat.ne_of_lt (Nat.lt_of_lt_of_le hs (Nat.le_add_right _ _))),
    List.getElem?_append_right (Nat.le_add_right _ _)]
  simp

theorem map_getElem?_fresh {α : Type} (l m : List α) (self : Nat) (x : α) (hs : self < l.length) :
    (List.range m.length).map (fun i => ((l ++ m).set self x)[l.length + i]?) = m.map some := by
  apply List.ext_getElem?
  intro i
  simp only [List.getElem?_map]
  by_cases h : i < m.length
  · rw [List.getElem?_range h]
    simp only [Option.map_some']
    rw [List.getElem?_set_ne (by omega), List.getElem?_append_right (by omega)]
    simp [List.getElem?_eq_getElem h]
  · rw [List.getElem?_eq_none (by simpa using h), List.getElem?_eq_none (by simpa using h)]
    rfl

/-- What a listing on a cold cache returns when `List` succeeds. -/
theorem ServiceDir.ReadDir_cold_ok (env : Env) (w : World) (self : Addr) (dir : ServiceDir)
    (a : List Task)
    (hdir : w.heap[self]? = some (.serviceDir dir)) (hc : dir.cache = none)
    (hlist : env.list dir.svc.id (w.listLog.count dir.svc.id) = .ok a) :
    ServiceDir.ReadDir env w self = some
      ({ heap := (w.heap ++ a.map (fun task => Obj.taskDir (newTaskDir task)) ++
            [Obj.ctl (newCtl (env.now w.ticks) self)]).set self
            (.serviceDir { dir with
              cache := some ((List.range (a.length + 1)).map (w.heap.length + ·)) }),
          listLog := w.listLog ++ [dir.svc.id], ticks := w.ticks + 1 },
        (some ((List.range (a.length + 1)).map (w.heap.length + ·)), none)) := by
  simp only [ServiceDir.ReadDir, hdir, hc, hlist]

/-- What a listing on a cold cache returns when `List` fails. -/
theorem ServiceDir.ReadDir_cold_error (env : Env) (w : World) (self : Addr) (dir : ServiceDir)
    (err : Error)
    (hdir : w.heap[self]? = some (.serviceDir dir)) (hc : dir.cache = none)
    (hlist : env.list dir.svc.id (w.listLog.count dir.svc.id) = .error err) :
    ServiceDir.ReadDir env w self =
      some ({ w with listLog := w.listLog ++ [dir.svc.id] }, (none, some err)) := by
  simp only [ServiceDir.ReadDir, hdir, hc, hlist]

/-- What a listing on a warm cache returns. -/
theorem ServiceDir.ReadDir_warm (env : Env) (w : World) (self : Addr) (dir : ServiceDir)
    (c : List Addr)
    (hdir : w.heap[self]? = some (.serviceDir dir)) (hc : dir.cache = some c) :
    ServiceDir.ReadDir env w self = some (w, (some c, none)) := by
  simp only [ServiceDir.ReadDir, hdir, hc]

/-- The objects behind the entries of a new listing: one new TaskDir per task, in
order, then the new Ctl. -/
theorem listed_objects (l : List Obj) (a : List Task) (c x : Obj) (self : Addr)
    (hs : self < l.length) :
    ((List.range (a.length + 1)).map (l.length + ·)).map
        (fun e => ((l ++ a.map (fun task => Obj.taskDir (newTaskDir task)) ++ [c]).set self x)[e]?)
      = a.map (fun task => some (Obj.taskDir (newTaskDir task))) ++ [some c] := by
  have h := map_getElem?_fresh l (a.map (fun task => Obj.taskDir (newTaskDir task)) ++ [c]) self x hs
  simp only [List.length_append, List.length_map, List.length_singleton] at h
  rw [List.map_map, List.append_assoc]
  simpa [Function.comp_def] using h

/-- The names of the entries of a new listing: the keys of the tasks, then "ctl". -/
theorem listed_names (w : World) (entries : List Addr) (a : List Task) (now : Time) (self : Addr)
    (h : entries.map (fun e => w.heap[e]?)
      = a.map (fun task => some (Obj.taskDir (newTaskDir task))) ++
        [some (Obj.ctl (newCtl now self))]) :
    entryNames w entries = a.map (fun task => some task.Key) ++ [some "ctl"] := by
  have h2 := congrArg (List.map (fun o : Option Obj => (o.map Obj.toFileInfo).map (·.Name))) h
  simp only [List.map_map, List.map_append, List.map_cons, List.map_nil] at h2
  simpa [entryNames, Dir.Stat, Function.comp_def, Obj.toFileInfo, newTaskDir, newCtl] using h2

theorem Fields_refresh : Fields (bytesOf "refresh") = [bytesOf "refresh"] := by
  decide

/-- Writing a payload whose first field is "refresh" to a Ctl whose parent is a
ServiceDir clears the cache of that ServiceDir and changes nothing else. -/
theorem Ctl.WriteFile_first_refresh (w : World) (self : Addr) (ctl : Ctl) (dir : ServiceDir)
    (p : List UInt8) (rest : List (List UInt8))
    (hctl : w.heap[self]? = some (.ctl ctl))
    (hparent : w.heap[ctl.parent]? = some (.serviceDir dir))
    (hp : Fields p = bytesOf "refresh" :: rest) :
    Ctl.WriteFile w self p = some
      ({ w with heap := w.heap.set ctl.parent (.serviceDir { dir with cache := none }) }, none) := by
  simp [Ctl.WriteFile, hctl, hp, Dir.Refresh, ServiceDir.Refresh, hparent]

/-- C2: after "refresh" is written to a ctl entry of a ServiceDir (populated or not), the
next listing calls List once and its entries are new objects, one TaskDir per newly
listed task, in order, then a new Ctl; their names are the new keys followed by "ctl". -/
theorem refresh_then_relist (env : Env) (w : World) (self : Addr) (dir : ServiceDir)
    (ca : Addr) (ctl : Ctl) (a : List Task)
    (hdir : w.heap[self]? = some (.serviceDir dir))
    (hctl : w.heap[ca]? = some (.ctl ctl)) (hparent : ctl.parent = self)
    (hlist : env.list dir.svc.id (w.listLog.count dir.svc.id) = .ok a) :
    ∃ w1 w2 entries,
      Ctl.WriteFile w ca (bytesOf "refresh") = some (w1, none) ∧
      ServiceDir.ReadDir env w1 self = some (w2, (some entries, none)) ∧
      w2.listLog = w.listLog ++ [dir.svc.id] ∧
      entries.map (fun e => w2.heap[e]?)
        = a.map (fun task => some (Obj.taskDir (newTaskDir task))) ++
          [some (Obj.ctl (newCtl (env.now w.ticks) self))] ∧
      entryNames w2 entries = a.map (fun task => some task.Key) ++ [some "ctl"] ∧
      ∀ e ∈ entries, w.heap.length ≤ e := by
  have hs : self < w.heap.length := (List.getElem?_eq_some.mp hdir).1
  subst hparent
  have hw := Ctl.WriteFile_first_refresh w ca ctl dir (bytesOf "refresh") [] hctl hdir Fields_refresh
  have hdir1 : (w.heap.set ctl.parent (.serviceDir { dir with cache := none }))[ctl.parent]?
      = some (.serviceDir { dir with cache := none }) := by
    rw [List.getElem?_set_self hs]
  have hr := ServiceDir.ReadDir_cold_ok env
    { w with heap := w.heap.set ctl.parent (.serviceDir { dir with cache := none }) }
    ctl.parent { dir with cache := none } a hdir1 rfl hlist
  have hobj := listed_objects (w.heap.set ctl.parent (.serviceDir { dir with cache := none }))
    a (Obj.ctl (newCtl (env.now w.ticks) ctl.parent))
    (.serviceDir { dir with
      cache := some ((List.range (a.length + 1)).map (w.heap.length + ·)) }) ctl.parent
    (by simpa using hs)
  simp only [List.length_set] at hr hobj
  refine ⟨_, _, _, hw, hr, rfl, hobj, listed_names _ _ _ _ _ hobj, ?_⟩
  intro e he
  simp only [List.mem_map, List.mem_range] at he
  obtain ⟨i, _, rfl⟩ := he
  omega

/-- Witness of C2, the scenario of the specification: the tasks "1" and "2" are listed,
then "refresh" is written to the ctl entry and the tracker lists only "1". -/
theorem refresh_then_relist_witness :
    ServiceDir.ReadDir demoEnv demoCold 0 = some (demoWarm, (some [1, 2, 3], none)) ∧
    entryNames demoWarm [1, 2, 3] = [some "1", some "2", some "ctl"] ∧
    demoWarm.heap[3]? = some (.ctl (newCtl 1001 0)) ∧
    ∃ w1 w2 entries,
      Ctl.WriteFile demoWarm 3 (bytesOf "refresh") = some (w1, none) ∧
      ServiceDir.ReadDir demoEnv w1 0 = some (w2, (some entries, none)) ∧
      w2.listLog = [7, 7] ∧
      entries.map (fun e => w2.heap[e]?)
        = [some (Obj.taskDir (newTaskDir demoTask1)), some (Obj.ctl (newCtl 1002 0))] ∧
      entryNames w2 entries = [some "1", some "ctl"] ∧
      ∀ e ∈ entries, 4 ≤ e :=
  ⟨by decide, by decide, rfl,
    refresh_then_relist demoEnv demoWarm 0 { demoDir with cache := some [1, 2, 3] } 3
      (newCtl 1001 0) [demoTask1] rfl rfl rfl rfl⟩

/-- C3: a failed fetch on a cold cache returns the error of List with no entries, leaves
the heap (so the empty cache) as it was, and the next listing calls List again; when
that call succeeds the listing is the full snapshot of its result and is cached. -/
theorem fetch_failure_not_cached (env : Env) (w : World) (self : Addr) (dir : ServiceDir)
    (err : Error)
    (hdir : w.heap[self]? = some (.serviceDir dir)) (hc : dir.cache = none)
    (hlist : env.list dir.svc.id (w.listLog.count dir.svc.id) = .error err) :
    ∃ w1,
      ServiceDir.ReadDir env w self = some (w1, (none, some err)) ∧
      w1.heap = w.heap ∧ w1.heap[self]? = some (.serviceDir dir) ∧
      w1.listLog = w.listLog ++ [dir.svc.id] ∧
      (∃ w2 r, ServiceDir.ReadDir env w1 self = some (w2, r) ∧
        w2.listLog = w1.listLog ++ [dir.svc.id]) ∧
      ∀ a, env.list dir.svc.id (w.listLog.count dir.svc.id + 1) = .ok a →
        ∃ w2 entries,
          ServiceDir.ReadDir env w1 self = some (w2, (some entries, none)) ∧
          entries.map (fun e => w2.heap[e]?)
            = a.map (fun task => some (Obj.taskDir (newTaskDir task))) ++
              [some (Obj.ctl (newCtl (env.now w.ticks) self))] ∧
          w2.heap[self]? = some (.serviceDir { dir with cache := some entries }) := by
  have hs : self < w.heap.length := (List.getElem?_eq_some.mp hdir).1
  have hcount : (w.listLog ++ [dir.svc.id]).count dir.svc.id
      = w.listLog.count dir.svc.id + 1 := by
    simp
  refine ⟨_, ServiceDir.ReadDir_cold_error env w self dir err hdir hc hlist, rfl, hdir, rfl,
    ?_, ?_⟩
  · cases hnext : env.list dir.svc.id (w.listLog.count dir.svc.id + 1) with
    | error e2 =>
      exact ⟨_, _, ServiceDir.ReadDir_cold_error env
        { w with listLog := w.listLog ++ [dir.svc.id] } self dir e2 hdir hc
        (by rw [hcount]; exact hnext), rfl⟩
    | ok a =>
      exact ⟨_, _, ServiceDir.ReadDir_cold_ok env
        { w with listLog := w.listLog ++ [dir.svc.id] } self dir a hdir hc
        (by rw [hcount]; exact hnext), rfl⟩
  · intro a hnext
    refine ⟨_, _, ServiceDir.ReadDir_cold_ok env
      { w with listLog := w.listLog ++ [dir.svc.id] } self dir a hdir hc
      (by rw [hcount]; exact hnext), listed_objects _ _ _ _ _ hs, ?_⟩
    simp only [List.append_assoc]
    exact getElem?_set_append_self _ _ _ _ _ hdir

/-- Witness of C3: the first call of the tracker fails with "timeout", the second lists
the task "1". -/
theorem fetch_failure_not_cached_witness :
    demoCold.heap[0]? = some (.serviceDir demoDir) ∧ demoDir.cache = none ∧
    demoEnvFail.list 7 0 = .error (Error.upstream "timeout") ∧
    demoEnvFail.list 7 1 = .ok [demoTask1] ∧
    ∃ w1,
      ServiceDir.ReadDir demoEnvFail demoCold 0
        = some (w1, (none, some (Error.upstream "timeout"))) ∧
      w1.heap = demoCold.heap ∧ w1.heap[0]? = some (.serviceDir demoDir) ∧
      w1.listLog = [7] ∧
      (∃ w2 r, ServiceDir.ReadDir demoEnvFail w1 0 = some (w2, r) ∧
        w2.listLog = w1.listLog ++ [7]) ∧
      ∃ w2 entries,
        ServiceDir.ReadDir demoEnvFail w1 0 = some (w2, (some entries, none)) ∧
        entries.map (fun e => w2.heap[e]?)
          = [some (Obj.taskDir (newTaskDir demoTask1)), some (Obj.ctl (newCtl 1001 0))] ∧
        w2.heap[0]? = some (.serviceDir { demoDir with cache := some entries }) := by
  refine ⟨rfl, rfl, rfl, rfl, ?_⟩
  obtain ⟨w1, h1, h2, h3, h4, h5, h6⟩ :=
    fetch_failure_not_cached demoEnvFail demoCold 0 demoDir (Error.upstream "timeout")
      rfl rfl rfl
  exact ⟨w1, h1, h2, h3, h4, h5, h6 [demoTask1] rfl⟩

theorem newTaskDir_IsDir (task : Task) : (newTaskDir task).IsDir = true := by
  show ((ModeDir ||| 0o755) &&& ModeDir != 0) = true
  decide

theorem newCtl_IsDir (now : Time) (parent : Addr) : (newCtl now parent).IsDir = false := by
  show (0o644 &&& ModeDir != 0) = false
  decide

/-- The entry at position `i` of a listing whose objects are known. -/
theorem entry_of_objects (heap : List Obj) (entries : List Addr) (objs : List Obj) (i : Nat)
    (o : Obj) (h : entries.map (fun e => heap[e]?) = objs.map some) (ho : objs[i]? = some o) :
    ∃ e, entries[i]? = some e ∧ heap[e]? = some o := by
  have h2 := congrArg (fun l => l[i]?) h
  simp only [List.getElem?_map, ho, Option.map_some'] at h2
  cases he : entries[i]? with
  | none => simp [he] at h2
  | some e => exact ⟨e, rfl, by simpa [he] using h2⟩

/-- C5: the first listing of a ServiceDir has one entry more than List returned tasks;
entry `i` is a directory with mode dir|0755 named by the key of task `i` and wrapping
it, and the last entry is the file "ctl" with mode 0644 whose parent is the ServiceDir. -/
theorem listing_shape (env : Env) (w : World) (self : Addr) (dir : ServiceDir) (a : List Task)
    (hdir : w.heap[self]? = some (.serviceDir dir)) (hc : dir.cache = none)
    (hlist : env.list dir.svc.id (w.listLog.count dir.svc.id) = .ok a) :
    ∃ w1 entries,
      ServiceDir.ReadDir env w self = some (w1, (some entries, none)) ∧
      entries.length = a.length + 1 ∧
      (∀ (i : Nat) (task : Task), a[i]? = some task → ∃ (e : Addr) (td : TaskDir),
        entries[i]? = some e ∧ w1.heap[e]? = some (.taskDir td) ∧
        td.IsDir = true ∧ td.Mode = ModeDir ||| 0o755 ∧ td.Name = task.Key ∧
        td.task = task) ∧
      ∃ (e : Addr) (ctl : Ctl),
        entries[a.length]? = some e ∧ entries.getLast? = some e ∧
        w1.heap[e]? = some (.ctl ctl) ∧
        ctl.Name = "ctl" ∧ ctl.Mode = 0o644 ∧ ctl.IsDir = false ∧ ctl.parent = self := by
  have hs : self < w.heap.length := (List.getElem?_eq_some.mp hdir).1
  have hobj := listed_objects w.heap a (Obj.ctl (newCtl (env.now w.ticks) self))
    (.serviceDir { dir with
      cache := some ((List.range (a.length + 1)).map (w.heap.length + ·)) }) self hs
  have hobj2 : ((List.range (a.length + 1)).map (w.heap.length + ·)).map
      (fun e => ((w.heap ++ a.map (fun task => Obj.taskDir (newTaskDir task)) ++
        [Obj.ctl (newCtl (env.now w.ticks) self)]).set self
          (.serviceDir { dir with
            cache := some ((List.range (a.length + 1)).map (w.heap.length + ·)) }))[e]?)
      = (a.map (fun task => Obj.taskDir (newTaskDir task)) ++
          [Obj.ctl (newCtl (env.now w.ticks) self)]).map some := by
    rw [hobj]; simp
  refine ⟨_, _, ServiceDir.ReadDir_cold_ok env w self dir a hdir hc hlist, by simp, ?_, ?_⟩
  · intro i task hi
    have hi2 : (a.map (fun task => Obj.taskDir (newTaskDir task)) ++
        [Obj.ctl (newCtl (env.now w.ticks) self)])[i]? = some (Obj.taskDir (newTaskDir task)) := by
      have hlt : i < a.length := (List.getElem?_eq_some.mp hi).1
      rw [List.getElem?_append_left (by simpa using hlt)]
      simp [hi]
    obtain ⟨e, he1, he2⟩ := entry_of_objects _ _ _ i _ hobj2 hi2
    exact ⟨e, newTaskDir task, he1, he2, newTaskDir_IsDir task, rfl, rfl, rfl⟩
  · have hi2 : (a.map (fun task => Obj.taskDir (newTaskDir task)) ++
        [Obj.ctl (newCtl (env.now w.ticks) self)])[a.length]?
        = some (Obj.ctl (newCtl (env.now w.ticks) self)) := by
      rw [List.getElem?_append_right (by simp)]
      simp
    obtain ⟨e, he1, he2⟩ := entry_of_objects _ _ _ a.length _ hobj2 hi2
    refine ⟨e, newCtl (env.now w.ticks) self, he1, ?_, he2, rfl, rfl, newCtl_IsDir _ _, rfl⟩
    rw [List.getLast?_eq_getElem?]
    simpa using he1

/-- Witness of C5: the first listing of the scenario. -/
theorem listing_shape_witness :
    demoCold.heap[0]? = some (.serviceDir demoDir) ∧ demoDir.cache = none ∧
    demoEnv.list 7 0 = .ok [demoTask1, demoTask2] ∧
    ∃ w1 entries,
      ServiceDir.ReadDir demoEnv demoCold 0 = some (w1, (some entries, none)) ∧
      entries.length = 3 ∧
      (∀ (i : Nat) (task : Task), [demoTask1, demoTask2][i]? = some task →
        ∃ (e : Addr) (td : TaskDir),
        entries[i]? = some e ∧ w1.heap[e]? = some (.taskDir td) ∧
        td.IsDir = true ∧ td.Mode = ModeDir ||| 0o755 ∧ td.Name = task.Key ∧
        td.task = task) ∧
      ∃ (e : Addr) (ctl : Ctl),
        entries[2]? = some e ∧ entries.getLast? = some e ∧
        w1.heap[e]? = some (.ctl ctl) ∧
        ctl.Name = "ctl" ∧ ctl.Mode = 0o644 ∧ ctl.IsDir = false ∧ ctl.parent = 0 :=
  ⟨rfl, rfl, rfl, listing_shape demoEnv demoCold 0 demoDir [demoTask1, demoTask2] rfl rfl rfl⟩

/-- The bytes `[]byte(s)` are the UTF-8 encoding that the library computes. -/
theorem bytesOf_eq_toUTF8 (s : String) : bytesOf s = s.toUTF8.data.toList :=
  rfl

/-- The number of bytes of `[]byte(s)` is the UTF-8 size of `s`. -/
theorem length_bytesOf (s : String) : (bytesOf s).length = s.utf8ByteSize := by
  have h := String.size_toUTF8 s
  simpa [ByteArray.size, bytesOf_eq_toUTF8] using h

theorem newText_IsDir (dir : TaskDir) (name s : String) : (dir.newText name s).IsDir = false := by
  show (0o644 &&& ModeDir != 0) = false
  decide

/-- What the first listing of a TaskDir returns. -/
theorem TaskDir.ReadDir_cold (w : World) (self : Addr) (dir : TaskDir)
    (hdir : w.heap[self]? = some (.taskDir dir)) (hf : dir.files = none) :
    TaskDir.ReadDir w self = some
      (World.mk
        ((w.heap ++ [Obj.text (dir.newText "subject" dir.task.Subject),
          Obj.text (dir.newText "message" dir.task.Message),
          Obj.text (dir.newText "url" dir.task.PermaLink)]).set self
            (.taskDir { dir with
              files := some [w.heap.length, w.heap.length + 1, w.heap.length + 2] }))
        w.listLog w.ticks,
        (some [w.heap.length, w.heap.length + 1, w.heap.length + 2], none)) := by
  simp only [TaskDir.ReadDir, hdir, hf]

/-- C6: the first listing of a TaskDir returns three new leaves named "subject",
"message" and "url", in this order; reading each returns, with no error, the bytes
of the Subject, Message and PermaLink of the task, and the Size of each is the
number of those bytes, which is the UTF-8 size of the string; a second listing
returns the same three leaves. -/
theorem TaskDir.ReadDir_leaves (w : World) (self : Addr) (dir : TaskDir)
    (hdir : w.heap[self]? = some (.taskDir dir)) (hf : dir.files = none) :
    ∃ (w1 : World) (f1 f2 f3 : Addr) (i1 i2 i3 : FileInfo),
      TaskDir.ReadDir w self = some (w1, (some [f1, f2, f3], none)) ∧
      Dir.Stat w1 f1 = some i1 ∧ Dir.Stat w1 f2 = some i2 ∧ Dir.Stat w1 f3 = some i3 ∧
      i1.Name = "subject" ∧ i2.Name = "message" ∧ i3.Name = "url" ∧
      Text.ReadFile w1 f1 = some (w1, (some (bytesOf dir.task.Subject), none)) ∧
      Text.ReadFile w1 f2 = some (w1, (some (bytesOf dir.task.Message), none)) ∧
      Text.ReadFile w1 f3 = some (w1, (some (bytesOf dir.task.PermaLink), none)) ∧
      i1.Size = (bytesOf dir.task.Subject).length ∧
      i2.Size = (bytesOf dir.task.Message).length ∧
      i3.Size = (bytesOf dir.task.PermaLink).length ∧
      i1.Size = dir.task.Subject.utf8ByteSize ∧
      i2.Size = dir.task.Message.utf8ByteSize ∧
      i3.Size = dir.task.PermaLink.utf8ByteSize ∧
      i1.IsDir = false ∧ i2.IsDir = false ∧ i3.IsDir = false ∧
      TaskDir.ReadDir w1 self = some (w1, (some [f1, f2, f3], none)) := by
  have hs : self < w.heap.length := (List.getElem?_eq_some.mp hdir).1
  have h1 : ∀ (x : Obj) (t1 t2 t3 : Obj), ((w.heap ++ [t1, t2, t3]).set self x)[w.heap.length]?
      = some t1 := by
    intro x t1 t2 t3
    simpa using getElem?_set_append_fresh w.heap [t1, t2, t3] self 0 x hs
  have h2 : ∀ (x : Obj) (t1 t2 t3 : Obj),
      ((w.heap ++ [t1, t2, t3]).set self x)[w.heap.length + 1]? = some t2 := by
    intro x t1 t2 t3
    simpa using getElem?_set_append_fresh w.heap [t1, t2, t3] self 1 x hs
  have h3 : ∀ (x : Obj) (t1 t2 t3 : Obj),
      ((w.heap ++ [t1, t2, t3]).set self x)[w.heap.length + 2]? = some t3 := by
    intro x t1 t2 t3
    simpa using getElem?_set_append_fresh w.heap [t1, t2, t3] self 2 x hs
  refine ⟨_, w.heap.length, w.heap.length + 1, w.heap.length + 2,
    (dir.newText "subject" dir.task.Subject).toFileInfo,
    (dir.newText "message" dir.task.Message).toFileInfo,
    (dir.newText "url" dir.task.PermaLink).toFileInfo,
    TaskDir.ReadDir_cold w self dir hdir hf, ?_⟩
  have h0 : ∀ (x : Obj) (t1 t2 t3 : Obj), ((w.heap ++ [t1, t2, t3]).set self x)[self]? = some x :=
    fun x t1 t2 t3 => getElem?_set_append_self _ _ _ _ _ hdir
  simp only [Dir.Stat, Text.ReadFile, TaskDir.ReadDir, h0, h1, h2, h3]
  refine ⟨rfl, rfl, rfl, rfl, rfl, rfl, rfl, rfl, rfl, rfl, rfl, rfl, ?_, ?_, ?_,
    newText_IsDir _ _ _, newText_IsDir _ _ _, newText_IsDir _ _ _, trivial⟩
  · exact congrArg Int.ofNat (length_bytesOf _)
  · exact congrArg Int.ofNat (length_bytesOf _)
  · exact congrArg Int.ofNat (length_bytesOf _)

/-- Witness of C6: the message "héllo" of task "1" has five characters and six bytes;
the leaf "message" has size six. -/
theorem TaskDir.ReadDir_leaves_witness :
    demoTaskWorld.heap[0]? = some (.taskDir (newTaskDir demoTask1)) ∧
    demoTask1.Message.length = 5 ∧
    ∃ (w1 : World) (f1 f2 f3 : Addr) (i1 i2 i3 : FileInfo),
      TaskDir.ReadDir demoTaskWorld 0 = some (w1, (some [f1, f2, f3], none)) ∧
      Dir.Stat w1 f1 = some i1 ∧ Dir.Stat w1 f2 = some i2 ∧ Dir.Stat w1 f3 = some i3 ∧
      i1.Name = "subject" ∧ i2.Name = "message" ∧ i3.Name = "url" ∧
      Text.ReadFile w1 f1 = some (w1, (some (bytesOf "first"), none)) ∧
      Text.ReadFile w1 f2 = some (w1, (some (bytesOf "héllo"), none)) ∧
      Text.ReadFile w1 f3 = some (w1, (some (bytesOf "http://t/1"), none)) ∧
      i1.Size = (bytesOf "first").length ∧
      i2.Size = (bytesOf "héllo").length ∧
      i3.Size = (bytesOf "http://t/1").length ∧
      i1.Size = 5 ∧ i2.Size = 6 ∧ i3.Size = 10 ∧
      i1.IsDir = false ∧ i2.IsDir = false ∧ i3.IsDir = false ∧
      TaskDir.ReadDir w1 0 = some (w1, (some [f1, f2, f3], none)) :=
  ⟨rfl, by decide, TaskDir.ReadDir_leaves demoTaskWorld 0 (newTaskDir demoTask1) rfl rfl⟩

/-- Every rune read from a non-empty string takes at least one byte. -/
theorem decodeRune_width_pos (b : UInt8) (bs : List UInt8) : 1 ≤ (decodeRune (b :: bs)).2 := by
  unfold decodeRune
  simp only [List.map_cons]
  repeat' split
  all_goals simp

/-- The bound on the number of runes is never reached: the runes read from a string
cover all its bytes, in order. -/
theorem decodeRunes_flatten (fuel : Nat) (s : List UInt8) (h : s.length ≤ fuel) :
    (decodeRunes fuel s).flatMap (·.2) = s := by
  induction fuel generalizing s with
  | zero =>
    have : s = [] := List.length_eq_zero.mp (Nat.le_zero.mp h)
    subst this
    rfl
  | succ n ih =>
    cases s with
    | nil => rfl
    | cons b bs =>
      have hpos := decodeRune_width_pos b bs
      simp only [decodeRunes, List.flatMap_cons]
      rw [ih]
      · exact List.take_append_drop _ _
      · simp only [List.length_drop, List.length_cons] at h ⊢
        omega

theorem runes_flatten (s : List UInt8) : (runes s).flatMap (·.2) = s :=
  decodeRunes_flatten s.length s (Nat.le_refl _)

/-- Runs of white space produce no field. -/
theorem fieldsLoop_spaces (f : Nat → Bool) (rs : List (Nat × List UInt8))
    (h : ∀ x ∈ rs, f x.1 = true) : fieldsLoop f rs none = [] := by
  induction rs with
  | nil => rfl
  | cons x rest ih =>
    obtain ⟨r, bs⟩ := x
    have hr : f r = true := h (r, bs) (List.mem_cons_self _ _)
    simp only [fieldsLoop, hr, if_true]
    exact ih (fun y hy => h y (List.mem_cons_of_mem _ hy))

/-- A string has no field exactly when all its runes are white space. -/
theorem fieldsLoop_eq_nil (f : Nat → Bool) (rs : List (Nat × List UInt8))
    (cur : Option (List UInt8)) (h : fieldsLoop f rs cur = []) :
    cur = none ∧ ∀ x ∈ rs, f x.1 = true := by
  induction rs generalizing cur with
  | nil =>
    cases cur with
    | none => exact ⟨rfl, by simp⟩
    | some c => simp [fieldsLoop] at h
  | cons x rest ih =>
    obtain ⟨r, bs⟩ := x
    cases hr : f r with
    | true =>
      cases cur with
      | none =>
        simp only [fieldsLoop, hr, if_true] at h
        refine ⟨rfl, ?_⟩
        intro y hy
        rcases List.mem_cons.mp hy with rfl | hy
        · exact hr
        · exact (ih none h).2 y hy
      | some c => simp [fieldsLoop, hr] at h
    | false =>
      simp only [fieldsLoop, hr] at h
      have := (ih _ h).1
      simp at this

/-- The payloads without a field are those made of white space only. -/
theorem Fields_eq_nil_iff (p : List UInt8) :
    Fields p = [] ↔ ∀ x ∈ runes p, IsSpace x.1 = true :=
  ⟨fun h => (fieldsLoop_eq_nil IsSpace (runes p) none h).2, fieldsLoop_spaces IsSpace (runes p)⟩

/-- An ASCII byte is a rune of width 1. -/
theorem decodeRune_ascii (b : UInt8) (bs : List UInt8) (h : b.toNat < 0x80) :
    decodeRune (b :: bs) = (b.toNat, 1) := by
  simp [decodeRune, h]

/-- The runes of a string that starts with ASCII bytes. -/
theorem decodeRunes_ascii (pre rest : List UInt8) (fuel : Nat)
    (h : ∀ b ∈ pre, b.toNat < 0x80) :
    decodeRunes (pre.length + fuel) (pre ++ rest)
      = pre.map (fun b => (b.toNat, [b])) ++ decodeRunes fuel rest := by
  induction pre with
  | nil => simp
  | cons b pre ih =>
    have hb : b.toNat < 0x80 := h b (List.mem_cons_self _ _)
    have hf : (b :: pre).length + fuel = (pre.length + fuel) + 1 := by
      simp only [List.length_cons]
      omega
    rw [hf, List.cons_append]
    simp only [decodeRunes, decodeRune_ascii b (pre ++ rest) hb, List.take_succ_cons,
      List.take_zero, List.drop_succ_cons, List.drop_zero, List.map_cons, List.cons_append]
    rw [ih (fun x hx => h x (List.mem_cons_of_mem _ hx))]

/-- White space in front of a string produces no field. -/
theorem fieldsLoop_skip (f : Nat → Bool) (ws : List UInt8) (rs : List (Nat × List UInt8))
    (h : ∀ b ∈ ws, f b.toNat = true) :
    fieldsLoop f (ws.map (fun b => (b.toNat, [b])) ++ rs) none = fieldsLoop f rs none := by
  induction ws with
  | nil => rfl
  | cons b ws ih =>
    have hb : f b.toNat = true := h b (List.mem_cons_self _ _)
    simp only [List.map_cons, List.cons_append, fieldsLoop, hb, if_true]
    exact ih (fun x hx => h x (List.mem_cons_of_mem _ hx))

/-- A rune that is not white space extends the field that is being read. -/
theorem fieldsLoop_cons_false (f : Nat → Bool) (r : Nat) (bs : List UInt8)
    (rs : List (Nat × List UInt8)) (cur : Option (List UInt8)) (h : f r = false) :
    fieldsLoop f ((r, bs) :: rs) cur = fieldsLoop f rs (some (cur.getD [] ++ bs)) := by
  cases cur <;> simp only [fieldsLoop, h] <;> rfl

/-- A white space ends the field that is being read. -/
theorem fieldsLoop_cons_true (f : Nat → Bool) (r : Nat) (bs : List UInt8)
    (rs : List (Nat × List UInt8)) (c : List UInt8) (h : f r = true) :
    fieldsLoop f ((r, bs) :: rs) (some c) = c :: fieldsLoop f rs none := by
  simp only [fieldsLoop, h, if_true]

/-- Bytes that are not white space extend the field that is being read. -/
theorem fieldsLoop_token (f : Nat → Bool) (b : UInt8) (tok : List UInt8)
    (rs : List (Nat × List UInt8)) (cur : Option (List UInt8))
    (h : ∀ x ∈ b :: tok, f x.toNat = false) :
    fieldsLoop f ((b :: tok).map (fun x => (x.toNat, [x])) ++ rs) cur
      = fieldsLoop f rs (some (cur.getD [] ++ b :: tok)) := by
  induction tok generalizing b cur with
  | nil =>
    have hb : f b.toNat = false := h b (List.mem_cons_self _ _)
    simp only [List.map_cons, List.map_nil, List.cons_append, List.nil_append]
    rw [fieldsLoop_cons_false f _ _ _ _ hb]
  | cons c tok ih =>
    have hb : f b.toNat = false := h b (List.mem_cons_self _ _)
    have hrest := ih c (some (cur.getD [] ++ [b])) (fun x hx => h x (List.mem_cons_of_mem _ hx))
    rw [List.map_cons, List.cons_append, fieldsLoop_cons_false f _ _ _ _ hb, hrest]
    simp

/-- The payloads whose first field is "refresh": any ASCII white space, then "refresh",
then nothing more or an ASCII white space (a newline, say) followed by any bytes. -/
theorem Fields_refresh_first (ws tail : List UInt8)
    (hws : ∀ b ∈ ws, b.toNat < 0x80 ∧ IsSpace b.toNat = true)
    (htail : tail = [] ∨ ∃ b tl, tail = b :: tl ∧ b.toNat < 0x80 ∧ IsSpace b.toNat = true) :
    ∃ rest, Fields (ws ++ (bytesOf "refresh" ++ tail)) = bytesOf "refresh" :: rest := by
  have hlen : (ws ++ (bytesOf "refresh" ++ tail)).length
      = ws.length + ((bytesOf "refresh").length + tail.length) := by
    simp
  have htok : ∀ x ∈ bytesOf "refresh", x.toNat < 0x80 := by decide
  have hns : ∀ x ∈ (114 : UInt8) :: [101, 102, 114, 101, 115, 104], IsSpace x.toNat = false := by
    decide
  have hbytes : bytesOf "refresh" = (114 : UInt8) :: [101, 102, 114, 101, 115, 104] := by decide
  unfold Fields runes
  rw [hlen, decodeRunes_ascii ws _ _ (fun b hb => (hws b hb).1),
    decodeRunes_ascii (bytesOf "refresh") tail _ htok,
    fieldsLoop_skip IsSpace ws _ (fun b hb => (hws b hb).2), hbytes,
    fieldsLoop_token IsSpace _ _ _ none hns]
  rcases htail with rfl | ⟨b, tl, rfl, hb, hsp⟩
  · exact ⟨[], rfl⟩
  · have h1 : decodeRunes (b :: tl).length (b :: tl)
        = (b.toNat, [b]) :: decodeRunes tl.length tl := by
      have := decodeRunes_ascii [b] tl tl.length (by simpa using hb)
      simpa [Nat.add_comm] using this
    rw [h1]
    exact ⟨fieldsLoop IsSpace (decodeRunes tl.length tl) none,
      fieldsLoop_cons_true IsSpace _ _ _ _ hsp⟩

/-- C7: when the first field of the payload is "refresh", WriteFile returns no error and
the cache of the owning ServiceDir is empty afterwards; no other object, the log of
List calls and the clock are as before. -/
theorem Ctl.WriteFile_refresh (w : World) (self : Addr) (ctl : Ctl) (dir : ServiceDir)
    (p : List UInt8) (rest : List (List UInt8))
    (hctl : w.heap[self]? = some (.ctl ctl))
    (hparent : w.heap[ctl.parent]? = some (.serviceDir dir))
    (hp : Fields p = bytesOf "refresh" :: rest) :
    ∃ w1,
      Ctl.WriteFile w self p = some (w1, none) ∧
      w1.heap[ctl.parent]? = some (.serviceDir { dir with cache := none }) ∧
      (∀ j, j ≠ ctl.parent → w1.heap[j]? = w.heap[j]?) ∧
      w1.listLog = w.listLog ∧ w1.ticks = w.ticks := by
  have hs : ctl.parent < w.heap.length := (List.getElem?_eq_some.mp hparent).1
  refine ⟨_, Ctl.WriteFile_first_refresh w self ctl dir p rest hctl hparent hp, ?_, ?_, rfl, rfl⟩
  · exact List.getElem?_set_self hs
  · intro j hj
    exact List.getElem?_set_ne (Ne.symm hj)

/-- Witness of C7: white space before "refresh", then a further field and a final
newline, written to the ctl entry of the populated ServiceDir of the scenario. -/
theorem Ctl.WriteFile_refresh_witness :
    demoWarm.heap[3]? = some (.ctl (newCtl 1001 0)) ∧
    demoWarm.heap[0]? = some (.serviceDir { demoDir with cache := some [1, 2, 3] }) ∧
    Fields (bytesOf " \t refresh now\n") = [bytesOf "refresh", bytesOf "now"] ∧
    ∃ w1,
      Ctl.WriteFile demoWarm 3 (bytesOf " \t refresh now\n") = some (w1, none) ∧
      w1.heap[0]? = some (.serviceDir demoDir) ∧
      (∀ j, j ≠ 0 → w1.heap[j]? = demoWarm.heap[j]?) ∧
      w1.listLog = demoWarm.listLog ∧ w1.ticks = demoWarm.ticks :=
  ⟨rfl, rfl, by decide,
    Ctl.WriteFile_refresh demoWarm 3 (newCtl 1001 0) { demoDir with cache := some [1, 2, 3] }
      (bytesOf " \t refresh now\n") [bytesOf "now"] rfl rfl (by decide)⟩

/-- C8: WriteFile returns an error exactly when the payload has a first field and that
field is not "refresh"; the error is then "unknown command" and the world, so the
cache of the owning ServiceDir, is as before. -/
theorem Ctl.WriteFile_error_iff (w : World) (self : Addr) (ctl : Ctl) (dir : ServiceDir)
    (p : List UInt8)
    (hctl : w.heap[self]? = some (.ctl ctl))
    (hparent : w.heap[ctl.parent]? = some (.serviceDir dir)) :
    ∃ w1 r,
      Ctl.WriteFile w self p = some (w1, r) ∧
      (r ≠ none ↔ ∃ tok rest, Fields p = tok :: rest ∧ tok ≠ bytesOf "refresh") ∧
      (r ≠ none → r = some Error.unknownCommand ∧ w1 = w ∧
        w1.heap[ctl.parent]? = some (.serviceDir dir)) := by
  cases hf : Fields p with
  | nil =>
    refine ⟨w, none, by simp [Ctl.WriteFile, hctl, hf], ?_, by simp⟩
    simp
  | cons a0 rest =>
    by_cases h0 : a0 = bytesOf "refresh"
    · subst h0
      refine ⟨_, none, Ctl.WriteFile_first_refresh w self ctl dir p rest hctl hparent hf, ?_,
        by simp⟩
      simp
    · refine ⟨w, some Error.unknownCommand, by simp [Ctl.WriteFile, hctl, hf, h0], ?_, ?_⟩
      · simp [h0]
      · intro _
        exact ⟨rfl, rfl, hparent⟩

/-- Witness of C8: the payloads "bogus", "Refresh" and "bogus refresh" have a first field
other than "refresh"; "bogus refresh" is written to the ctl entry of the scenario. -/
theorem Ctl.WriteFile_error_iff_witness :
    demoWarm.heap[3]? = some (.ctl (newCtl 1001 0)) ∧
    demoWarm.heap[0]? = some (.serviceDir { demoDir with cache := some [1, 2, 3] }) ∧
    Ctl.WriteFile demoWarm 3 (bytesOf "bogus") = some (demoWarm, some Error.unknownCommand) ∧
    Ctl.WriteFile demoWarm 3 (bytesOf "Refresh") = some (demoWarm, some Error.unknownCommand) ∧
    Ctl.WriteFile demoWarm 3 (bytesOf "bogus refresh")
      = some (demoWarm, some Error.unknownCommand) ∧
    ∃ w1 r,
      Ctl.WriteFile demoWarm 3 (bytesOf "bogus refresh") = some (w1, r) ∧
      (r ≠ none ↔ ∃ tok rest, Fields (bytesOf "bogus refresh") = tok :: rest ∧
        tok ≠ bytesOf "refresh") ∧
      (r ≠ none → r = some Error.unknownCommand ∧ w1 = demoWarm ∧
        w1.heap[0]? = some (.serviceDir { demoDir with cache := some [1, 2, 3] })) :=
  ⟨rfl, rfl, by decide, by decide, by decide,
    Ctl.WriteFile_error_iff demoWarm 3 (newCtl 1001 0) { demoDir with cache := some [1, 2, 3] }
      (bytesOf "bogus refresh") rfl rfl⟩

/-- C9: a payload made of white space only (the empty payload included) is accepted with
no error and leaves the world as it was; a populated owning ServiceDir then answers
the next listing from its cache, with the same entries and no call of List. -/
theorem Ctl.WriteFile_blank (env : Env) (w : World) (self : Addr) (ctl : Ctl)
    (dir : ServiceDir) (c : List Addr) (p : List UInt8)
    (hctl : w.heap[self]? = some (.ctl ctl))
    (hparent : w.heap[ctl.parent]? = some (.serviceDir dir)) (hc : dir.cache = some c)
    (hp : ∀ x ∈ runes p, IsSpace x.1 = true) :
    Ctl.WriteFile w self p = some (w, none) ∧
    ServiceDir.ReadDir env w ctl.parent = some (w, (some c, none)) := by
  have hf : Fields p = [] := (Fields_eq_nil_iff p).mpr hp
  exact ⟨by simp [Ctl.WriteFile, hctl, hf], ServiceDir.ReadDir_warm env w ctl.parent dir c hparent hc⟩

/-- Witness of C9: the empty payload and a payload of blanks, a tab, a newline and a
no-break space and an ideographic space, written to the ctl entry of the scenario. -/
theorem Ctl.WriteFile_blank_witness :
    demoWarm.heap[3]? = some (.ctl (newCtl 1001 0)) ∧
    demoWarm.heap[0]? = some (.serviceDir { demoDir with cache := some [1, 2, 3] }) ∧
    (∀ x ∈ runes (bytesOf " \t\n\u00a0\u3000"), IsSpace x.1 = true) ∧
    Ctl.WriteFile demoWarm 3 [] = some (demoWarm, none) ∧
    Ctl.WriteFile demoWarm 3 (bytesOf " \t\n\u00a0\u3000") = some (demoWarm, none) ∧
    ServiceDir.ReadDir demoEnv demoWarm 0 = some (demoWarm, (some [1, 2, 3], none)) :=
  ⟨rfl, rfl, by decide, by decide,
    Ctl.WriteFile_blank demoEnv demoWarm 3 (newCtl 1001 0)
      { demoDir with cache := some [1, 2, 3] } [1, 2, 3] (bytesOf " \t\n\u00a0\u3000") rfl rfl rfl
      (by decide)⟩

/-- C10: ReadFile on a Root, a ServiceDir or a TaskDir and ReadDir on a Text or a Ctl
return errProtocol with a nil value, called on the node or through the Dir interface,
and return the world they were given: no cache, no built leaf and no log changes. -/
theorem protocol_violations (env : Env) (w : World) (a1 a2 a3 a4 a5 : Addr)
    (root : Root) (sd : ServiceDir) (td : TaskDir) (t : Text) (c : Ctl)
    (h1 : w.heap[a1]? = some (.root root)) (h2 : w.heap[a2]? = some (.serviceDir sd))
    (h3 : w.heap[a3]? = some (.taskDir td)) (h4 : w.heap[a4]? = some (.text t))
    (h5 : w.heap[a5]? = some (.ctl c)) :
    Root.ReadFile w a1 = some (w, (none, some Error.errProtocol)) ∧
    ServiceDir.ReadFile w a2 = some (w, (none, some Error.errProtocol)) ∧
    TaskDir.ReadFile w a3 = some (w, (none, some Error.errProtocol)) ∧
    Text.ReadDir w a4 = some (w, (none, some Error.errProtocol)) ∧
    Ctl.ReadDir w a5 = some (w, (none, some Error.errProtocol)) ∧
    Dir.ReadFile w a1 = some (w, (none, some Error.errProtocol)) ∧
    Dir.ReadFile w a2 = some (w, (none, some Error.errProtocol)) ∧
    Dir.ReadFile w a3 = some (w, (none, some Error.errProtocol)) ∧
    Dir.ReadDir env w a4 = some (w, (none, some Error.errProtocol)) ∧
    Dir.ReadDir env w a5 = some (w, (none, some Error.errProtocol)) := by
  simp [Root.ReadFile, ServiceDir.ReadFile, TaskDir.ReadFile, Text.ReadDir, Ctl.ReadDir,
    Dir.ReadFile, Dir.ReadDir, h1, h2, h3, h4, h5]

/-- Witness of C10: a world with one node of each type, the ServiceDir populated and the
TaskDir with built leaves. -/
theorem protocol_violations_witness :
    Root.ReadFile demoNodes 0 = some (demoNodes, (none, some Error.errProtocol)) ∧
    ServiceDir.ReadFile demoNodes 1 = some (demoNodes, (none, some Error.errProtocol)) ∧
    TaskDir.ReadFile demoNodes 2 = some (demoNodes, (none, some Error.errProtocol)) ∧
    Text.ReadDir demoNodes 3 = some (demoNodes, (none, some Error.errProtocol)) ∧
    Ctl.ReadDir demoNodes 4 = some (demoNodes, (none, some Error.errProtocol)) ∧
    Dir.ReadFile demoNodes 0 = some (demoNodes, (none, some Error.errProtocol)) ∧
    Dir.ReadFile demoNodes 1 = some (demoNodes, (none, some Error.errProtocol)) ∧
    Dir.ReadFile demoNodes 2 = some (demoNodes, (none, some Error.errProtocol)) ∧
    Dir.ReadDir demoEnv demoNodes 3 = some (demoNodes, (none, some Error.errProtocol)) ∧
    Dir.ReadDir demoEnv demoNodes 4 = some (demoNodes, (none, some Error.errProtocol)) :=
  protocol_violations demoEnv demoNodes 0 1 2 3 4 _ _ _ _ _ rfl rfl rfl rfl rfl

/-- The invariant survives a change of the heap that keeps every object up to its
mutable fields, keeps the ServiceDir and the log, and adds only tasks and leaves. -/
theorem CacheInv.frame (env : Env) (svc : Service) (w w1 : World) (h : CacheInv env svc w)
    (hself : w1.heap[0]? = w.heap[0]?) (hlog : w1.listLog = w.listLog)
    (hold : ∀ (e : Addr) (o : Obj), w.heap[e]? = some o →
      (w1.heap[e]?).map Obj.frozen = some o.frozen)
    (hleaf : ∀ (j : Addr) (o : Obj), w1.heap[j]? = some o → j ≠ 0 → o.isTaskOrLeaf = true) :
    CacheInv env svc w1 := by
  obtain ⟨⟨dir, hdir, hsvc, hcache⟩, _⟩ := h
  refine ⟨⟨dir, by rw [hself, hdir], hsvc, ?_⟩, hleaf⟩
  rcases hcache with hnone | ⟨a, es, hes, hlast, now, hsnap⟩
  · exact Or.inl hnone
  · refine Or.inr ⟨a, es, hes, by rw [hlog]; exact hlast, now, ?_⟩
    rw [← hsnap]
    apply List.map_congr_left
    intro e he
    have hmem : (w.heap[e]?).map Obj.frozen ∈
        a.map (fun task => some (Obj.taskDir (newTaskDir task))) ++
          [some (Obj.ctl (newCtl now 0))] := by
      rw [← hsnap]
      exact List.mem_map_of_mem _ he
    cases ho : w.heap[e]? with
    | none =>
      rw [ho] at hmem
      simp at hmem
    | some o => simpa using hold e o ho

/-- In a world that satisfies the invariant the only Root or ServiceDir is at 0. -/
theorem CacheInv.addr_eq_zero (env : Env) (svc : Service) (w : World) (h : CacheInv env svc w)
    (d : Addr) (o : Obj) (ho : w.heap[d]? = some o) (hk : o.isTaskOrLeaf = false) : d = 0 := by
  by_contra hd
  have := h.2 d o ho hd
  rw [hk] at this
  exact Bool.noConfusion this

/-- The invariant survives `Refresh` on any node. -/
theorem CacheInv.refresh (env : Env) (svc : Service) (w w1 : World) (d : Addr)
    (h : CacheInv env svc w) (hr : Dir.Refresh w d = some w1) : CacheInv env svc w1 := by
  obtain ⟨⟨dir, hdir, hsvc, hcache⟩, hleaf⟩ := h
  cases ho : w.heap[d]? with
  | none => simp [Dir.Refresh, ho] at hr
  | some o =>
    cases o with
    | root r =>
      have hd := CacheInv.addr_eq_zero env svc w ⟨⟨dir, hdir, hsvc, hcache⟩, hleaf⟩ d _ ho rfl
      subst hd
      rw [hdir] at ho
      cases ho
    | serviceDir x =>
      have hd := CacheInv.addr_eq_zero env svc w ⟨⟨dir, hdir, hsvc, hcache⟩, hleaf⟩ d _ ho rfl
      subst hd
      have hx : x = dir := by
        rw [hdir] at ho
        cases ho
        rfl
      subst hx
      have hs : 0 < w.heap.length := (List.getElem?_eq_some.mp hdir).1
      simp only [Dir.Refresh, ServiceDir.Refresh, ho, Option.some.injEq] at hr
      subst hr
      refine ⟨⟨_, List.getElem?_set_self hs, hsvc, Or.inl rfl⟩, ?_⟩
      intro j o hj hj0
      rw [List.getElem?_set_ne (Ne.symm hj0)] at hj
      exact hleaf j o hj hj0
    | taskDir x =>
      simp only [Dir.Refresh, TaskDir.Refresh, ho, Option.some.injEq] at hr
      subst hr
      exact ⟨⟨dir, hdir, hsvc, hcache⟩, hleaf⟩
    | text x =>
      simp only [Dir.Refresh, Text.Refresh, ho, Option.some.injEq] at hr
      subst hr
      exact ⟨⟨dir, hdir, hsvc, hcache⟩, hleaf⟩
    | ctl x =>
      simp only [Dir.Refresh, Ctl.Refresh, ho, Option.some.injEq] at hr
      subst hr
      exact ⟨⟨dir, hdir, hsvc, hcache⟩, hleaf⟩

/-- The invariant survives `Ctl.WriteFile` with any payload. -/
theorem CacheInv.writeFile (env : Env) (svc : Service) (w w1 : World) (c : Addr)
    (p : List UInt8) (r : Option Error)
    (h : CacheInv env svc w) (hr : Ctl.WriteFile w c p = some (w1, r)) :
    CacheInv env svc w1 := by
  unfold Ctl.WriteFile at hr
  split at hr
  · split at hr
    · simp only [Option.some.injEq, Prod.mk.injEq] at hr
      rw [← hr.1]
      exact h
    · split at hr
      · split at hr
        · rename_i w2 hw2
          simp only [Option.some.injEq, Prod.mk.injEq] at hr
          rw [← hr.1]
          exact CacheInv.refresh env svc w w2 _ h hw2
        · cases hr
      · simp only [Option.some.injEq, Prod.mk.injEq] at hr
        rw [← hr.1]
        exact h
  · cases hr

/-- The method `ReadFile` never changes the world. -/
theorem Dir.ReadFile_world (w w1 : World) (d : Addr) (r : FileResult)
    (hr : Dir.ReadFile w d = some (w1, r)) : w1 = w := by
  unfold Dir.ReadFile at hr
  split at hr
  · unfold Root.ReadFile at hr
    split at hr
    · cases hr; rfl
    · cases hr
  · unfold ServiceDir.ReadFile at hr
    split at hr
    · cases hr; rfl
    · cases hr
  · unfold TaskDir.ReadFile at hr
    split at hr
    · cases hr; rfl
    · cases hr
  · unfold Text.ReadFile at hr
    split at hr
    · cases hr; rfl
    · cases hr
  · unfold Ctl.ReadFile at hr
    split at hr
    · cases hr; rfl
    · cases hr
  · cases hr

/-- An object read from an extended heap is an old one or one of the new ones. -/
theorem getElem?_append_cases {α : Type} (l m : List α) (j : Nat) (o : α)
    (h : (l ++ m)[j]? = some o) : l[j]? = some o ∨ o ∈ m := by
  by_cases hj : j < l.length
  · rw [List.getElem?_append_left hj] at h
    exact Or.inl h
  · rw [List.getElem?_append_right (Nat.le_of_not_lt hj)] at h
    exact Or.inr (List.getElem?_mem h)

/-- The count of List calls of a service after one more call. -/
theorem lastOk_succ_ok (env : Env) (id n : Nat) (a : List Task) (h : env.list id n = .ok a) :
    lastOk env id (n + 1) = some a := by
  simp [lastOk, h]

/-- The objects of a listing without their mutable fields. -/
theorem map_frozen (heap : List Obj) (es : List Addr) (objs : List (Option Obj))
    (h : es.map (fun e => heap[e]?) = objs) :
    es.map (fun e => (heap[e]?).map Obj.frozen) = objs.map (Option.map Obj.frozen) := by
  subst h
  rw [List.map_map]
  rfl

/-- The invariant survives a successful listing on a cold cache. -/
theorem CacheInv.listed (env : Env) (w : World) (dir : ServiceDir) (a : List Task)
    (hdir : w.heap[0]? = some (.serviceDir dir))
    (hleaf : ∀ (j : Addr) (o : Obj), w.heap[j]? = some o → j ≠ 0 → o.isTaskOrLeaf = true)
    (hlist : env.list dir.svc.id (w.listLog.count dir.svc.id) = .ok a) :
    CacheInv env dir.svc
      (World.mk
        ((w.heap ++ a.map (fun task => Obj.taskDir (newTaskDir task)) ++
          [Obj.ctl (newCtl (env.now w.ticks) 0)]).set 0
          (.serviceDir { dir with
            cache := some ((List.range (a.length + 1)).map (w.heap.length + ·)) }))
        (w.listLog ++ [dir.svc.id]) (w.ticks + 1)) := by
  have hs : 0 < w.heap.length := (List.getElem?_eq_some.mp hdir).1
  refine ⟨⟨{ dir with cache := some ((List.range (a.length + 1)).map (w.heap.length + ·)) },
    ?_, rfl, Or.inr ⟨a, _, rfl, ?_, env.now w.ticks, ?_⟩⟩, ?_⟩
  · simp only [List.append_assoc]
    exact getElem?_set_append_self _ _ _ _ _ hdir
  · have hcount : (w.listLog ++ [dir.svc.id]).count dir.svc.id
        = w.listLog.count dir.svc.id + 1 := by
      simp
    rw [hcount]
    exact lastOk_succ_ok env _ _ a hlist
  · have hobj := listed_objects w.heap a (Obj.ctl (newCtl (env.now w.ticks) 0))
      (.serviceDir { dir with
        cache := some ((List.range (a.length + 1)).map (w.heap.length + ·)) }) 0 hs
    refine (map_frozen _ _ _ hobj).trans ?_
    simp only [List.map_map, List.map_append, List.map_cons, List.map_nil]
    rfl
  · intro j o hj hj0
    rw [List.getElem?_set_ne (Ne.symm hj0), List.append_assoc] at hj
    rcases getElem?_append_cases _ _ j o hj with hold | hnew
    · exact hleaf j o hold hj0
    · rcases List.mem_append.mp hnew with hm | hm
      · obtain ⟨t, _, rfl⟩ := List.mem_map.mp hm
        rfl
      · rw [List.mem_singleton.mp hm]
        rfl

/-- The invariant survives the first listing of a TaskDir. -/
theorem CacheInv.leavesBuilt (env : Env) (svc : Service) (w : World) (d : Addr) (x : TaskDir)
    (fs : List Addr) (m : List Text)
    (h : CacheInv env svc w) (hx : w.heap[d]? = some (.taskDir x)) :
    CacheInv env svc
      (World.mk ((w.heap ++ m.map Obj.text).set d (.taskDir { x with files := some fs }))
        w.listLog w.ticks) := by
  have hd : d < w.heap.length := (List.getElem?_eq_some.mp hx).1
  have hd0 : d ≠ 0 := by
    intro h0
    subst h0
    obtain ⟨⟨dir, hdir, _⟩, _⟩ := h
    rw [hdir] at hx
    cases hx
  have hs : 0 < w.heap.length := Nat.lt_of_le_of_lt (Nat.zero_le d) hd
  refine CacheInv.frame env svc w _ h ?_ rfl ?_ ?_
  · show ((w.heap ++ m.map Obj.text).set d _)[0]? = w.heap[0]?
    rw [List.getElem?_set_ne hd0, List.getElem?_append_left hs]
  · intro e o ho
    show (((w.heap ++ m.map Obj.text).set d _)[e]?).map Obj.frozen = some o.frozen
    have he : e < w.heap.length := (List.getElem?_eq_some.mp ho).1
    by_cases hed : e = d
    · subst hed
      rw [getElem?_set_append_self _ _ _ _ _ hx]
      rw [hx] at ho
      cases ho
      rfl
    · rw [List.getElem?_set_ne (Ne.symm hed), List.getElem?_append_left he, ho]
      rfl
  · intro j o hj hj0
    have hj2 : ((w.heap ++ m.map Obj.text).set d (.taskDir { x with files := some fs }))[j]?
        = some o := hj
    by_cases hjd : j = d
    · subst hjd
      rw [getElem?_set_append_self _ _ _ _ _ hx] at hj2
      cases hj2
      rfl
    · rw [List.getElem?_set_ne (Ne.symm hjd)] at hj2
      rcases getElem?_append_cases _ _ j o hj2 with hold | hnew
      · exact h.2 j o hold hj0
      · obtain ⟨t, _, rfl⟩ := List.mem_map.mp hnew
        rfl

/-- The invariant survives `ReadDir` on any node. -/
theorem CacheInv.readDir (env : Env) (svc : Service) (w w1 : World) (d : Addr) (r : DirResult)
    (h : CacheInv env svc w) (hr : Dir.ReadDir env w d = some (w1, r)) :
    CacheInv env svc w1 := by
  obtain ⟨⟨dir, hdir, hsvc, hcache⟩, hleaf⟩ := h
  have h : CacheInv env svc w := ⟨⟨dir, hdir, hsvc, hcache⟩, hleaf⟩
  cases ho : w.heap[d]? with
  | none => simp [Dir.ReadDir, ho] at hr
  | some o =>
    cases o with
    | root x =>
      have hd := CacheInv.addr_eq_zero env svc w h d _ ho rfl
      subst hd
      rw [hdir] at ho
      cases ho
    | serviceDir x =>
      have hd := CacheInv.addr_eq_zero env svc w h d _ ho rfl
      subst hd
      have hx : x = dir := by
        rw [hdir] at ho
        cases ho
        rfl
      subst hx
      simp only [Dir.ReadDir, ho] at hr
      cases hc : x.cache with
      | some c =>
        rw [ServiceDir.ReadDir_warm env w 0 x c hdir hc] at hr
        cases hr
        exact h
      | none =>
        cases hl : env.list x.svc.id (w.listLog.count x.svc.id) with
        | error err =>
          rw [ServiceDir.ReadDir_cold_error env w 0 x err hdir hc hl] at hr
          cases hr
          exact ⟨⟨x, hdir, hsvc, Or.inl hc⟩, hleaf⟩
        | ok a =>
          rw [ServiceDir.ReadDir_cold_ok env w 0 x a hdir hc hl] at hr
          cases hr
          rw [← hsvc]
          exact CacheInv.listed env w x a hdir hleaf hl
    | taskDir x =>
      simp only [Dir.ReadDir, ho] at hr
      cases hf : x.files with
      | some fs =>
        simp only [TaskDir.ReadDir, ho, hf, Option.some.injEq, Prod.mk.injEq] at hr
        rw [← hr.1]
        exact h
      | none =>
        rw [TaskDir.ReadDir_cold w d x ho hf] at hr
        cases hr
        exact CacheInv.leavesBuilt env svc w d x _
          [x.newText "subject" x.task.Subject, x.newText "message" x.task.Message,
            x.newText "url" x.task.PermaLink] h ho
    | text x =>
      simp only [Dir.ReadDir, Text.ReadDir, ho, Option.some.injEq, Prod.mk.injEq] at hr
      rw [← hr.1]
      exact h
    | ctl x =>
      simp only [Dir.ReadDir, Ctl.ReadDir, ho, Option.some.injEq, Prod.mk.injEq] at hr
      rw [← hr.1]
      exact h

/-- The invariant survives every call. -/
theorem CacheInv.step (env : Env) (svc : Service) (w w1 : World) (op : Op)
    (h : CacheInv env svc w) (hs : step env w op = some w1) : CacheInv env svc w1 := by
  cases op with
  | readDir d =>
    cases hr : Dir.ReadDir env w d with
    | none => simp [Taskfs.step, hr] at hs
    | some x =>
      simp only [Taskfs.step, hr, Option.map_some', Option.some.injEq] at hs
      subst hs
      exact CacheInv.readDir env svc w x.1 d x.2 h hr
  | readFile d =>
    cases hr : Dir.ReadFile w d with
    | none => simp [Taskfs.step, hr] at hs
    | some x =>
      simp only [Taskfs.step, hr, Option.map_some', Option.some.injEq] at hs
      subst hs
      rw [Dir.ReadFile_world w x.1 d x.2 hr]
      exact h
  | refresh d => exact CacheInv.refresh env svc w w1 d h hs
  | writeFile c p =>
    cases hr : Ctl.WriteFile w c p with
    | none => simp [Taskfs.step, hr] at hs
    | some x =>
      simp only [Taskfs.step, hr, Option.map_some', Option.some.injEq] at hs
      subst hs
      exact CacheInv.writeFile env svc w x.1 c p x.2 h hr

/-- The invariant survives every sequence of calls. -/
theorem CacheInv.run (env : Env) (svc : Service) (ops : List Op) (w w1 : World)
    (h : CacheInv env svc w) (hr : run env w ops = some w1) : CacheInv env svc w1 := by
  induction ops generalizing w with
  | nil =>
    simp only [Taskfs.run, Option.some.injEq] at hr
    subst hr
    exact h
  | cons op ops ih =>
    cases hs : Taskfs.step env w op with
    | none => simp [Taskfs.run, hs] at hr
    | some w2 =>
      simp only [Taskfs.run, hs] at hr
      exact ih w2 (CacheInv.step env svc w w2 op h hs) hr

/-- An object that is a TaskDir up to its mutable fields is a TaskDir. -/
theorem frozen_eq_taskDir (o : Obj) (y : TaskDir) (h : o.frozen = .taskDir y) :
    ∃ td, o = .taskDir td ∧ td.task = y.task ∧ td.toFileInfo = y.toFileInfo := by
  cases o with
  | taskDir td =>
    simp only [Obj.frozen, Obj.taskDir.injEq] at h
    exact ⟨td, rfl, by rw [← h], by rw [← h]⟩
  | root x => simp [Obj.frozen] at h
  | serviceDir x => simp [Obj.frozen] at h
  | text x => simp [Obj.frozen] at h
  | ctl x => simp [Obj.frozen] at h

/-- An object that is a Ctl up to its mutable fields is that Ctl. -/
theorem frozen_eq_ctl (o : Obj) (c : Ctl) (h : o.frozen = .ctl c) : o = .ctl c := by
  cases o with
  | ctl x => simpa [Obj.frozen] using h
  | root x => simp [Obj.frozen] at h
  | serviceDir x => simp [Obj.frozen] at h
  | taskDir x => simp [Obj.frozen] at h
  | text x => simp [Obj.frozen] at h

/-- The entry at position `i` of a listing whose objects are known up to their mutable
fields. -/
theorem entry_of_frozen (heap : List Obj) (es : List Addr) (objs : List (Option Obj)) (i : Nat)
    (y : Obj) (h : es.map (fun e => (heap[e]?).map Obj.frozen) = objs)
    (hy : objs[i]? = some (some y)) :
    ∃ e o, es[i]? = some e ∧ heap[e]? = some o ∧ o.frozen = y := by
  have h2 := congrArg (fun l => l[i]?) h
  simp only [List.getElem?_map, hy] at h2
  cases he : es[i]? with
  | none => simp [he] at h2
  | some e =>
    simp only [he, Option.map_some', Option.some.injEq] at h2
    cases ho : heap[e]? with
    | none => simp [ho] at h2
    | some o =>
      simp only [ho, Option.map_some', Option.some.injEq] at h2
      exact ⟨e, o, rfl, ho, h2⟩

/-- C4: after any sequence of calls (ReadDir, ReadFile, Refresh on any node, WriteFile
on any Ctl, with any payloads and any outcomes of List) on a world that starts as
one never listed ServiceDir, the cache of the ServiceDir is absent or holds the
complete snapshot of the most recent successful result of List: one entry more than
that result has tasks, entry `i` a TaskDir for task `i`, then the Ctl of the
ServiceDir. -/
theorem cache_invariant (env : Env) (now : Time) (name : String) (svc : Service) (ticks : Nat)
    (ops : List Op) (w : World)
    (hrun : run env (World.mk [Obj.serviceDir (newServiceDir now name svc)] [] ticks) ops
      = some w) :
    ∃ dir, w.heap[0]? = some (.serviceDir dir) ∧ dir.svc = svc ∧
      (dir.cache = none ∨ ∃ a es, dir.cache = some es ∧
        lastOk env svc.id (w.listLog.count svc.id) = some a ∧
        es.length = a.length + 1 ∧
        (∀ (i : Nat) (task : Task), a[i]? = some task → ∃ (e : Addr) (td : TaskDir),
          es[i]? = some e ∧ w.heap[e]? = some (.taskDir td) ∧ td.task = task ∧
          td.toFileInfo = (newTaskDir task).toFileInfo) ∧
        ∃ (e : Addr) (c : Ctl),
          es[a.length]? = some e ∧ w.heap[e]? = some (.ctl c) ∧ c.Name = "ctl" ∧
          c.parent = 0) := by
  have h0 : CacheInv env svc (World.mk [Obj.serviceDir (newServiceDir now name svc)] [] ticks) := by
    refine ⟨⟨newServiceDir now name svc, rfl, rfl, Or.inl rfl⟩, ?_⟩
    intro j o hj hj0
    cases j with
    | zero => exact absurd rfl hj0
    | succ k => simp at hj
  obtain ⟨⟨dir, hdir, hsvc, hcache⟩, _⟩ := CacheInv.run env svc ops _ w h0 hrun
  refine ⟨dir, hdir, hsvc, ?_⟩
  rcases hcache with hnone | ⟨a, es, hes, hlast, t, hsnap⟩
  · exact Or.inl hnone
  · refine Or.inr ⟨a, es, hes, hlast, ?_, ?_, ?_⟩
    · have := congrArg List.length hsnap
      simpa using this
    · intro i task hi
      have hlt : i < a.length := (List.getElem?_eq_some.mp hi).1
      have hy : (a.map (fun task => some (Obj.taskDir (newTaskDir task))) ++
          [some (Obj.ctl (newCtl t 0))])[i]? = some (some (Obj.taskDir (newTaskDir task))) := by
        rw [List.getElem?_append_left (by simpa using hlt)]
        simp [hi]
      obtain ⟨e, o, he, ho, hfro⟩ := entry_of_frozen _ _ _ i _ hsnap hy
      obtain ⟨td, rfl, htask, hinfo⟩ := frozen_eq_taskDir o _ hfro
      exact ⟨e, td, he, ho, htask, hinfo⟩
    · have hy : (a.map (fun task => some (Obj.taskDir (newTaskDir task))) ++
          [some (Obj.ctl (newCtl t 0))])[a.length]? = some (some (Obj.ctl (newCtl t 0))) := by
        rw [List.getElem?_append_right (by simp)]
        simp
      obtain ⟨e, o, he, ho, hfro⟩ := entry_of_frozen _ _ _ a.length _ hsnap hy
      have ho2 := frozen_eq_ctl o _ hfro
      subst ho2
      exact ⟨e, newCtl t 0, he, ho, rfl, rfl⟩

/-- Witness of C4: the scenario, with a listing of task "1", a rejected write and a
refresh in between; the cache holds the snapshot of the second result of List. -/
theorem cache_invariant_witness :
    run demoEnv demoCold demoOps = some demoRelisted ∧
    demoRelisted.heap[0]? = some (.serviceDir { demoDir with cache := some [7, 8] }) ∧
    lastOk demoEnv 7 (demoRelisted.listLog.count 7) = some [demoTask1] ∧
    ∃ dir, demoRelisted.heap[0]? = some (.serviceDir dir) ∧ dir.svc = demoSvc ∧
      (dir.cache = none ∨ ∃ a es, dir.cache = some es ∧
        lastOk demoEnv 7 (demoRelisted.listLog.count 7) = some a ∧
        es.length = a.length + 1 ∧
        (∀ (i : Nat) (task : Task), a[i]? = some task → ∃ (e : Addr) (td : TaskDir),
          es[i]? = some e ∧ demoRelisted.heap[e]? = some (.taskDir td) ∧ td.task = task ∧
          td.toFileInfo = (newTaskDir task).toFileInfo) ∧
        ∃ (e : Addr) (c : Ctl),
          es[a.length]? = some e ∧ demoRelisted.heap[e]? = some (.ctl c) ∧ c.Name = "ctl" ∧
          c.parent = 0) :=
  ⟨by decide, rfl, rfl,
    cache_invariant demoEnv 1000 "tracker1" demoSvc 1 demoOps demoRelisted (by decide)⟩

/-- Writing a cell twice keeps the last value. -/
theorem set_set_same {α : Type} (l : List α) (i : Nat) (x y : α) :
    (l.set i x).set i y = l.set i y := by
  induction l generalizing i with
  | nil => rfl
  | cons a l ih =>
    cases i with
    | zero => rfl
    | succ n => simp [List.set, ih]

/-- C13: Refresh on a ServiceDir returns a world in which the ServiceDir has a nil cache
and the FileInfo and service it had; every other object, the log of List calls and
the clock are as before, and a second Refresh returns the same world. -/
theorem ServiceDir.Refresh_clears (w : World) (self : Addr) (dir : ServiceDir)
    (hdir : w.heap[self]? = some (.serviceDir dir)) :
    ∃ w1 d1,
      ServiceDir.Refresh w self = some w1 ∧
      w1.heap[self]? = some (.serviceDir d1) ∧ d1.cache = none ∧
      d1.toFileInfo = dir.toFileInfo ∧ d1.svc = dir.svc ∧
      w1.listLog = w.listLog ∧ w1.ticks = w.ticks ∧ w1.heap.length = w.heap.length ∧
      (∀ j, j ≠ self → w1.heap[j]? = w.heap[j]?) ∧
      ServiceDir.Refresh w1 self = some w1 := by
  have hs : self < w.heap.length := (List.getElem?_eq_some.mp hdir).1
  have h1 : (w.heap.set self (Obj.serviceDir { dir with cache := none }))[self]?
      = some (Obj.serviceDir { dir with cache := none }) := List.getElem?_set_self hs
  refine ⟨World.mk (w.heap.set self (.serviceDir { dir with cache := none })) w.listLog w.ticks,
    { dir with cache := none }, ?_, h1, rfl, rfl, rfl, rfl, rfl, by simp, ?_, ?_⟩
  · simp only [ServiceDir.Refresh, hdir]
  · intro j hj
    exact List.getElem?_set_ne (Ne.symm hj)
  · simp only [ServiceDir.Refresh, h1, set_set_same]

/-- Witness of C13: Refresh on the populated ServiceDir of the scenario. -/
theorem ServiceDir.Refresh_clears_witness :
    demoWarm.heap[0]? = some (.serviceDir { demoDir with cache := some [1, 2, 3] }) ∧
    ∃ w1 d1,
      ServiceDir.Refresh demoWarm 0 = some w1 ∧
      w1.heap[0]? = some (.serviceDir d1) ∧ d1.cache = none ∧
      d1.toFileInfo = demoDir.toFileInfo ∧ d1.svc = demoSvc ∧
      w1.listLog = [7] ∧ w1.ticks = 2 ∧ w1.heap.length = 4 ∧
      (∀ j, j ≠ 0 → w1.heap[j]? = demoWarm.heap[j]?) ∧
      ServiceDir.Refresh w1 0 = some w1 :=
  ⟨rfl, ServiceDir.Refresh_clears demoWarm 0 { demoDir with cache := some [1, 2, 3] } rfl⟩

/-- C16: the TaskDir that a ServiceDir listing builds for a task carries the Creation and
LastMod of the task, and so does each of the three leaves that the first listing of
this TaskDir builds, whatever the clock of the environment reads. -/
theorem timestamps_mirror_task (env : Env) (w : World) (self : Addr) (dir : ServiceDir)
    (a : List Task) (i : Nat) (task : Task)
    (hdir : w.heap[self]? = some (.serviceDir dir)) (hc : dir.cache = none)
    (hlist : env.list dir.svc.id (w.listLog.count dir.svc.id) = .ok a)
    (hi : a[i]? = some task) :
    ∃ (w1 : World) (entries : List Addr) (e : Addr) (td : TaskDir),
      ServiceDir.ReadDir env w self = some (w1, (some entries, none)) ∧
      entries[i]? = some e ∧ w1.heap[e]? = some (.taskDir td) ∧ td.task = task ∧
      td.Creation = task.Creation ∧ td.LastMod = task.LastMod ∧
      ∃ (w2 : World) (f1 f2 f3 : Addr) (t1 t2 t3 : Text),
        TaskDir.ReadDir w1 e = some (w2, (some [f1, f2, f3], none)) ∧
        w2.heap[f1]? = some (.text t1) ∧ w2.heap[f2]? = some (.text t2) ∧
        w2.heap[f3]? = some (.text t3) ∧
        t1.Creation = task.Creation ∧ t1.LastMod = task.LastMod ∧
        t2.Creation = task.Creation ∧ t2.LastMod = task.LastMod ∧
        t3.Creation = task.Creation ∧ t3.LastMod = task.LastMod := by
  have hs : self < w.heap.length := (List.getElem?_eq_some.mp hdir).1
  have hobj := listed_objects w.heap a (Obj.ctl (newCtl (env.now w.ticks) self))
    (.serviceDir { dir with
      cache := some ((List.range (a.length + 1)).map (w.heap.length + ·)) }) self hs
  have hobj2 : ((List.range (a.length + 1)).map (w.heap.length + ·)).map
      (fun e => ((w.heap ++ a.map (fun task => Obj.taskDir (newTaskDir task)) ++
        [Obj.ctl (newCtl (env.now w.ticks) self)]).set self
          (.serviceDir { dir with
            cache := some ((List.range (a.length + 1)).map (w.heap.length + ·)) }))[e]?)
      = (a.map (fun task => Obj.taskDir (newTaskDir task)) ++
          [Obj.ctl (newCtl (env.now w.ticks) self)]).map some := by
    rw [hobj]; simp
  have hi2 : (a.map (fun task => Obj.taskDir (newTaskDir task)) ++
      [Obj.ctl (newCtl (env.now w.ticks) self)])[i]? = some (Obj.taskDir (newTaskDir task)) := by
    have hlt : i < a.length := (List.getElem?_eq_some.mp hi).1
    rw [List.getElem?_append_left (by simpa using hlt)]
    simp [hi]
  obtain ⟨e, he1, he2⟩ := entry_of_objects _ _ _ i _ hobj2 hi2
  have hlen : e < ((w.heap ++ a.map (fun task => Obj.taskDir (newTaskDir task)) ++
      [Obj.ctl (newCtl (env.now w.ticks) self)]).set self
        (.serviceDir { dir with
          cache := some ((List.range (a.length + 1)).map (w.heap.length + ·)) })).length :=
    (List.getElem?_eq_some.mp he2).1
  refine ⟨_, _, e, newTaskDir task, ServiceDir.ReadDir_cold_ok env w self dir a hdir hc hlist,
    he1, he2, rfl, rfl, rfl, ?_⟩
  refine ⟨_, _, _, _, (newTaskDir task).newText "subject" task.Subject,
    (newTaskDir task).newText "message" task.Message,
    (newTaskDir task).newText "url" task.PermaLink,
    TaskDir.ReadDir_cold _ e (newTaskDir task) he2 rfl, ?_, ?_, ?_,
    rfl, rfl, rfl, rfl, rfl, rfl⟩
  · simpa using getElem?_set_append_fresh _ [Obj.text ((newTaskDir task).newText "subject" task.Subject),
      Obj.text ((newTaskDir task).newText "message" task.Message),
      Obj.text ((newTaskDir task).newText "url" task.PermaLink)] e 0 _ hlen
  · simpa using getElem?_set_append_fresh _ [Obj.text ((newTaskDir task).newText "subject" task.Subject),
      Obj.text ((newTaskDir task).newText "message" task.Message),
      Obj.text ((newTaskDir task).newText "url" task.PermaLink)] e 1 _ hlen
  · simpa using getElem?_set_append_fresh _ [Obj.text ((newTaskDir task).newText "subject" task.Subject),
      Obj.text ((newTaskDir task).newText "message" task.Message),
      Obj.text ((newTaskDir task).newText "url" task.PermaLink)] e 2 _ hlen

/-- Witness of C16: task "2" of the scenario, created at 300 and modified at 400, listed
when the clock reads 1001. -/
theorem timestamps_mirror_task_witness :
    demoCold.heap[0]? = some (.serviceDir demoDir) ∧ demoDir.cache = none ∧
    demoEnv.list 7 0 = .ok [demoTask1, demoTask2] ∧ demoEnv.now demoCold.ticks = 1001 ∧
    ∃ (w1 : World) (entries : List Addr) (e : Addr) (td : TaskDir),
      ServiceDir.ReadDir demoEnv demoCold 0 = some (w1, (some entries, none)) ∧
      entries[1]? = some e ∧ w1.heap[e]? = some (.taskDir td) ∧ td.task = demoTask2 ∧
      td.Creation = 300 ∧ td.LastMod = 400 ∧
      ∃ (w2 : World) (f1 f2 f3 : Addr) (t1 t2 t3 : Text),
        TaskDir.ReadDir w1 e = some (w2, (some [f1, f2, f3], none)) ∧
        w2.heap[f1]? = some (.text t1) ∧ w2.heap[f2]? = some (.text t2) ∧
        w2.heap[f3]? = some (.text t3) ∧
        t1.Creation = 300 ∧ t1.LastMod = 400 ∧
        t2.Creation = 300 ∧ t2.LastMod = 400 ∧
        t3.Creation = 300 ∧ t3.LastMod = 400 :=
  ⟨rfl, rfl, rfl, rfl,
    timestamps_mirror_task demoEnv demoCold 0 demoDir [demoTask1, demoTask2] 1 demoTask2
      rfl rfl rfl rfl⟩

/-- The number of options equal to `some x` in a list of `some`s. -/
theorem count_map_some {α β : Type} [DecidableEq β] (f : α → β) (l : List α) (x : β) :
    (l.map (fun t => some (f t))).count (some x) = (l.map f).count x := by
  induction l with
  | nil => rfl
  | cons t l ih =>
    simp only [List.map_cons, List.count_cons, ih]
    by_cases h : f t = x <;> simp [h]

/-- Counterexample to C18: the tracker lists one task whose key is "ctl"; the listing has
two entries named "ctl". -/
theorem ctl_name_twice :
    ServiceDir.ReadDir demoEnvCtl demoCold 0
      = some (World.mk [Obj.serviceDir { demoDir with cache := some [1, 2] },
          Obj.taskDir (newTaskDir demoTaskCtl), Obj.ctl (newCtl 1001 0)] [7] 2,
        (some [1, 2], none)) ∧
    entryNames (World.mk [Obj.serviceDir { demoDir with cache := some [1, 2] },
        Obj.taskDir (newTaskDir demoTaskCtl), Obj.ctl (newCtl 1001 0)] [7] 2) [1, 2]
      = [some "ctl", some "ctl"] ∧
    (entryNames (World.mk [Obj.serviceDir { demoDir with cache := some [1, 2] },
        Obj.taskDir (newTaskDir demoTaskCtl), Obj.ctl (newCtl 1001 0)] [7] 2) [1, 2]).count
      (some "ctl") ≠ 1 := by
  decide

/-- C18, amended: the first listing of a ServiceDir has one entry named "ctl" more than
List returned tasks whose key is "ctl"; the name is present exactly once when no task
has this key. -/
theorem ctl_name_count (env : Env) (w : World) (self : Addr) (dir : ServiceDir) (a : List Task)
    (hdir : w.heap[self]? = some (.serviceDir dir)) (hc : dir.cache = none)
    (hlist : env.list dir.svc.id (w.listLog.count dir.svc.id) = .ok a) :
    ∃ w1 entries,
      ServiceDir.ReadDir env w self = some (w1, (some entries, none)) ∧
      (entryNames w1 entries).count (some "ctl") = (a.map (·.Key)).count "ctl" + 1 ∧
      ((∀ task ∈ a, task.Key ≠ "ctl") → (entryNames w1 entries).count (some "ctl") = 1) := by
  have hs : self < w.heap.length := (List.getElem?_eq_some.mp hdir).1
  have hobj := listed_objects w.heap a (Obj.ctl (newCtl (env.now w.ticks) self))
    (.serviceDir { dir with
      cache := some ((List.range (a.length + 1)).map (w.heap.length + ·)) }) self hs
  have hnames := listed_names
    (World.mk ((w.heap ++ a.map (fun task => Obj.taskDir (newTaskDir task)) ++
      [Obj.ctl (newCtl (env.now w.ticks) self)]).set self
        (.serviceDir { dir with
          cache := some ((List.range (a.length + 1)).map (w.heap.length + ·)) }))
      (w.listLog ++ [dir.svc.id]) (w.ticks + 1)) _ a _ self hobj
  have hcount : (a.map (fun task => some task.Key) ++ [some "ctl"]).count (some "ctl")
      = (a.map (·.Key)).count "ctl" + 1 := by
    rw [List.count_append, count_map_some (fun t : Task => t.Key) a "ctl"]
    simp
  refine ⟨_, _, ServiceDir.ReadDir_cold_ok env w self dir a hdir hc hlist, ?_, ?_⟩
  · rw [hnames, hcount]
  · intro hne
    rw [hnames, hcount]
    have : (a.map (·.Key)).count "ctl" = 0 := by
      apply List.count_eq_zero_of_not_mem
      intro hmem
      obtain ⟨t, ht, hk⟩ := List.mem_map.mp hmem
      exact hne t ht hk
    rw [this]

/-- Witness of C18, amended: the scenario, whose tasks are keyed "1" and "2". -/
theorem ctl_name_count_witness :
    demoCold.heap[0]? = some (.serviceDir demoDir) ∧ demoDir.cache = none ∧
    demoEnv.list 7 0 = .ok [demoTask1, demoTask2] ∧
    ∃ w1 entries,
      ServiceDir.ReadDir demoEnv demoCold 0 = some (w1, (some entries, none)) ∧
      (entryNames w1 entries).count (some "ctl") = 0 + 1 ∧
      ((∀ task ∈ [demoTask1, demoTask2], task.Key ≠ "ctl") →
        (entryNames w1 entries).count (some "ctl") = 1) :=
  ⟨rfl, rfl, rfl, ctl_name_count demoEnv demoCold 0 demoDir [demoTask1, demoTask2] rfl rfl rfl⟩

/-- The order of a `range` loop over a map is a permutation of its entries. -/
theorem rangeOrder_perm (seed : Nat) (m : List (String × Service)) :
    (rangeOrder seed m).Perm m := by
  unfold rangeOrder
  rw [List.getD_eq_getElem?_getD]
  cases h : m.permutations[seed % m.permutations.length]? with
  | none => exact List.Perm.refl m
  | some x => exact List.mem_permutations.mp (List.getElem?_mem h)

/-- The entries of a map after an assignment. -/
theorem mem_mapSet (m : List (String × Service)) (k : String) (v : Service)
    (hm : (m.map Prod.fst).Nodup) (k1 : String) (v1 : Service) :
    (k1, v1) ∈ mapSet m k v ↔ (k1 = k ∧ v1 = v) ∨ (k1 ≠ k ∧ (k1, v1) ∈ m) := by
  induction m with
  | nil => simp [mapSet]
  | cons kv rest ih =>
    obtain ⟨k0, v0⟩ := kv
    simp only [List.map_cons, List.nodup_cons] at hm
    by_cases h0 : k0 = k
    · subst h0
      simp only [mapSet, if_true, List.mem_cons, Prod.mk.injEq]
      constructor
      · rintro (⟨rfl, rfl⟩ | hin)
        · exact Or.inl ⟨rfl, rfl⟩
        · refine Or.inr ⟨?_, Or.inr hin⟩
          rintro rfl
          exact hm.1 (List.mem_map.mpr ⟨(k1, v1), hin, rfl⟩)
      · rintro (⟨rfl, rfl⟩ | ⟨hne, (⟨rfl, _⟩ | hin)⟩)
        · exact Or.inl ⟨rfl, rfl⟩
        · exact absurd rfl hne
        · exact Or.inr hin
    · simp only [mapSet, h0, if_false, List.mem_cons, Prod.mk.injEq, ih hm.2]
      constructor
      · rintro (⟨rfl, rfl⟩ | h)
        · exact Or.inr ⟨h0, Or.inl ⟨rfl, rfl⟩⟩
        · rcases h with h | ⟨hne, hin⟩
          · exact Or.inl h
          · exact Or.inr ⟨hne, Or.inr hin⟩
      · rintro (h | ⟨hne, (h | hin)⟩)
        · exact Or.inr (Or.inl h)
        · exact Or.inl h
        · exact Or.inr (Or.inr ⟨hne, hin⟩)

/-- The keys of a map after an assignment. -/
theorem mem_keys_mapSet (m : List (String × Service)) (k : String) (v : Service) (k1 : String) :
    k1 ∈ (mapSet m k v).map Prod.fst ↔ k1 = k ∨ k1 ∈ m.map Prod.fst := by
  induction m with
  | nil => simp [mapSet]
  | cons kv rest ih =>
    obtain ⟨k0, v0⟩ := kv
    by_cases h0 : k0 = k
    · subst h0
      simp [mapSet]
    · simp only [mapSet, h0, if_false, List.map_cons, List.mem_cons, ih]
      tauto

/-- An assignment keeps the keys of a map distinct. -/
theorem nodup_keys_mapSet (m : List (String × Service)) (k : String) (v : Service)
    (hm : (m.map Prod.fst).Nodup) : ((mapSet m k v).map Prod.fst).Nodup := by
  induction m with
  | nil => simp [mapSet]
  | cons kv rest ih =>
    obtain ⟨k0, v0⟩ := kv
    simp only [List.map_cons, List.nodup_cons] at hm
    by_cases h0 : k0 = k
    · subst h0
      simpa [mapSet] using hm
    · simp only [mapSet, h0, if_false, List.map_cons, List.nodup_cons]
      refine ⟨?_, ih hm.2⟩
      intro hin
      rcases (mem_keys_mapSet rest k v k0).mp hin with h | h
      · exact h0 h
      · exact hm.1 h

/-- A second assignment to a key overwrites the first. -/
theorem mapSet_mapSet (m : List (String × Service)) (k : String) (v1 v2 : Service) :
    mapSet (mapSet m k v1) k v2 = mapSet m k v2 := by
  induction m with
  | nil => simp [mapSet]
  | cons kv rest ih =>
    obtain ⟨k0, v0⟩ := kv
    by_cases h0 : k0 = k
    · subst h0
      simp [mapSet]
    · simp [mapSet, h0, ih]

/-- The lookup of a key after an assignment. -/
theorem mapGet_mapSet (m : List (String × Service)) (k : String) (v : Service) (k1 : String) :
    mapGet (mapSet m k v) k1 = if k1 = k then some v else mapGet m k1 := by
  induction m with
  | nil =>
    by_cases h : k1 = k
    · subst h
      simp [mapSet, mapGet]
    · have h2 : ¬ k = k1 := fun e => h e.symm
      simp [mapSet, mapGet, h, h2]
  | cons kv rest ih =>
    obtain ⟨k0, v0⟩ := kv
    by_cases h0 : k0 = k
    · subst h0
      by_cases h : k1 = k0
      · subst h
        simp [mapSet, mapGet]
      · have h2 : ¬ k0 = k1 := fun e => h e.symm
        simp [mapSet, mapGet, h, h2]
    · by_cases h : k0 = k1
      · subst h
        have h2 : ¬ k0 = k := h0
        simp [mapSet, mapGet, h0]
      · simp only [mapSet, h0, if_false]
        have e1 : mapGet ((k0, v0) :: mapSet rest k v) k1 = mapGet (mapSet rest k v) k1 := by
          simp [mapGet, h]
        have e2 : mapGet ((k0, v0) :: rest) k1 = mapGet rest k1 := by
          simp [mapGet, h]
        rw [e1, e2, ih]

/-- In a map with distinct keys an entry is what the lookup of its key gives. -/
theorem mem_iff_mapGet (m : List (String × Service)) (hm : (m.map Prod.fst).Nodup)
    (k : String) (v : Service) : (k, v) ∈ m ↔ mapGet m k = some v := by
  induction m with
  | nil => simp [mapGet]
  | cons kv rest ih =>
    obtain ⟨k0, v0⟩ := kv
    simp only [List.map_cons, List.nodup_cons] at hm
    by_cases h : k0 = k
    · subst h
      have hg : mapGet ((k0, v0) :: rest) k0 = some v0 := by simp [mapGet]
      rw [hg]
      simp only [List.mem_cons, Prod.mk.injEq, true_and, Option.some.injEq]
      constructor
      · rintro (rfl | hin)
        · rfl
        · exact absurd (List.mem_map.mpr ⟨(k0, v), hin, rfl⟩) hm.1
      · rintro rfl
        exact Or.inl rfl
    · have hg : mapGet ((k0, v0) :: rest) k = mapGet rest k := by simp [mapGet, h]
      have h2 : ¬ k = k0 := fun e => h e.symm
      rw [hg, ← ih hm.2]
      simp [h2]

/-- Writing to a cell the value it holds changes nothing. -/
theorem set_same {α : Type} (l : List α) (i : Nat) (x : α) (h : l[i]? = some x) :
    l.set i x = l := by
  induction l generalizing i with
  | nil => rfl
  | cons a l ih =>
    cases i with
    | zero =>
      simp only [List.getElem?_cons_zero, Option.some.injEq] at h
      subst h
      rfl
    | succ n =>
      simp only [List.getElem?_cons_succ] at h
      simp [List.set, ih n h]

/-- The objects at the addresses of newly allocated cells. -/
theorem map_getElem?_append {α : Type} (l m : List α) :
    (List.range m.length).map (fun i => (l ++ m)[l.length + i]?) = m.map some := by
  apply List.ext_getElem?
  intro i
  simp only [List.getElem?_map]
  by_cases h : i < m.length
  · rw [List.getElem?_range h]
    simp only [Option.map_some']
    rw [List.getElem?_append_right (Nat.le_add_right _ _)]
    simp [List.getElem?_eq_getElem h]
  · rw [List.getElem?_eq_none (by simpa using h), List.getElem?_eq_none (by simpa using h)]
    rfl

/-- What `CreateService` returns. -/
theorem Root.CreateService_eq (w : World) (r : Addr) (root : Root) (s : Service)
    (hroot : w.heap[r]? = some (.root root)) :
    Root.CreateService w r s = some
      (World.mk (w.heap.set r (.root { root with services := mapSet root.services s.Name s }))
        w.listLog w.ticks) := by
  simp only [Root.CreateService, hroot]

/-- What a sequence of registrations returns. -/
theorem registerAll_eq (w : World) (r : Addr) (root : Root) (svcs : List Service)
    (hroot : w.heap[r]? = some (.root root)) :
    registerAll w r svcs = some
      (World.mk (w.heap.set r (.root { root with services := registered root.services svcs }))
        w.listLog w.ticks) := by
  induction svcs generalizing w root with
  | nil =>
    simp only [registerAll, registered, List.foldl_nil]
    rw [set_same _ _ _ hroot]
  | cons s rest ih =>
    have hs : r < w.heap.length := (List.getElem?_eq_some.mp hroot).1
    simp only [registerAll, Root.CreateService_eq w r root s hroot]
    rw [ih _ { root with services := mapSet root.services s.Name s }
      (List.getElem?_set_self hs)]
    simp only [set_set_same]
    rfl

/-- Registrations keep the keys of the map distinct. -/
theorem nodup_keys_registered (m : List (String × Service)) (svcs : List Service)
    (hm : (m.map Prod.fst).Nodup) : ((registered m svcs).map Prod.fst).Nodup := by
  induction svcs generalizing m with
  | nil => exact hm
  | cons s rest ih => exact ih _ (nodup_keys_mapSet m s.Name s hm)

/-- The keys of the map after registrations. -/
theorem mem_keys_registered (m : List (String × Service)) (svcs : List Service) (k : String) :
    k ∈ (registered m svcs).map Prod.fst ↔ k ∈ m.map Prod.fst ∨ k ∈ svcs.map (·.Name) := by
  induction svcs generalizing m with
  | nil => simp [registered]
  | cons s rest ih =>
    have h := ih (mapSet m s.Name s)
    simp only [registered, List.foldl_cons] at h ⊢
    rw [h, mem_keys_mapSet]
    simp only [List.map_cons, List.mem_cons]
    tauto

/-- The service that was registered last under a name, one registration earlier. -/
theorem lastNamed_cons (s : Service) (rest : List Service) (k : String) :
    lastNamed (s :: rest) k = (lastNamed rest k).or (if s.Name = k then some s else none) := by
  simp only [lastNamed, List.reverse_cons, List.find?_append]
  by_cases h : s.Name = k <;> simp [h]

/-- The lookup of a name after registrations: the service registered last under it,
or else what the map held before. -/
theorem mapGet_registered (m : List (String × Service)) (svcs : List Service) (k : String) :
    mapGet (registered m svcs) k = (lastNamed svcs k).or (mapGet m k) := by
  induction svcs generalizing m with
  | nil => simp [registered, lastNamed]
  | cons s rest ih =>
    have h := ih (mapSet m s.Name s)
    simp only [registered, List.foldl_cons] at h ⊢
    rw [h, mapGet_mapSet, lastNamed_cons]
    cases lastNamed rest k with
    | some x => simp
    | none =>
      by_cases hk : k = s.Name
      · subst hk
        simp
      · have hk2 : ¬ s.Name = k := fun e => hk e.symm
        simp [hk, hk2]

/-- The service found under a name bears this name. -/
theorem lastNamed_name (svcs : List Service) (k : String) (s : Service)
    (h : lastNamed svcs k = some s) : s.Name = k := by
  have := List.find?_some h
  simpa using this

/-- What `Root.ReadDir` returns. -/
theorem Root.ReadDir_eq (env : Env) (w : World) (r : Addr) (root : Root)
    (hroot : w.heap[r]? = some (.root root)) :
    Root.ReadDir env w r = some
      (World.mk (w.heap ++ (rangeOrder (env.mapSeed w.ticks) root.services).map
          (fun kv => Obj.serviceDir (newServiceDir (env.now w.ticks) kv.1 kv.2)))
        w.listLog (w.ticks + 1),
        (some ((List.range (rangeOrder (env.mapSeed w.ticks) root.services).length).map
          (w.heap.length + ·)), none)) := by
  simp only [Root.ReadDir, hroot]

/-- The objects behind the entries of a Root listing. -/
theorem Root.listing_objects (l : List Obj) (kvs : List (String × Service)) (now : Time) :
    ((List.range kvs.length).map (l.length + ·)).map
        (fun e => (l ++ kvs.map (fun kv => Obj.serviceDir (newServiceDir now kv.1 kv.2)))[e]?)
      = (kvs.map (fun kv => newServiceDir now kv.1 kv.2)).map
        (fun d => some (Obj.serviceDir d)) := by
  have h := map_getElem?_append l (kvs.map (fun kv => Obj.serviceDir (newServiceDir now kv.1 kv.2)))
  simp only [List.length_map] at h
  rw [List.map_map, List.map_map]
  simpa [Function.comp_def] using h

theorem newServiceDir_IsDir (now : Time) (name : String) (svc : Service) :
    (newServiceDir now name svc).IsDir = true := by
  show ((ModeDir ||| 0o755) &&& ModeDir != 0) = true
  decide

/-- The Root that `NewRoot` builds, at the address it returns. -/
theorem NewRoot_heap (env : Env) (w : World) :
    (NewRoot env w).1.heap[(NewRoot env w).2]? = some (Obj.root (rootWith (env.now w.ticks) [])) := by
  simp [NewRoot, rootWith]

/-- C11: after any sequence of CreateService calls on a new Root, ReadDir returns with no
error a list of new ServiceDirs with distinct names; the names are the registered
names, one entry for each distinct one, and each entry is a directory that bears
the name of its service and is backed by the service registered last under it. -/
theorem Root.ReadDir_one_per_service (env : Env) (w0 : World) (svcs : List Service) :
    ∃ (w2 w3 : World) (entries : List Addr) (dirs : List ServiceDir),
      registerAll (NewRoot env w0).1 (NewRoot env w0).2 svcs = some w2 ∧
      Root.ReadDir env w2 (NewRoot env w0).2 = some (w3, (some entries, none)) ∧
      entries.map (fun e => w3.heap[e]?) = dirs.map (fun d => some (Obj.serviceDir d)) ∧
      (dirs.map (·.Name)).Nodup ∧
      (dirs.map (·.Name)).Perm (svcs.map (·.Name)).dedup ∧
      (∀ name, name ∈ dirs.map (·.Name) ↔ name ∈ svcs.map (·.Name)) ∧
      (∀ d ∈ dirs, d.Name = d.svc.Name ∧ d.IsDir = true ∧ d.svc ∈ svcs ∧
        lastNamed svcs d.Name = some d.svc) := by
  have hroot := NewRoot_heap env w0
  have hs : (NewRoot env w0).2 < (NewRoot env w0).1.heap.length :=
    (List.getElem?_eq_some.mp hroot).1
  have hreg := registerAll_eq _ _ _ svcs hroot
  have hroot2 : ((NewRoot env w0).1.heap.set (NewRoot env w0).2
      (Obj.root (rootWith (env.now w0.ticks) (registered [] svcs))))[(NewRoot env w0).2]?
      = some (Obj.root (rootWith (env.now w0.ticks) (registered [] svcs))) := List.getElem?_set_self hs
  have hread := Root.ReadDir_eq env
    (World.mk ((NewRoot env w0).1.heap.set (NewRoot env w0).2
      (Obj.root (rootWith (env.now w0.ticks) (registered [] svcs)))) (NewRoot env w0).1.listLog (NewRoot env w0).1.ticks)
    (NewRoot env w0).2 _ hroot2
  have hnodup : ((registered [] svcs).map Prod.fst).Nodup :=
    nodup_keys_registered [] svcs (by simp)
  have hperm := rangeOrder_perm (env.mapSeed (NewRoot env w0).1.ticks) (registered [] svcs)
  have hnames : ∀ kvs : List (String × Service), (kvs.map
      (fun kv => newServiceDir (env.now (NewRoot env w0).1.ticks) kv.1 kv.2)).map (·.Name)
      = kvs.map Prod.fst := by
    intro kvs
    rw [List.map_map]
    rfl
  have hnd : ((rangeOrder (env.mapSeed (NewRoot env w0).1.ticks) (registered [] svcs)).map
      Prod.fst).Nodup := (hperm.map Prod.fst).nodup_iff.mpr hnodup
  have hmem : ∀ name, name ∈ (rangeOrder (env.mapSeed (NewRoot env w0).1.ticks)
      (registered [] svcs)).map Prod.fst ↔ name ∈ svcs.map (·.Name) := by
    intro name
    rw [(hperm.map Prod.fst).mem_iff, mem_keys_registered]
    simp
  refine ⟨_, _, _, _, hreg, hread, Root.listing_objects _ _ _, ?_, ?_, ?_, ?_⟩
  · rw [hnames]
    exact hnd
  · rw [hnames]
    refine (List.perm_ext_iff_of_nodup hnd (List.nodup_dedup _)).mpr ?_
    intro name
    rw [hmem, List.mem_dedup]
  · intro name
    rw [hnames]
    exact hmem name
  · intro d hd
    obtain ⟨kv, hkv, rfl⟩ := List.mem_map.mp hd
    obtain ⟨k, v⟩ := kv
    have hin : (k, v) ∈ registered [] svcs := hperm.mem_iff.mp hkv
    have hget := (mem_iff_mapGet _ hnodup k v).mp hin
    rw [mapGet_registered] at hget
    have hlast : lastNamed svcs k = some v := by
      cases hl : lastNamed svcs k with
      | none => simp [hl, mapGet] at hget
      | some x => simpa [hl] using hget
    refine ⟨(lastNamed_name svcs k v hlast).symm, newServiceDir_IsDir _ _ _, ?_, hlast⟩
    have := List.mem_of_find?_eq_some hlast
    simpa using this

/-- The first listing of a ServiceDir calls List of its service, whatever the outcome. -/
theorem ServiceDir.ReadDir_cold_logs (env : Env) (w : World) (self : Addr) (dir : ServiceDir)
    (hdir : w.heap[self]? = some (.serviceDir dir)) (hc : dir.cache = none) :
    ∃ w1 res, ServiceDir.ReadDir env w self = some (w1, res) ∧
      w1.listLog = w.listLog ++ [dir.svc.id] := by
  cases hl : env.list dir.svc.id (w.listLog.count dir.svc.id) with
  | error err => exact ⟨_, _, ServiceDir.ReadDir_cold_error env w self dir err hdir hc hl, rfl⟩
  | ok a => exact ⟨_, _, ServiceDir.ReadDir_cold_ok env w self dir a hdir hc hl, rfl⟩

/-- An entry of a listing whose objects are known is one of these objects. -/
theorem entry_mem_dirs (heap : List Obj) (entries : List Addr) (dirs : List ServiceDir)
    (h : entries.map (fun e => heap[e]?) = dirs.map (fun d => some (Obj.serviceDir d)))
    (e : Addr) (d : ServiceDir) (he : e ∈ entries) (hd : heap[e]? = some (.serviceDir d)) :
    d ∈ dirs := by
  have hmem : heap[e]? ∈ entries.map (fun e => heap[e]?) := List.mem_map_of_mem _ he
  rw [h, hd] at hmem
  obtain ⟨d2, hd2, heq⟩ := List.mem_map.mp hmem
  simp only [Option.some.injEq, Obj.serviceDir.injEq] at heq
  rw [← heq]
  exact hd2

/-- C12: when two services bear the same name, after CreateService of the first and then
of the second the Root listing has exactly one entry of this name; it is backed by the
second service, whose List is the one that listing the entry calls, and the entries
of other names are those of the registrations made before. -/
theorem CreateService_overwrites (env : Env) (w : World) (r : Addr) (root : Root)
    (s1 s2 : Service)
    (hroot : w.heap[r]? = some (.root root))
    (hkeys : (root.services.map Prod.fst).Nodup) (hname : s1.Name = s2.Name) :
    ∃ (w1 w2 w3 : World) (entries : List Addr) (dirs : List ServiceDir),
      Root.CreateService w r s1 = some w1 ∧ Root.CreateService w1 r s2 = some w2 ∧
      Root.ReadDir env w2 r = some (w3, (some entries, none)) ∧
      entries.map (fun e => w3.heap[e]?) = dirs.map (fun d => some (Obj.serviceDir d)) ∧
      (dirs.map (·.Name)).count s2.Name = 1 ∧
      (∀ d ∈ dirs, d.Name = s2.Name → d.svc = s2 ∧ d.cache = none) ∧
      (∀ (k : String) (v : Service), k ≠ s2.Name →
        ((∃ d ∈ dirs, d.Name = k ∧ d.svc = v) ↔ (k, v) ∈ root.services)) ∧
      (∀ (e : Addr) (d : ServiceDir), e ∈ entries → w3.heap[e]? = some (.serviceDir d) →
        d.Name = s2.Name →
        ∃ w4 res, ServiceDir.ReadDir env w3 e = some (w4, res) ∧
          w4.listLog = w3.listLog ++ [s2.id]) := by
  have hs : r < w.heap.length := (List.getElem?_eq_some.mp hroot).1
  have h1 := Root.CreateService_eq w r root s1 hroot
  have hroot1 : (w.heap.set r (Obj.root { root with
      services := mapSet root.services s1.Name s1 }))[r]?
      = some (Obj.root { root with services := mapSet root.services s1.Name s1 }) :=
    List.getElem?_set_self hs
  have h2 := Root.CreateService_eq
    (World.mk (w.heap.set r (.root { root with services := mapSet root.services s1.Name s1 }))
      w.listLog w.ticks) r _ s2 hroot1
  simp only [set_set_same, hname, mapSet_mapSet] at h2
  rw [hname] at h1
  have hroot2 : (w.heap.set r (Obj.root { root with
      services := mapSet root.services s2.Name s2 }))[r]?
      = some (Obj.root { root with services := mapSet root.services s2.Name s2 }) :=
    List.getElem?_set_self hs
  have h3 := Root.ReadDir_eq env
    (World.mk (w.heap.set r (.root { root with services := mapSet root.services s2.Name s2 }))
      w.listLog w.ticks) r _ hroot2
  have hnodup : ((mapSet root.services s2.Name s2).map Prod.fst).Nodup :=
    nodup_keys_mapSet _ _ _ hkeys
  have hperm := rangeOrder_perm (env.mapSeed w.ticks) (mapSet root.services s2.Name s2)
  have hdirs : ∀ d, d ∈ (rangeOrder (env.mapSeed w.ticks)
      (mapSet root.services s2.Name s2)).map
        (fun kv => newServiceDir (env.now w.ticks) kv.1 kv.2) ↔
      ∃ k v, ((k = s2.Name ∧ v = s2) ∨ (k ≠ s2.Name ∧ (k, v) ∈ root.services)) ∧
        d = newServiceDir (env.now w.ticks) k v := by
    intro d
    rw [List.mem_map]
    constructor
    · rintro ⟨⟨k, v⟩, hkv, rfl⟩
      exact ⟨k, v, (mem_mapSet _ _ _ hkeys k v).mp (hperm.mem_iff.mp hkv), rfl⟩
    · rintro ⟨k, v, hkv, rfl⟩
      exact ⟨(k, v), hperm.mem_iff.mpr ((mem_mapSet _ _ _ hkeys k v).mpr hkv), rfl⟩
  have hobj := Root.listing_objects
    (w.heap.set r (.root { root with services := mapSet root.services s2.Name s2 }))
    (rangeOrder (env.mapSeed w.ticks) (mapSet root.services s2.Name s2)) (env.now w.ticks)
  have hback : ∀ d ∈ (rangeOrder (env.mapSeed w.ticks)
      (mapSet root.services s2.Name s2)).map
        (fun kv => newServiceDir (env.now w.ticks) kv.1 kv.2),
      d.Name = s2.Name → d.svc = s2 ∧ d.cache = none := by
    intro d hd hdn
    obtain ⟨k, v, hkv, rfl⟩ := (hdirs d).mp hd
    rcases hkv with ⟨_, rfl⟩ | ⟨hne, _⟩
    · exact ⟨rfl, rfl⟩
    · exact absurd hdn hne
  refine ⟨_, _, _, _, _, h1, h2, h3, hobj, ?_, hback, ?_, ?_⟩
  · have hnames : ((rangeOrder (env.mapSeed w.ticks) (mapSet root.services s2.Name s2)).map
        (fun kv => newServiceDir (env.now w.ticks) kv.1 kv.2)).map (·.Name)
        = (rangeOrder (env.mapSeed w.ticks) (mapSet root.services s2.Name s2)).map Prod.fst := by
      rw [List.map_map]
      rfl
    rw [hnames]
    apply List.count_eq_one_of_mem ((hperm.map Prod.fst).nodup_iff.mpr hnodup)
    rw [(hperm.map Prod.fst).mem_iff, mem_keys_mapSet]
    exact Or.inl rfl
  · intro k v hk
    constructor
    · rintro ⟨d, hd, rfl, rfl⟩
      obtain ⟨k2, v2, hkv, rfl⟩ := (hdirs d).mp hd
      rcases hkv with ⟨rfl, _⟩ | ⟨_, hin⟩
      · exact absurd rfl hk
      · exact hin
    · intro hin
      exact ⟨newServiceDir (env.now w.ticks) k v,
        (hdirs _).mpr ⟨k, v, Or.inr ⟨hk, hin⟩, rfl⟩, rfl, rfl⟩
  · intro e d he hd hdn
    have hmem := entry_mem_dirs _ _ _ hobj e d he hd
    obtain ⟨hsvc, hcache⟩ := hback d hmem hdn
    have := ServiceDir.ReadDir_cold_logs env _ e d hd hcache
    rw [hsvc] at this
    exact this

/-- Witness of C12: the services 7 and 8 are registered under the name "tracker1" in a
Root that holds the service "other". -/
theorem CreateService_overwrites_witness :
    demoRootWorld.heap[0]? = some (.root (rootWith 1000 [("other", demoSvcOther)])) ∧
    demoSvc.Name = demoSvcB.Name ∧
    ∃ (w1 w2 w3 : World) (entries : List Addr) (dirs : List ServiceDir),
      Root.CreateService demoRootWorld 0 demoSvc = some w1 ∧
      Root.CreateService w1 0 demoSvcB = some w2 ∧
      Root.ReadDir demoEnv w2 0 = some (w3, (some entries, none)) ∧
      entries.map (fun e => w3.heap[e]?) = dirs.map (fun d => some (Obj.serviceDir d)) ∧
      (dirs.map (·.Name)).count "tracker1" = 1 ∧
      (∀ d ∈ dirs, d.Name = "tracker1" → d.svc = demoSvcB ∧ d.cache = none) ∧
      (∀ (k : String) (v : Service), k ≠ "tracker1" →
        ((∃ d ∈ dirs, d.Name = k ∧ d.svc = v) ↔ (k, v) ∈ [("other", demoSvcOther)])) ∧
      (∀ (e : Addr) (d : ServiceDir), e ∈ entries → w3.heap[e]? = some (.serviceDir d) →
        d.Name = "tracker1" →
        ∃ w4 res, ServiceDir.ReadDir demoEnv w3 e = some (w4, res) ∧
          w4.listLog = w3.listLog ++ [8]) :=
  ⟨rfl, rfl,
    CreateService_overwrites demoEnv demoRootWorld 0 (rootWith 1000 [("other", demoSvcOther)])
      demoSvc demoSvcB rfl (by decide) rfl⟩

/-- C17: every Root.ReadDir returns no error, calls no List, leaves the Root (its map of
services) and every other object as they were, and returns new ServiceDirs, one for
each registered service, whose cache is nil; listing any of them calls List of its
service, whatever ServiceDirs the world already holds. -/
theorem Root.ReadDir_uncached (env : Env) (w : World) (r : Addr) (root : Root)
    (hroot : w.heap[r]? = some (.root root)) :
    ∃ (w1 : World) (entries : List Addr),
      Root.ReadDir env w r = some (w1, (some entries, none)) ∧
      w1.listLog = w.listLog ∧ w1.heap[r]? = some (.root root) ∧
      (∀ (j : Addr) (o : Obj), w.heap[j]? = some o → w1.heap[j]? = some o) ∧
      entries.length = root.services.length ∧
      (∀ e ∈ entries, w.heap.length ≤ e ∧ ∃ d, w1.heap[e]? = some (.serviceDir d) ∧
        d.cache = none ∧ (d.Name, d.svc) ∈ root.services ∧
        ∃ w2 res, ServiceDir.ReadDir env w1 e = some (w2, res) ∧
          w2.listLog = w1.listLog ++ [d.svc.id]) := by
  have hperm := rangeOrder_perm (env.mapSeed w.ticks) root.services
  have hold : ∀ (j : Addr) (o : Obj), w.heap[j]? = some o →
      (w.heap ++ (rangeOrder (env.mapSeed w.ticks) root.services).map
        (fun kv => Obj.serviceDir (newServiceDir (env.now w.ticks) kv.1 kv.2)))[j]? = some o := by
    intro j o hj
    rw [List.getElem?_append_left (List.getElem?_eq_some.mp hj).1]
    exact hj
  refine ⟨_, _, Root.ReadDir_eq env w r root hroot, rfl, hold r _ hroot, hold, ?_, ?_⟩
  · simp only [List.length_map, List.length_range]
    exact hperm.length_eq
  · intro e he
    simp only [List.mem_map, List.mem_range] at he
    obtain ⟨i, hi, rfl⟩ := he
    have hget : (w.heap ++ (rangeOrder (env.mapSeed w.ticks) root.services).map
        (fun kv => Obj.serviceDir (newServiceDir (env.now w.ticks) kv.1 kv.2)))[w.heap.length + i]?
        = some (Obj.serviceDir (newServiceDir (env.now w.ticks)
          ((rangeOrder (env.mapSeed w.ticks) root.services)[i]).1
          ((rangeOrder (env.mapSeed w.ticks) root.services)[i]).2)) := by
      rw [List.getElem?_append_right (Nat.le_add_right _ _)]
      simp [List.getElem?_eq_getElem hi]
    refine ⟨Nat.le_add_right _ _, _, hget, rfl, ?_, ?_⟩
    · exact hperm.mem_iff.mp (List.getElem_mem hi)
    · exact ServiceDir.ReadDir_cold_logs env _ _ _ hget rfl

/-- Witness of C17: the world holds a Root with the service "tracker1" and a populated
ServiceDir of this service; the Root is listed again and the new ServiceDir, at
address 5, calls List when it is listed. -/
theorem Root.ReadDir_uncached_witness :
    demoNodes.heap[0]? = some (.root (rootWith 1 [("tracker1", demoSvc)])) ∧
    demoNodes.heap[1]? = some (.serviceDir { demoDir with cache := some [2, 4] }) ∧
    (Root.ReadDir demoEnv demoNodes 0).map (·.2) = some (some [5], none) ∧
    ∃ (w1 : World) (entries : List Addr),
      Root.ReadDir demoEnv demoNodes 0 = some (w1, (some entries, none)) ∧
      w1.listLog = [7] ∧ w1.heap[0]? = some (.root (rootWith 1 [("tracker1", demoSvc)])) ∧
      (∀ (j : Addr) (o : Obj), demoNodes.heap[j]? = some o → w1.heap[j]? = some o) ∧
      entries.length = 1 ∧
      (∀ e ∈ entries, 5 ≤ e ∧ ∃ d, w1.heap[e]? = some (.serviceDir d) ∧
        d.cache = none ∧ (d.Name, d.svc) ∈ [("tracker1", demoSvc)] ∧
        ∃ w2 res, ServiceDir.ReadDir demoEnv w1 e = some (w2, res) ∧
          w2.listLog = w1.listLog ++ [d.svc.id]) :=
  ⟨rfl, rfl, by decide,
    Root.ReadDir_uncached demoEnv demoNodes 0 (rootWith 1 [("tracker1", demoSvc)]) rfl⟩

theorem Obj.stepsTo_refl (b : Bool) (o : Obj) : Obj.stepsTo b o o := by
  cases o with
  | root x => rfl
  | serviceDir x => exact Or.inl rfl
  | taskDir x => exact Or.inl rfl
  | text x => rfl
  | ctl x => rfl

/-- A call that allocates objects and rewrites one cell changes the old cells only there. -/
theorem stepsTo_set_append (b : Bool) (l m : List Obj) (d : Addr) (x od : Obj)
    (hd : l[d]? = some od) (hev : Obj.stepsTo b od x) (j : Addr) (o : Obj)
    (hj : l[j]? = some o) :
    ∃ o1, ((l ++ m).set d x)[j]? = some o1 ∧ Obj.stepsTo b o o1 := by
  by_cases hjd : j = d
  · subst hjd
    rw [hd] at hj
    cases hj
    exact ⟨x, getElem?_set_append_self _ _ _ _ _ hd, hev⟩
  · refine ⟨o, ?_, Obj.stepsTo_refl b o⟩
    rw [List.getElem?_set_ne (Ne.symm hjd),
      List.getElem?_append_left (List.getElem?_eq_some.mp hj).1]
    exact hj

/-- What `Refresh` on a node changes. -/
theorem Dir.Refresh_stepsTo (w w1 : World) (d : Addr) (h : Dir.Refresh w d = some w1)
    (j : Addr) (o : Obj) (hj : w.heap[j]? = some o) :
    ∃ o1, w1.heap[j]? = some o1 ∧ Obj.stepsTo true o o1 := by
  cases ho : w.heap[d]? with
  | none => simp [Dir.Refresh, ho] at h
  | some od =>
    cases od with
    | serviceDir x =>
      simp only [Dir.Refresh, ServiceDir.Refresh, ho, Option.some.injEq] at h
      subst h
      have := stepsTo_set_append true w.heap [] d (.serviceDir { x with cache := none })
        (.serviceDir x) ho (Or.inr (Or.inr ⟨rfl, rfl⟩)) j o hj
      simpa using this
    | root x =>
      simp only [Dir.Refresh, Root.Refresh, ho, Option.some.injEq] at h
      subst h
      exact ⟨o, hj, Obj.stepsTo_refl _ o⟩
    | taskDir x =>
      simp only [Dir.Refresh, TaskDir.Refresh, ho, Option.some.injEq] at h
      subst h
      exact ⟨o, hj, Obj.stepsTo_refl _ o⟩
    | text x =>
      simp only [Dir.Refresh, Text.Refresh, ho, Option.some.injEq] at h
      subst h
      exact ⟨o, hj, Obj.stepsTo_refl _ o⟩
    | ctl x =>
      simp only [Dir.Refresh, Ctl.Refresh, ho, Option.some.injEq] at h
      subst h
      exact ⟨o, hj, Obj.stepsTo_refl _ o⟩

/-- What a write to a control file changes. -/
theorem Ctl.WriteFile_stepsTo (w w1 : World) (c : Addr) (p : List UInt8) (r : Option Error)
    (h : Ctl.WriteFile w c p = some (w1, r)) (j : Addr) (o : Obj) (hj : w.heap[j]? = some o) :
    ∃ o1, w1.heap[j]? = some o1 ∧ Obj.stepsTo true o o1 := by
  unfold Ctl.WriteFile at h
  split at h
  · split at h
    · simp only [Option.some.injEq, Prod.mk.injEq] at h
      rw [← h.1]
      exact ⟨o, hj, Obj.stepsTo_refl _ o⟩
    · split at h
      · split at h
        · rename_i w2 hw2
          simp only [Option.some.injEq, Prod.mk.injEq] at h
          rw [← h.1]
          exact Dir.Refresh_stepsTo w w2 _ hw2 j o hj
        · cases h
      · simp only [Option.some.injEq, Prod.mk.injEq] at h
        rw [← h.1]
        exact ⟨o, hj, Obj.stepsTo_refl _ o⟩
  · cases h

/-- What `ReadDir` on a node changes. -/
theorem Dir.ReadDir_stepsTo (env : Env) (w w1 : World) (d : Addr) (r : DirResult)
    (h : Dir.ReadDir env w d = some (w1, r)) (j : Addr) (o : Obj) (hj : w.heap[j]? = some o) :
    ∃ o1, w1.heap[j]? = some o1 ∧ Obj.stepsTo false o o1 := by
  cases ho : w.heap[d]? with
  | none => simp [Dir.ReadDir, ho] at h
  | some od =>
    cases od with
    | root x =>
      simp only [Dir.ReadDir, ho] at h
      rw [Root.ReadDir_eq env w d x ho] at h
      cases h
      refine ⟨o, ?_, Obj.stepsTo_refl _ o⟩
      show (w.heap ++ _)[j]? = some o
      rw [List.getElem?_append_left (List.getElem?_eq_some.mp hj).1]
      exact hj
    | serviceDir x =>
      simp only [Dir.ReadDir, ho] at h
      cases hc : x.cache with
      | some c =>
        rw [ServiceDir.ReadDir_warm env w d x c ho hc] at h
        cases h
        exact ⟨o, hj, Obj.stepsTo_refl _ o⟩
      | none =>
        cases hl : env.list x.svc.id (w.listLog.count x.svc.id) with
        | error err =>
          rw [ServiceDir.ReadDir_cold_error env w d x err ho hc hl] at h
          cases h
          exact ⟨o, hj, Obj.stepsTo_refl _ o⟩
        | ok a =>
          rw [ServiceDir.ReadDir_cold_ok env w d x a ho hc hl] at h
          cases h
          have := stepsTo_set_append false w.heap
            (a.map (fun task => Obj.taskDir (newTaskDir task)) ++
              [Obj.ctl (newCtl (env.now w.ticks) d)]) d
            (.serviceDir { x with
              cache := some ((List.range (a.length + 1)).map (w.heap.length + ·)) })
            (.serviceDir x) ho (Or.inr (Or.inl ⟨hc, _, rfl⟩)) j o hj
          simpa only [List.append_assoc] using this
    | taskDir x =>
      simp only [Dir.ReadDir, ho] at h
      cases hf : x.files with
      | some fs =>
        simp only [TaskDir.ReadDir, ho, hf, Option.some.injEq, Prod.mk.injEq] at h
        rw [← h.1]
        exact ⟨o, hj, Obj.stepsTo_refl _ o⟩
      | none =>
        rw [TaskDir.ReadDir_cold w d x ho hf] at h
        cases h
        exact stepsTo_set_append false w.heap _ d _ (.taskDir x) ho
          (Or.inr ⟨hf, _, rfl⟩) j o hj
    | text x =>
      simp only [Dir.ReadDir, Text.ReadDir, ho, Option.some.injEq, Prod.mk.injEq] at h
      rw [← h.1]
      exact ⟨o, hj, Obj.stepsTo_refl _ o⟩
    | ctl x =>
      simp only [Dir.ReadDir, Ctl.ReadDir, ho, Option.some.injEq, Prod.mk.injEq] at h
      rw [← h.1]
      exact ⟨o, hj, Obj.stepsTo_refl _ o⟩

/-- What one call changes in the objects that exist. -/
theorem step_stepsTo (env : Env) (w w1 : World) (op : Op) (h : step env w op = some w1)
    (j : Addr) (o : Obj) (hj : w.heap[j]? = some o) :
    ∃ o1, w1.heap[j]? = some o1 ∧ Obj.stepsTo op.mayRefresh o o1 := by
  cases op with
  | readDir d =>
    cases hr : Dir.ReadDir env w d with
    | none => simp [Taskfs.step, hr] at h
    | some x =>
      simp only [Taskfs.step, hr, Option.map_some', Option.some.injEq] at h
      subst h
      exact Dir.ReadDir_stepsTo env w x.1 d x.2 hr j o hj
  | readFile d =>
    cases hr : Dir.ReadFile w d with
    | none => simp [Taskfs.step, hr] at h
    | some x =>
      simp only [Taskfs.step, hr, Option.map_some', Option.some.injEq] at h
      subst h
      rw [Dir.ReadFile_world w x.1 d x.2 hr]
      exact ⟨o, hj, Obj.stepsTo_refl _ o⟩
  | refresh d => exact Dir.Refresh_stepsTo w w1 d h j o hj
  | writeFile c p =>
    cases hr : Ctl.WriteFile w c p with
    | none => simp [Taskfs.step, hr] at h
    | some x =>
      simp only [Taskfs.step, hr, Option.map_some', Option.some.injEq] at h
      subst h
      exact Ctl.WriteFile_stepsTo w x.1 c p x.2 hr j o hj

/-- A call leaves a settled object as it is. -/
theorem Obj.stepsTo_settled (b : Bool) (o o1 : Obj) (h : Obj.stepsTo b o o1)
    (hs : o.settled = true) : o1 = o := by
  cases o with
  | serviceDir x => cases hs
  | root x => exact h
  | text x => exact h
  | ctl x => exact h
  | taskDir x =>
    rcases h with h | ⟨hnone, _⟩
    · exact h
    · simp [Obj.settled, hnone] at hs

/-- A call changes only the mutable fields of an object. -/
theorem Obj.stepsTo_frozen (b : Bool) (o o1 : Obj) (h : Obj.stepsTo b o o1) :
    o1.frozen = o.frozen := by
  cases o with
  | serviceDir x =>
    rcases h with rfl | ⟨_, es, rfl⟩ | ⟨_, rfl⟩ <;> rfl
  | root x => rw [h]
  | text x => rw [h]
  | ctl x => rw [h]
  | taskDir x =>
    rcases h with rfl | ⟨_, fs, rfl⟩ <;> rfl

/-- Settled objects survive every sequence of calls unchanged. -/
theorem run_settled (env : Env) (ops : List Op) (w w1 : World) (h : run env w ops = some w1)
    (j : Addr) (o : Obj) (hj : w.heap[j]? = some o) (hs : o.settled = true) :
    w1.heap[j]? = some o := by
  induction ops generalizing w with
  | nil =>
    simp only [Taskfs.run, Option.some.injEq] at h
    subst h
    exact hj
  | cons op ops ih =>
    cases hst : Taskfs.step env w op with
    | none => simp [Taskfs.run, hst] at h
    | some w2 =>
      simp only [Taskfs.run, hst] at h
      obtain ⟨o1, ho1, hev⟩ := step_stepsTo env w w2 op hst j o hj
      rw [Obj.stepsTo_settled _ o o1 hev hs] at ho1
      exact ih w2 h ho1

/-- Every object survives every sequence of calls up to its mutable fields. -/
theorem run_frozen (env : Env) (ops : List Op) (w w1 : World) (h : run env w ops = some w1)
    (j : Addr) (o : Obj) (hj : w.heap[j]? = some o) :
    ∃ o1, w1.heap[j]? = some o1 ∧ o1.frozen = o.frozen := by
  induction ops generalizing w o with
  | nil =>
    simp only [Taskfs.run, Option.some.injEq] at h
    subst h
    exact ⟨o, hj, rfl⟩
  | cons op ops ih =>
    cases hst : Taskfs.step env w op with
    | none => simp [Taskfs.run, hst] at h
    | some w2 =>
      simp only [Taskfs.run, hst] at h
      obtain ⟨o1, ho1, hev⟩ := step_stepsTo env w w2 op hst j o hj
      obtain ⟨o2, ho2, hfr⟩ := ih w2 h o1 ho1
      exact ⟨o2, ho2, by rw [hfr, Obj.stepsTo_frozen _ o o1 hev]⟩

/-- A populated ServiceDir survives unchanged every sequence of calls none of which can
refresh. -/
theorem run_populated (env : Env) (ops : List Op) (w w1 : World) (h : run env w ops = some w1)
    (hops : ∀ op ∈ ops, op.mayRefresh = false)
    (s : Addr) (d : ServiceDir) (es : List Addr)
    (hs : w.heap[s]? = some (.serviceDir d)) (hc : d.cache = some es) :
    w1.heap[s]? = some (.serviceDir d) := by
  induction ops generalizing w with
  | nil =>
    simp only [Taskfs.run, Option.some.injEq] at h
    subst h
    exact hs
  | cons op ops ih =>
    cases hst : Taskfs.step env w op with
    | none => simp [Taskfs.run, hst] at h
    | some w2 =>
      simp only [Taskfs.run, hst] at h
      obtain ⟨o1, ho1, hev⟩ := step_stepsTo env w w2 op hst s _ hs
      rw [hops op (List.mem_cons_self _ _)] at hev
      have ho : o1 = .serviceDir d := by
        rcases hev with h1 | ⟨hnone, _⟩ | ⟨hb, _⟩
        · exact h1
        · rw [hc] at hnone
          cases hnone
        · cases hb
      rw [ho] at ho1
      exact ih w2 h (fun op2 h2 => hops op2 (List.mem_cons_of_mem _ h2)) ho1

/-- A call that allocates objects and rewrites one cell leaves the other cells as they are. -/
theorem set_append_other (l m : List Obj) (x : Addr) (v : Obj) (j : Addr) (o : Obj)
    (hj : l[j]? = some o) (hne : j ≠ x) : ((l ++ m).set x v)[j]? = some o := by
  rw [List.getElem?_set_ne (Ne.symm hne),
    List.getElem?_append_left (List.getElem?_eq_some.mp hj).1]
  exact hj

/-- `ReadDir` on a node changes no other object. -/
theorem Dir.ReadDir_other (env : Env) (w w1 : World) (x : Addr) (r : DirResult)
    (h : Dir.ReadDir env w x = some (w1, r)) (j : Addr) (o : Obj) (hj : w.heap[j]? = some o)
    (hne : j ≠ x) : w1.heap[j]? = some o := by
  cases ho : w.heap[x]? with
  | none => simp [Dir.ReadDir, ho] at h
  | some od =>
    cases od with
    | root y =>
      simp only [Dir.ReadDir, ho] at h
      rw [Root.ReadDir_eq env w x y ho] at h
      cases h
      show (w.heap ++ _)[j]? = some o
      rw [List.getElem?_append_left (List.getElem?_eq_some.mp hj).1]
      exact hj
    | serviceDir y =>
      simp only [Dir.ReadDir, ho] at h
      cases hc : y.cache with
      | some c =>
        rw [ServiceDir.ReadDir_warm env w x y c ho hc] at h
        cases h
        exact hj
      | none =>
        cases hl : env.list y.svc.id (w.listLog.count y.svc.id) with
        | error err =>
          rw [ServiceDir.ReadDir_cold_error env w x y err ho hc hl] at h
          cases h
          exact hj
        | ok a =>
          rw [ServiceDir.ReadDir_cold_ok env w x y a ho hc hl] at h
          cases h
          have := set_append_other w.heap
            (a.map (fun task => Obj.taskDir (newTaskDir task)) ++
              [Obj.ctl (newCtl (env.now w.ticks) x)]) x
            (.serviceDir { y with
              cache := some ((List.range (a.length + 1)).map (w.heap.length + ·)) }) j o hj hne
          simpa only [List.append_assoc] using this
    | taskDir y =>
      simp only [Dir.ReadDir, ho] at h
      cases hf : y.files with
      | some fs =>
        simp only [TaskDir.ReadDir, ho, hf, Option.some.injEq, Prod.mk.injEq] at h
        rw [← h.1]
        exact hj
      | none =>
        rw [TaskDir.ReadDir_cold w x y ho hf] at h
        cases h
        exact set_append_other w.heap _ x _ j o hj hne
    | text y =>
      simp only [Dir.ReadDir, Text.ReadDir, ho, Option.some.injEq, Prod.mk.injEq] at h
      rw [← h.1]
      exact hj
    | ctl y =>
      simp only [Dir.ReadDir, Ctl.ReadDir, ho, Option.some.injEq, Prod.mk.injEq] at h
      rw [← h.1]
      exact hj

/-- `Refresh` on a node changes no other object. -/
theorem Dir.Refresh_other (w w1 : World) (x : Addr) (h : Dir.Refresh w x = some w1)
    (j : Addr) (o : Obj) (hj : w.heap[j]? = some o) (hne : j ≠ x) : w1.heap[j]? = some o := by
  cases ho : w.heap[x]? with
  | none => simp [Dir.Refresh, ho] at h
  | some od =>
    cases od with
    | serviceDir y =>
      simp only [Dir.Refresh, ServiceDir.Refresh, ho, Option.some.injEq] at h
      subst h
      show (w.heap.set x _)[j]? = some o
      rw [List.getElem?_set_ne (Ne.symm hne)]
      exact hj
    | root y =>
      simp only [Dir.Refresh, Root.Refresh, ho, Option.some.injEq] at h
      subst h
      exact hj
    | taskDir y =>
      simp only [Dir.Refresh, TaskDir.Refresh, ho, Option.some.injEq] at h
      subst h
      exact hj
    | text y =>
      simp only [Dir.Refresh, Text.Refresh, ho, Option.some.injEq] at h
      subst h
      exact hj
    | ctl y =>
      simp only [Dir.Refresh, Ctl.Refresh, ho, Option.some.injEq] at h
      subst h
      exact hj

/-- `Refresh` on a ServiceDir empties its cache. -/
theorem Dir.Refresh_self (w w1 : World) (s : Addr) (d : ServiceDir)
    (h : Dir.Refresh w s = some w1) (hs : w.heap[s]? = some (.serviceDir d)) :
    w1.heap[s]? = some (.serviceDir { d with cache := none }) := by
  simp only [Dir.Refresh, ServiceDir.Refresh, hs, Option.some.injEq] at h
  subst h
  exact List.getElem?_set_self (List.getElem?_eq_some.mp hs).1

/-- What a write to a control file makes of a ServiceDir: nothing, unless the control file
is its own and the first field is "refresh"; then the cache is emptied. -/
theorem Ctl.WriteFile_serviceDir (w w1 : World) (c : Addr) (p : List UInt8) (r : Option Error)
    (h : Ctl.WriteFile w c p = some (w1, r)) (s : Addr) (d : ServiceDir)
    (hs : w.heap[s]? = some (.serviceDir d)) :
    w1.heap[s]? = some (.serviceDir d) ∨
      ((Op.writeFile c p).refreshes w s = true ∧
        w1.heap[s]? = some (.serviceDir { d with cache := none })) := by
  cases hc : w.heap[c]? with
  | none => simp [Ctl.WriteFile, hc] at h
  | some oc =>
    cases oc with
    | ctl ctl =>
      cases hf : Fields p with
      | nil =>
        simp only [Ctl.WriteFile, hc, hf, Option.some.injEq, Prod.mk.injEq] at h
        rw [← h.1]
        exact Or.inl hs
      | cons a0 rest =>
        by_cases h0 : a0 = bytesOf "refresh"
        · subst h0
          cases hr : Dir.Refresh w ctl.parent with
          | none => simp [Ctl.WriteFile, hc, hf, hr] at h
          | some w2 =>
            simp only [Ctl.WriteFile, hc, hf, hr, if_true, Option.some.injEq,
              Prod.mk.injEq] at h
            rw [← h.1]
            by_cases hp : ctl.parent = s
            · subst hp
              refine Or.inr ⟨?_, Dir.Refresh_self w w2 _ d hr hs⟩
              simp [Op.refreshes, hc, hf]
            · exact Or.inl (Dir.Refresh_other w w2 _ hr s _ hs (fun e => hp e.symm))
        · simp only [Ctl.WriteFile, hc, hf, h0, if_false, Option.some.injEq,
            Prod.mk.injEq] at h
          rw [← h.1]
          exact Or.inl hs
    | root y => simp [Ctl.WriteFile, hc] at h
    | serviceDir y => simp [Ctl.WriteFile, hc] at h
    | taskDir y => simp [Ctl.WriteFile, hc] at h
    | text y => simp [Ctl.WriteFile, hc] at h

/-- What one call makes of a ServiceDir: nothing, or an empty cache when the call refreshes
this ServiceDir, or a new cache when the call is a new listing of it. -/
theorem step_serviceDir (env : Env) (w w1 : World) (op : Op) (h : step env w op = some w1)
    (s : Addr) (d : ServiceDir) (hs : w.heap[s]? = some (.serviceDir d)) :
    w1.heap[s]? = some (.serviceDir d) ∨
      (op.refreshes w s = true ∧ w1.heap[s]? = some (.serviceDir { d with cache := none })) ∨
      (op.relists w s = true ∧
        ∃ es, w1.heap[s]? = some (.serviceDir { d with cache := some es })) := by
  cases op with
  | readDir x =>
    cases hr : Dir.ReadDir env w x with
    | none => simp [Taskfs.step, hr] at h
    | some y =>
      simp only [Taskfs.step, hr, Option.map_some', Option.some.injEq] at h
      subst h
      by_cases hx : s = x
      · subst hx
        obtain ⟨o1, ho1, hev⟩ := Dir.ReadDir_stepsTo env w y.1 s y.2 hr s _ hs
        rcases hev with h1 | ⟨hnone, es, h2⟩ | ⟨hb, _⟩
        · rw [h1] at ho1
          exact Or.inl ho1
        · rw [h2] at ho1
          refine Or.inr (Or.inr ⟨?_, es, ho1⟩)
          simp [Op.relists, hs, hnone]
        · cases hb
      · exact Or.inl (Dir.ReadDir_other env w y.1 x y.2 hr s _ hs hx)
  | readFile x =>
    cases hr : Dir.ReadFile w x with
    | none => simp [Taskfs.step, hr] at h
    | some y =>
      simp only [Taskfs.step, hr, Option.map_some', Option.some.injEq] at h
      subst h
      rw [Dir.ReadFile_world w y.1 x y.2 hr]
      exact Or.inl hs
  | refresh x =>
    by_cases hx : s = x
    · subst hx
      exact Or.inr (Or.inl ⟨by simp [Op.refreshes], Dir.Refresh_self w w1 s d h hs⟩)
    · exact Or.inl (Dir.Refresh_other w w1 x h s _ hs hx)
  | writeFile c p =>
    cases hr : Ctl.WriteFile w c p with
    | none => simp [Taskfs.step, hr] at h
    | some y =>
      simp only [Taskfs.step, hr, Option.map_some', Option.some.injEq] at h
      subst h
      rcases Ctl.WriteFile_serviceDir w y.1 c p y.2 hr s d hs with h1 | h2
      · exact Or.inl h1
      · exact Or.inr (Or.inl h2)

/-- A populated ServiceDir survives unchanged every sequence of calls none of which
refreshes it. -/
theorem run_not_refreshed (env : Env) (s : Addr) (ops : List Op) (w w1 : World)
    (h : run env w ops = some w1)
    (hno : runAny env (fun w op => op.refreshes w s) w ops = false)
    (d : ServiceDir) (es : List Addr)
    (hs : w.heap[s]? = some (.serviceDir d)) (hc : d.cache = some es) :
    w1.heap[s]? = some (.serviceDir d) := by
  induction ops generalizing w with
  | nil =>
    simp only [Taskfs.run, Option.some.injEq] at h
    subst h
    exact hs
  | cons op ops ih =>
    cases hst : Taskfs.step env w op with
    | none => simp [Taskfs.run, hst] at h
    | some w2 =>
      simp only [Taskfs.run, hst] at h
      simp only [runAny, hst, Bool.or_eq_false_iff] at hno
      rcases step_serviceDir env w w2 op hst s d hs with h1 | ⟨h2, _⟩ | ⟨h3, _⟩
      · exact ih w2 h hno.2 h1
      · rw [hno.1] at h2
        cases h2
      · cases op with
        | readDir x => simp [Op.relists, hs, hc] at h3
        | readFile x => simp [Op.relists] at h3
        | refresh x => simp [Op.relists] at h3
        | writeFile c p => simp [Op.relists] at h3

/-- After a sequence of calls none of which is a new listing of a ServiceDir, the
ServiceDir is as it was or has lost its cache. -/
theorem run_not_relisted (env : Env) (s : Addr) (ops : List Op) (w w1 : World)
    (h : run env w ops = some w1)
    (hno : runAny env (fun w op => op.relists w s) w ops = false)
    (d : ServiceDir) (hs : w.heap[s]? = some (.serviceDir d)) :
    w1.heap[s]? = some (.serviceDir d) ∨
      w1.heap[s]? = some (.serviceDir { d with cache := none }) := by
  induction ops generalizing w d with
  | nil =>
    simp only [Taskfs.run, Option.some.injEq] at h
    subst h
    exact Or.inl hs
  | cons op ops ih =>
    cases hst : Taskfs.step env w op with
    | none => simp [Taskfs.run, hst] at h
    | some w2 =>
      simp only [Taskfs.run, hst] at h
      simp only [runAny, hst, Bool.or_eq_false_iff] at hno
      rcases step_serviceDir env w w2 op hst s d hs with h1 | ⟨_, h2⟩ | ⟨h3, _⟩
      · exact ih w2 h hno.2 d h1
      · rcases ih w2 h hno.2 _ h2 with h4 | h4
        · exact Or.inr h4
        · exact Or.inr h4
      · rw [hno.1] at h3
        cases h3

/-- After a sequence of calls in which no new listing of a populated ServiceDir follows a
call that refreshes it, the ServiceDir is as it was or has lost its cache. -/
theorem run_not_refreshed_relisted (env : Env) (s : Addr) (ops : List Op) (w w1 : World)
    (h : run env w ops = some w1)
    (hno : runAnyThen env (fun w op => op.refreshes w s) (fun w op => op.relists w s) w ops
      = false)
    (d : ServiceDir) (es : List Addr)
    (hs : w.heap[s]? = some (.serviceDir d)) (hc : d.cache = some es) :
    w1.heap[s]? = some (.serviceDir d) ∨
      w1.heap[s]? = some (.serviceDir { d with cache := none }) := by
  induction ops generalizing w with
  | nil =>
    simp only [Taskfs.run, Option.some.injEq] at h
    subst h
    exact Or.inl hs
  | cons op ops ih =>
    cases hst : Taskfs.step env w op with
    | none => simp [Taskfs.run, hst] at h
    | some w2 =>
      simp only [Taskfs.run, hst] at h
      simp only [runAnyThen, hst, Bool.or_eq_false_iff] at hno
      rcases step_serviceDir env w w2 op hst s d hs with h1 | ⟨h2, h2c⟩ | ⟨h3, _⟩
      · exact ih w2 h hno.2 h1
      · have hrel : runAny env (fun w op => op.relists w s) w2 ops = false := by
          simpa [h2] using hno.1
        rcases run_not_relisted env s ops w2 w1 h hrel _ h2c with h4 | h4
        · exact Or.inr h4
        · exact Or.inr h4
      · cases op with
        | readDir x => simp [Op.relists, hs, hc] at h3
        | readFile x => simp [Op.relists] at h3
        | refresh x => simp [Op.relists] at h3
        | writeFile c p => simp [Op.relists] at h3

/-- Calls on a TaskDir whose leaves are built: every `ReadDir` returns them and the world
stays as it is. -/
theorem TaskDir.calls_built (w : World) (t : Addr) (td : TaskDir) (fs : List Addr)
    (calls : List TaskCall)
    (ht : w.heap[t]? = some (.taskDir td)) (hf : td.files = some fs) :
    TaskDir.calls w t calls
      = some (w, List.replicate (calls.count TaskCall.readDir) (some fs, none)) := by
  induction calls with
  | nil => rfl
  | cons c rest ih =>
    cases c with
    | readDir =>
      simp only [TaskDir.calls, TaskDir.ReadDir, ht, hf, ih, Option.map_some']
      simp [List.replicate_succ]
    | refresh =>
      simp only [TaskDir.calls, TaskDir.Refresh, ht, ih]
      simp

/-- Calls on a TaskDir whose leaves are not built: the world stays as it is up to the
first `ReadDir`, which builds the leaves; every `ReadDir` returns these leaves. -/
theorem TaskDir.calls_cold (w : World) (t : Addr) (td : TaskDir) (calls : List TaskCall)
    (ht : w.heap[t]? = some (.taskDir td)) (hf : td.files = none) :
    TaskDir.calls w t calls = some
      (if calls.count TaskCall.readDir = 0 then w
        else World.mk
          ((w.heap ++ [Obj.text (td.newText "subject" td.task.Subject),
            Obj.text (td.newText "message" td.task.Message),
            Obj.text (td.newText "url" td.task.PermaLink)]).set t
              (.taskDir { td with
                files := some [w.heap.length, w.heap.length + 1, w.heap.length + 2] }))
          w.listLog w.ticks,
        List.replicate (calls.count TaskCall.readDir)
          (some [w.heap.length, w.heap.length + 1, w.heap.length + 2], none)) := by
  induction calls with
  | nil => rfl
  | cons c rest ih =>
    cases c with
    | readDir =>
      have hb := TaskDir.calls_built
        (World.mk
          ((w.heap ++ [Obj.text (td.newText "subject" td.task.Subject),
            Obj.text (td.newText "message" td.task.Message),
            Obj.text (td.newText "url" td.task.PermaLink)]).set t
              (.taskDir { td with
                files := some [w.heap.length, w.heap.length + 1, w.heap.length + 2] }))
          w.listLog w.ticks) t _ [w.heap.length, w.heap.length + 1, w.heap.length + 2] rest
        (getElem?_set_append_self _ _ _ _ _ ht) rfl
      simp only [TaskDir.calls, TaskDir.ReadDir_cold w t td ht hf, hb, Option.map_some']
      simp [List.replicate_succ]
    | refresh =>
      simp only [TaskDir.calls, TaskDir.Refresh, ht, ih]
      simp

/-- C14: for any sequence of ReadDir and Refresh calls on a TaskDir whose leaves are not
built, every ReadDir returns with no error the same three addresses; the first ReadDir
builds there the leaves "subject", "message" and "url" of the task, Refresh returns
the world it was given, and the world changes in nothing else.  In any world and for
any sequence of calls on any nodes, a Text and a TaskDir with built leaves stay as
they are; a populated ServiceDir stays as it is, with the same entries, as long as no
call refreshes this very ServiceDir (its Refresh, or "refresh" written to a control
file of which it is the parent), and it is as it was or has a nil cache as long as
no call is a new listing of it, and also as long as no new listing of it follows a call
that refreshes it. -/
theorem TaskDir.leaves_built_once (env : Env) (w : World) (t : Addr) (td : TaskDir)
    (calls : List TaskCall)
    (ht : w.heap[t]? = some (.taskDir td)) (hf : td.files = none) :
    (∃ (w1 : World) (results : List DirResult),
      TaskDir.calls w t calls = some (w1, results) ∧
      results.length = calls.count TaskCall.readDir ∧
      (∀ r ∈ results,
        r = (some [w.heap.length, w.heap.length + 1, w.heap.length + 2], none)) ∧
      (results = [] → w1 = w) ∧
      (results ≠ [] →
        w1.heap[w.heap.length]? = some (.text (td.newText "subject" td.task.Subject)) ∧
        w1.heap[w.heap.length + 1]? = some (.text (td.newText "message" td.task.Message)) ∧
        w1.heap[w.heap.length + 2]? = some (.text (td.newText "url" td.task.PermaLink)) ∧
        w1.heap.length = w.heap.length + 3 ∧
        (∀ j, j < w.heap.length → j ≠ t → w1.heap[j]? = w.heap[j]?) ∧
        w1.listLog = w.listLog ∧ w1.ticks = w.ticks) ∧
      TaskDir.Refresh w1 t = some w1) ∧
    ∀ (w0 w2 : World) (ops : List Op), run env w0 ops = some w2 →
      (∀ (j : Addr) (x : Text), w0.heap[j]? = some (.text x) → w2.heap[j]? = some (.text x)) ∧
      (∀ (j : Addr) (d : TaskDir) (fs : List Addr), w0.heap[j]? = some (.taskDir d) →
        d.files = some fs → w2.heap[j]? = some (.taskDir d)) ∧
      (∀ (s : Addr) (d : ServiceDir) (es : List Addr), w0.heap[s]? = some (.serviceDir d) →
        d.cache = some es →
        (runAny env (fun w op => op.refreshes w s) w0 ops = false →
          w2.heap[s]? = some (.serviceDir d)) ∧
        (runAny env (fun w op => op.relists w s) w0 ops = false →
          w2.heap[s]? = some (.serviceDir d) ∨
            w2.heap[s]? = some (.serviceDir { d with cache := none })) ∧
        (runAnyThen env (fun w op => op.refreshes w s) (fun w op => op.relists w s) w0 ops
            = false →
          w2.heap[s]? = some (.serviceDir d) ∨
            w2.heap[s]? = some (.serviceDir { d with cache := none }))) := by
  have hs : t < w.heap.length := (List.getElem?_eq_some.mp ht).1
  refine ⟨⟨_, _, TaskDir.calls_cold w t td calls ht hf, by simp, ?_, ?_, ?_, ?_⟩, ?_⟩
  · intro r hr
    exact (List.mem_replicate.mp hr).2
  · intro hres
    have h0 : calls.count TaskCall.readDir = 0 := by
      simpa using congrArg List.length hres
    simp [h0]
  · intro hres
    have h0 : calls.count TaskCall.readDir ≠ 0 := by
      intro h0
      apply hres
      simp [h0]
    rw [if_neg h0]
    refine ⟨?_, ?_, ?_, by simp, ?_, rfl, rfl⟩
    · simpa using getElem?_set_append_fresh w.heap
        [Obj.text (td.newText "subject" td.task.Subject),
          Obj.text (td.newText "message" td.task.Message),
          Obj.text (td.newText "url" td.task.PermaLink)] t 0 _ hs
    · simpa using getElem?_set_append_fresh w.heap
        [Obj.text (td.newText "subject" td.task.Subject),
          Obj.text (td.newText "message" td.task.Message),
          Obj.text (td.newText "url" td.task.PermaLink)] t 1 _ hs
    · simpa using getElem?_set_append_fresh w.heap
        [Obj.text (td.newText "subject" td.task.Subject),
          Obj.text (td.newText "message" td.task.Message),
          Obj.text (td.newText "url" td.task.PermaLink)] t 2 _ hs
    · intro j hj hjt
      show ((w.heap ++ _).set t _)[j]? = w.heap[j]?
      rw [List.getElem?_set_ne (Ne.symm hjt), List.getElem?_append_left hj]
  · by_cases h0 : calls.count TaskCall.readDir = 0
    · simp only [h0, if_true, TaskDir.Refresh, ht]
    · simp only [h0, if_false, TaskDir.Refresh, getElem?_set_append_self _ _ _ _ _ ht]
  · intro w0 w2 ops hrun
    refine ⟨?_, ?_, ?_⟩
    · intro j x hj
      exact run_settled env ops w0 w2 hrun j _ hj rfl
    · intro j d fs hj hfs
      exact run_settled env ops w0 w2 hrun j _ hj (by simp [Obj.settled, hfs])
    · intro s d es hsd hc
      exact ⟨fun hno => run_not_refreshed env s ops w0 w2 hrun hno d es hsd hc,
        fun hno => run_not_relisted env s ops w0 w2 hrun hno d hsd,
        fun hno => run_not_refreshed_relisted env s ops w0 w2 hrun hno d es hsd hc⟩

/-- Witness of C14: Refresh, ReadDir, Refresh, ReadDir on the TaskDir of task "1"; both
ReadDir calls return the leaves at the addresses 1, 2 and 3.  In the world with two
ServiceDirs the calls `demoOpsOther` do not refresh the ServiceDir at 1, which is
unchanged after them, and "refresh" written to its control file does refresh it; a
listing of it before its Refresh is no new listing after a refresh, one after is. -/
theorem TaskDir.leaves_built_once_witness :
    demoTaskWorld.heap[0]? = some (.taskDir (newTaskDir demoTask1)) ∧
    runAny demoEnv (fun w op => op.refreshes w 1) demoTwo demoOpsOther = false ∧
    (run demoEnv demoTwo demoOpsOther).map (fun w => w.heap[1]?) = some (demoTwo.heap[1]?) ∧
    runAny demoEnv (fun w op => op.refreshes w 1) demoTwo
      [Op.writeFile 3 (bytesOf " refresh\n")] = true ∧
    runAnyThen demoEnv (fun w op => op.refreshes w 1) (fun w op => op.relists w 1) demoTwo
      [Op.readDir 1, Op.refresh 1, Op.refresh 0, Op.readDir 0] = false ∧
    runAnyThen demoEnv (fun w op => op.refreshes w 1) (fun w op => op.relists w 1) demoTwo
      [Op.refresh 1, Op.readDir 0, Op.readDir 1] = true ∧
    (TaskDir.calls demoTaskWorld 0
      [TaskCall.refresh, TaskCall.readDir, TaskCall.refresh, TaskCall.readDir]).map (·.2)
      = some [(some [1, 2, 3], none), (some [1, 2, 3], none)] ∧
    (∃ (w1 : World) (results : List DirResult),
      TaskDir.calls demoTaskWorld 0
        [TaskCall.refresh, TaskCall.readDir, TaskCall.refresh, TaskCall.readDir]
        = some (w1, results) ∧
      results.length = 2 ∧
      (∀ r ∈ results, r = (some [1, 2, 3], none)) ∧
      (results = [] → w1 = demoTaskWorld) ∧
      (results ≠ [] →
        w1.heap[1]? = some (.text ((newTaskDir demoTask1).newText "subject" "first")) ∧
        w1.heap[2]? = some (.text ((newTaskDir demoTask1).newText "message" "héllo")) ∧
        w1.heap[3]? = some (.text ((newTaskDir demoTask1).newText "url" "http://t/1")) ∧
        w1.heap.length = 4 ∧
        (∀ j, j < 1 → j ≠ 0 → w1.heap[j]? = demoTaskWorld.heap[j]?) ∧
        w1.listLog = [] ∧ w1.ticks = 0) ∧
      TaskDir.Refresh w1 0 = some w1) ∧
    ∀ (w0 w2 : World) (ops : List Op), run demoEnv w0 ops = some w2 →
      (∀ (j : Addr) (x : Text), w0.heap[j]? = some (.text x) → w2.heap[j]? = some (.text x)) ∧
      (∀ (j : Addr) (d : TaskDir) (fs : List Addr), w0.heap[j]? = some (.taskDir d) →
        d.files = some fs → w2.heap[j]? = some (.taskDir d)) ∧
      (∀ (s : Addr) (d : ServiceDir) (es : List Addr), w0.heap[s]? = some (.serviceDir d) →
        d.cache = some es →
        (runAny demoEnv (fun w op => op.refreshes w s) w0 ops = false →
          w2.heap[s]? = some (.serviceDir d)) ∧
        (runAny demoEnv (fun w op => op.relists w s) w0 ops = false →
          w2.heap[s]? = some (.serviceDir d) ∨
            w2.heap[s]? = some (.serviceDir { d with cache := none })) ∧
        (runAnyThen demoEnv (fun w op => op.refreshes w s) (fun w op => op.relists w s)
            w0 ops = false →
          w2.heap[s]? = some (.serviceDir d) ∨
            w2.heap[s]? = some (.serviceDir { d with cache := none }))) :=
  ⟨rfl, by decide, by decide, by decide, by decide, by decide, by decide,
    TaskDir.leaves_built_once demoEnv demoTaskWorld 0 (newTaskDir demoTask1)
      [TaskCall.refresh, TaskCall.readDir, TaskCall.refresh, TaskCall.readDir] rfl rfl⟩

/-- An object that is a ServiceDir up to its mutable fields is a ServiceDir. -/
theorem frozen_eq_serviceDir (o : Obj) (y : ServiceDir) (h : o.frozen = (Obj.serviceDir y).frozen) :
    ∃ d, o = .serviceDir d := by
  cases o with
  | serviceDir d => exact ⟨d, rfl⟩
  | root x => simp [Obj.frozen] at h
  | taskDir x => simp [Obj.frozen] at h
  | text x => simp [Obj.frozen] at h
  | ctl x => simp [Obj.frozen] at h

/-- C19: the ctl entry of a listing of the ServiceDir A refers to A, and still does after
any sequence of calls (refreshes and new listings included); writing "refresh" to it
then returns no error, empties the cache of A and leaves every other object, so any
other ServiceDir B, its cache, its TaskDirs and their leaves, as it was. -/
theorem invalidation_local (env : Env) (w : World) (A B : Addr) (dA dB : ServiceDir)
    (a : List Task)
    (hA : w.heap[A]? = some (.serviceDir dA)) (hcA : dA.cache = none)
    (hlist : env.list dA.svc.id (w.listLog.count dA.svc.id) = .ok a)
    (hB : w.heap[B]? = some (.serviceDir dB)) (hAB : A ≠ B) :
    ∃ (w1 : World) (entries : List Addr) (c1 : Addr),
      ServiceDir.ReadDir env w A = some (w1, (some entries, none)) ∧
      entries.getLast? = some c1 ∧
      w1.heap[c1]? = some (.ctl (newCtl (env.now w.ticks) A)) ∧
      (newCtl (env.now w.ticks) A).parent = A ∧
      ∀ (ops : List Op) (w2 : World), run env w1 ops = some w2 →
        w2.heap[c1]? = some (.ctl (newCtl (env.now w.ticks) A)) ∧
        ∃ (dA2 dB2 : ServiceDir) (w3 : World),
          w2.heap[A]? = some (.serviceDir dA2) ∧ w2.heap[B]? = some (.serviceDir dB2) ∧
          Ctl.WriteFile w2 c1 (bytesOf "refresh") = some (w3, none) ∧
          w3.heap[A]? = some (.serviceDir { dA2 with cache := none }) ∧
          w3.heap[B]? = some (.serviceDir dB2) ∧
          (∀ j, j ≠ A → w3.heap[j]? = w2.heap[j]?) ∧
          w3.listLog = w2.listLog ∧ w3.ticks = w2.ticks := by
  have hs : A < w.heap.length := (List.getElem?_eq_some.mp hA).1
  have hsB : B < w.heap.length := (List.getElem?_eq_some.mp hB).1
  have hobj := listed_objects w.heap a (Obj.ctl (newCtl (env.now w.ticks) A))
    (.serviceDir { dA with
      cache := some ((List.range (a.length + 1)).map (w.heap.length + ·)) }) A hs
  have hobj2 : ((List.range (a.length + 1)).map (w.heap.length + ·)).map
      (fun e => ((w.heap ++ a.map (fun task => Obj.taskDir (newTaskDir task)) ++
        [Obj.ctl (newCtl (env.now w.ticks) A)]).set A
          (.serviceDir { dA with
            cache := some ((List.range (a.length + 1)).map (w.heap.length + ·)) }))[e]?)
      = (a.map (fun task => Obj.taskDir (newTaskDir task)) ++
          [Obj.ctl (newCtl (env.now w.ticks) A)]).map some := by
    rw [hobj]; simp
  have hi2 : (a.map (fun task => Obj.taskDir (newTaskDir task)) ++
      [Obj.ctl (newCtl (env.now w.ticks) A)])[a.length]?
      = some (Obj.ctl (newCtl (env.now w.ticks) A)) := by
    rw [List.getElem?_append_right (by simp)]
    simp
  obtain ⟨c1, he1, he2⟩ := entry_of_objects _ _ _ a.length _ hobj2 hi2
  have hA1 : ((w.heap ++ a.map (fun task => Obj.taskDir (newTaskDir task)) ++
      [Obj.ctl (newCtl (env.now w.ticks) A)]).set A
        (.serviceDir { dA with
          cache := some ((List.range (a.length + 1)).map (w.heap.length + ·)) }))[A]?
      = some (.serviceDir { dA with
          cache := some ((List.range (a.length + 1)).map (w.heap.length + ·)) }) := by
    simp only [List.append_assoc]
    exact getElem?_set_append_self _ _ _ _ _ hA
  have hB1 : ((w.heap ++ a.map (fun task => Obj.taskDir (newTaskDir task)) ++
      [Obj.ctl (newCtl (env.now w.ticks) A)]).set A
        (.serviceDir { dA with
          cache := some ((List.range (a.length + 1)).map (w.heap.length + ·)) }))[B]?
      = some (.serviceDir dB) := by
    rw [List.getElem?_set_ne hAB, List.append_assoc, List.getElem?_append_left hsB]
    exact hB
  refine ⟨_, _, c1, ServiceDir.ReadDir_cold_ok env w A dA a hA hcA hlist, ?_, he2, rfl, ?_⟩
  · rw [List.getLast?_eq_getElem?]
    simpa using he1
  · intro ops w2 hrun
    have hc2 := run_settled env ops _ w2 hrun c1 _ he2 rfl
    obtain ⟨oA, hoA, hfA⟩ := run_frozen env ops _ w2 hrun A _ hA1
    obtain ⟨oB, hoB, hfB⟩ := run_frozen env ops _ w2 hrun B _ hB1
    obtain ⟨dA2, rfl⟩ := frozen_eq_serviceDir oA _ hfA
    obtain ⟨dB2, rfl⟩ := frozen_eq_serviceDir oB _ hfB
    have hs2 : A < w2.heap.length := (List.getElem?_eq_some.mp hoA).1
    refine ⟨hc2, dA2, dB2, _, hoA, hoB,
      Ctl.WriteFile_first_refresh w2 c1 (newCtl (env.now w.ticks) A) dA2 (bytesOf "refresh") []
        hc2 hoA Fields_refresh, ?_, ?_, ?_, rfl, rfl⟩
    · exact List.getElem?_set_self hs2
    · show (w2.heap.set A _)[B]? = _
      rw [List.getElem?_set_ne hAB]
      exact hoB
    · intro j hj
      exact List.getElem?_set_ne (Ne.symm hj)

/-- Witness of C19: the ServiceDir of the scenario, at 0, next to a populated ServiceDir of
the service "other", at 1. -/
theorem invalidation_local_witness :
    demoTwo.heap[0]? = some (.serviceDir demoDir) ∧ demoDir.cache = none ∧
    demoEnv.list 7 0 = .ok [demoTask1, demoTask2] ∧
    demoTwo.heap[1]? = some (.serviceDir
      { newServiceDir 1000 "other" demoSvcOther with cache := some [2, 3] }) ∧
    (ServiceDir.ReadDir demoEnv demoTwo 0).map (·.2) = some (some [4, 5, 6], none) ∧
    ∃ (w1 : World) (entries : List Addr) (c1 : Addr),
      ServiceDir.ReadDir demoEnv demoTwo 0 = some (w1, (some entries, none)) ∧
      entries.getLast? = some c1 ∧
      w1.heap[c1]? = some (.ctl (newCtl 1002 0)) ∧
      (newCtl 1002 0).parent = 0 ∧
      ∀ (ops : List Op) (w2 : World), run demoEnv w1 ops = some w2 →
        w2.heap[c1]? = some (.ctl (newCtl 1002 0)) ∧
        ∃ (dA2 dB2 : ServiceDir) (w3 : World),
          w2.heap[0]? = some (.serviceDir dA2) ∧ w2.heap[1]? = some (.serviceDir dB2) ∧
          Ctl.WriteFile w2 c1 (bytesOf "refresh") = some (w3, none) ∧
          w3.heap[0]? = some (.serviceDir { dA2 with cache := none }) ∧
          w3.heap[1]? = some (.serviceDir dB2) ∧
          (∀ j, j ≠ 0 → w3.heap[j]? = w2.heap[j]?) ∧
          w3.listLog = w2.listLog ∧ w3.ticks = w2.ticks :=
  ⟨rfl, rfl, rfl, rfl, by decide,
    invalidation_local demoEnv demoTwo 0 1 demoDir
      { newServiceDir 1000 "other" demoSvcOther with cache := some [2, 3] }
      [demoTask1, demoTask2] rfl rfl rfl rfl (by decide)⟩

/-- The loop of `appendIssues` appends one task for each issue, in order. -/
theorem Gitlab.appendIssues_eq (svc : Nat) (a : List Gitlab.Issue)
    (b : List Gitlab.ApiIssue) :
    Gitlab.Service.appendIssues svc a b
      = a ++ b.map (fun v => ({ issue := v, svc := svc } : Gitlab.Issue)) := by
  unfold Gitlab.Service.appendIssues
  induction b generalizing a with
  | nil => simp
  | cons v b ih => simp [List.foldl_cons, ih]

/-- The request before a request: it was answered with the page asked for next. -/
theorem Gitlab.requests_succ (api : Gitlab.Api) (k : Nat) (q : Int)
    (h : Gitlab.requests api (k + 1) = some q) :
    ∃ p b, Gitlab.requests api k = some p ∧ api k p = .ok (b, q) ∧ q ≠ 0 := by
  simp only [Gitlab.requests] at h
  cases hp : Gitlab.requests api k with
  | none => simp [hp] at h
  | some p =>
    simp only [hp] at h
    cases ha : api k p with
    | error e => simp [ha] at h
    | ok x =>
      obtain ⟨b, next⟩ := x
      simp only [ha] at h
      by_cases hn : next = 0
      · simp [hn] at h
      · simp only [hn, if_false, Option.some.injEq] at h
        subst h
        exact ⟨p, b, rfl, ha, hn⟩

/-- A request that is made is preceded by requests that were made. -/
theorem Gitlab.requests_defined (api : Gitlab.Api) (k d : Nat) (q : Int)
    (h : Gitlab.requests api (k + d) = some q) : ∃ p, Gitlab.requests api k = some p := by
  induction d generalizing q with
  | zero => exact ⟨q, h⟩
  | succ d ih =>
    obtain ⟨p, _, hp, _, _⟩ := Gitlab.requests_succ api (k + d) q h
    exact ih p hp

/-- The loop of `List` from its `k`-th request up to the request `k + d`, the first one
that fails or names no next page. -/
theorem Gitlab.listLoop_eq (api : Gitlab.Api) (svc : Nat) (d : Nat) :
    ∀ (k fuel : Nat) (page p : Int) (a : List Gitlab.Issue),
      Gitlab.requests api k = some page → Gitlab.requests api (k + d) = some p → d < fuel →
      (∀ err, api (k + d) p = .error err →
        Gitlab.Service.listLoop api svc fuel k page a = some ([], some err)) ∧
      (∀ b, api (k + d) p = .ok (b, 0) →
        Gitlab.Service.listLoop api svc fuel k page a
          = some (a ++ ((List.range' k (d + 1)).flatMap (Gitlab.issuesAt api)).map
              (fun v => ({ issue := v, svc := svc } : Gitlab.Issue)), none)) := by
  induction d with
  | zero =>
    intro k fuel page p a hk hkd hfuel
    simp only [Nat.add_zero] at hkd
    rw [hk] at hkd
    cases hkd
    obtain ⟨f, rfl⟩ : ∃ f, fuel = f + 1 := ⟨fuel - 1, by omega⟩
    constructor
    · intro err herr
      rw [Nat.add_zero] at herr
      simp [Gitlab.Service.listLoop, herr]
    · intro b hb
      rw [Nat.add_zero] at hb
      simp [Gitlab.Service.listLoop, hb, Gitlab.appendIssues_eq, Gitlab.issuesAt, hk]
  | succ d ih =>
    intro k fuel page p a hk hkd hfuel
    obtain ⟨f, rfl⟩ : ∃ f, fuel = f + 1 := ⟨fuel - 1, by omega⟩
    have hkd2 : Gitlab.requests api (k + 1 + d) = some p := by
      rw [← hkd]
      congr 1
      omega
    obtain ⟨q, hq⟩ := Gitlab.requests_defined api (k + 1) d p hkd2
    obtain ⟨page2, b0, hpage2, hb0, hq0⟩ := Gitlab.requests_succ api k q hq
    rw [hk] at hpage2
    cases hpage2
    have hstep : Gitlab.Service.listLoop api svc (f + 1) k page a
        = Gitlab.Service.listLoop api svc f (k + 1) q
          (Gitlab.Service.appendIssues svc a b0) := by
      simp [Gitlab.Service.listLoop, hb0, hq0]
    have hat : Gitlab.issuesAt api k = b0 := by
      simp [Gitlab.issuesAt, hk, hb0]
    have hidx : k + (d + 1) = k + 1 + d := by omega
    obtain ⟨ih1, ih2⟩ := ih (k + 1) f q p (Gitlab.Service.appendIssues svc a b0) hq hkd2
      (by omega)
    constructor
    · intro err herr
      rw [hstep]
      exact ih1 err (by rw [← hidx]; exact herr)
    · intro b hb
      rw [hstep, ih2 b (by rw [← hidx]; exact hb), Gitlab.appendIssues_eq]
      rw [List.range'_succ k (d + 1)]
      simp [hat, List.flatMap_cons, List.append_assoc]

/-- The loop of `List` returns no task together with an error. -/
theorem Gitlab.listLoop_error (api : Gitlab.Api) (svc : Nat) (fuel : Nat) :
    ∀ (k : Nat) (page : Int) (a res : List Gitlab.Issue) (err : Error),
      Gitlab.Service.listLoop api svc fuel k page a = some (res, some err) → res = [] := by
  induction fuel with
  | zero =>
    intro k page a res err h
    simp [Gitlab.Service.listLoop] at h
  | succ f ih =>
    intro k page a res err h
    simp only [Gitlab.Service.listLoop] at h
    cases ha : api k page with
    | error e =>
      simp only [ha, Option.some.injEq, Prod.mk.injEq] at h
      exact h.1.symm
    | ok x =>
      obtain ⟨b, next⟩ := x
      simp only [ha] at h
      by_cases hn : next = 0
      · simp [hn] at h
      · simp only [hn, if_false] at h
        exact ih _ _ _ _ _ h

/-- C20: when the `n`-th request of the gitlab adapter's List is the first that fails, List
returns that error and no task; when it is the first whose answer names no next page
(all requests before it having succeeded), List returns one task for each issue of
the answers 0 to `n`, in this order, and no error; in both cases it returns as soon as
it may make more than `n` requests, and it never returns tasks together with an error. -/
theorem Gitlab.List_complete_or_error (api : Gitlab.Api) (svc n fuel : Nat) (p : Int)
    (hreq : Gitlab.requests api n = some p) (hfuel : n < fuel) :
    (∀ err, api n p = .error err →
      Gitlab.Service.List api svc fuel = some ([], some err)) ∧
    (∀ b, api n p = .ok (b, 0) →
      Gitlab.Service.List api svc fuel
        = some (((List.range (n + 1)).flatMap (Gitlab.issuesAt api)).map
            (fun v => ({ issue := v, svc := svc } : Gitlab.Issue)), none)) ∧
    (∀ (fuel2 : Nat) (res : List Gitlab.Issue) (err : Error),
      Gitlab.Service.List api svc fuel2 = some (res, some err) → res = []) := by
  have h := Gitlab.listLoop_eq api svc n 0 fuel 0 p [] rfl (by simpa using hreq) hfuel
  simp only [Nat.zero_add, List.nil_append] at h
  refine ⟨h.1, ?_, ?_⟩
  · intro b hb
    rw [List.range_eq_range']
    exact h.2 b hb
  · intro fuel2 res err hres
    exact Gitlab.listLoop_error api svc fuel2 0 0 [] res err hres

/-- Witness of C20: a tracker with the pages 0, 2 and 3, and the same tracker whose third
request fails. -/
theorem Gitlab.List_complete_or_error_witness :
    Gitlab.requests Gitlab.demoApi 2 = some 3 ∧
    Gitlab.requests Gitlab.demoApiFail 2 = some 3 ∧
    Gitlab.Service.List Gitlab.demoApi 1 3
      = some ([{ issue := Gitlab.demoIssue 11, svc := 1 },
          { issue := Gitlab.demoIssue 12, svc := 1 },
          { issue := Gitlab.demoIssue 13, svc := 1 }], none) ∧
    Gitlab.Service.List Gitlab.demoApiFail 1 3 = some ([], some (Error.upstream "502")) ∧
    Gitlab.Service.List Gitlab.demoApi 1 2 = none :=
  ⟨rfl, rfl,
    (Gitlab.List_complete_or_error Gitlab.demoApi 1 2 3 3 rfl (by decide)).2.1 [] rfl,
    (Gitlab.List_complete_or_error Gitlab.demoApiFail 1 2 3 3 rfl (by decide)).1
      (Error.upstream "502") rfl,
    rfl⟩

/-- A call that runs in one piece is `ServiceDir.ReadDir`. -/
theorem ServiceDir.advance3_eq (env : Env) (w : World) (self : Addr) :
    ServiceDir.advance3 env self w
      = (ServiceDir.ReadDir env w self).map (fun x => (x.1, ReadDirPc.done x.2)) := by
  unfold ServiceDir.advance3 ServiceDir.ReadDir
  cases ho : w.heap[self]? with
  | none => simp [ServiceDir.advance, ho]
  | some o =>
    cases o with
    | serviceDir dir =>
      cases hc : dir.cache with
      | some c => simp [ServiceDir.advance, ho, hc]
      | none =>
        cases hl : env.list dir.svc.id (w.listLog.count dir.svc.id) with
        | error err => simp [ServiceDir.advance, ho, hc, hl]
        | ok a => simp [ServiceDir.advance, ho, hc, hl]
    | root x => simp [ServiceDir.advance, ho]
    | taskDir x => simp [ServiceDir.advance, ho]
    | text x => simp [ServiceDir.advance, ho]
    | ctl x => simp [ServiceDir.advance, ho]

/-- Counterexample to C15: two listings of the cold ServiceDir of the scenario overlap, both
find the cache nil and both call List (the log holds two calls, and the two listings
return different entries); and a Refresh that runs between the List call and the
store of a listing is undone by the store, which caches what was fetched before it. -/
theorem overlapping_listings_fetch_twice :
    (interleave demoEnv 0 (demoCold, [ReadDirPc.check, ReadDirPc.check])
      [Event.advance 0, Event.advance 1, Event.advance 0, Event.advance 1,
        Event.advance 0, Event.advance 1]).map
        (fun s => (s.1.listLog, s.2.map ReadDirPc.result))
      = some ([7, 7], [some (some [1, 2, 3], none), some (some [4, 5], none)]) ∧
    (interleave demoEnv 0 (demoCold, [ReadDirPc.check])
      [Event.advance 0, Event.advance 0, Event.refresh, Event.advance 0]).map
        (fun s => (s.1.heap[0]?, s.2.map ReadDirPc.result))
      = some (some (Obj.serviceDir { demoDir with cache := some [1, 2, 3] }),
          [some (some [1, 2, 3], none)]) ∧
    ¬ (∀ s, interleave demoEnv 0 (demoCold, [ReadDirPc.check, ReadDirPc.check])
      [Event.advance 0, Event.advance 1, Event.advance 0, Event.advance 1,
        Event.advance 0, Event.advance 1] = some s →
        s.1.listLog.count 7 ≤ demoCold.listLog.count 7 + 1) :=
  ⟨rfl, rfl, fun h => absurd (h _ rfl) (by decide)⟩

/-- One part of a call: it returns, the ServiceDir stays a ServiceDir of the same service,
and the log of List calls grows by one entry exactly when the part is the List call. -/
theorem ServiceDir.advance_log (env : Env) (self : Addr) (w : World) (dir : ServiceDir)
    (pc : ReadDirPc) (hdir : w.heap[self]? = some (.serviceDir dir)) :
    ∃ w1 pc1 extra d1,
      ServiceDir.advance env self w pc = some (w1, pc1) ∧
      w1.heap[self]? = some (.serviceDir d1) ∧ d1.svc = dir.svc ∧
      w1.listLog = w.listLog ++ extra ∧ extra.length + pc1.pending ≤ pc.pending := by
  cases pc with
  | check =>
    cases hc : dir.cache with
    | some c =>
      exact ⟨w, ReadDirPc.done (some c, none), [], dir,
        by simp only [ServiceDir.advance, hdir, hc], hdir, rfl, by simp,
        by simp [ReadDirPc.pending]⟩
    | none =>
      exact ⟨w, ReadDirPc.fetch, [], dir,
        by simp only [ServiceDir.advance, hdir, hc], hdir, rfl, by simp,
        by simp [ReadDirPc.pending]⟩
  | fetch =>
    exact ⟨World.mk w.heap (w.listLog ++ [dir.svc.id]) w.ticks,
      ReadDirPc.store (env.list dir.svc.id (w.listLog.count dir.svc.id)), [dir.svc.id], dir,
      by simp only [ServiceDir.advance, hdir], hdir, rfl, rfl,
      by simp [ReadDirPc.pending]⟩
  | store res =>
    cases res with
    | error err =>
      exact ⟨w, ReadDirPc.done (none, some err), [], dir,
        by simp only [ServiceDir.advance], hdir, rfl, by simp,
        by simp [ReadDirPc.pending]⟩
    | ok a =>
      refine ⟨World.mk ((w.heap ++ a.map (fun task => Obj.taskDir (newTaskDir task)) ++
          [Obj.ctl (newCtl (env.now w.ticks) self)]).set self
            (.serviceDir { dir with
              cache := some ((List.range (a.length + 1)).map (w.heap.length + ·)) }))
          w.listLog (w.ticks + 1),
        ReadDirPc.done (some ((List.range (a.length + 1)).map (w.heap.length + ·)), none),
        [], { dir with
          cache := some ((List.range (a.length + 1)).map (w.heap.length + ·)) },
        by simp only [ServiceDir.advance, hdir], ?_, rfl, by simp,
        by simp [ReadDirPc.pending]⟩
      simp only [List.append_assoc]
      exact getElem?_set_append_self _ _ _ _ _ hdir
  | done r =>
    exact ⟨w, ReadDirPc.done r, [], dir, by simp only [ServiceDir.advance], hdir, rfl,
      by simp, by simp [ReadDirPc.pending]⟩

/-- The number of calls that may still call List, after one of them moved on. -/
theorem pending_set (pcs : List ReadDirPc) (i : Nat) (pc pc1 : ReadDirPc)
    (h : pcs[i]? = some pc) :
    ((pcs.set i pc1).map ReadDirPc.pending).sum + pc.pending
      = (pcs.map ReadDirPc.pending).sum + pc1.pending := by
  induction pcs generalizing i with
  | nil => simp at h
  | cons x rest ih =>
    cases i with
    | zero =>
      simp only [List.getElem?_cons_zero, Option.some.injEq] at h
      subst h
      simp only [List.set_cons_zero, List.map_cons, List.sum_cons]
      omega
    | succ k =>
      simp only [List.getElem?_cons_succ] at h
      have := ih k h
      simp only [List.set_cons_succ, List.map_cons, List.sum_cons]
      omega

/-- Overlapping calls in any order: they return, and the List calls made are no more than
the calls that had not yet called List. -/
theorem interleave_log (env : Env) (self : Addr) (events : List Event) :
    ∀ (w : World) (pcs : List ReadDirPc) (dir : ServiceDir),
      w.heap[self]? = some (.serviceDir dir) →
      ∃ w1 pcs1 extra d1,
        interleave env self (w, pcs) events = some (w1, pcs1) ∧
        w1.heap[self]? = some (.serviceDir d1) ∧ d1.svc = dir.svc ∧
        pcs1.length = pcs.length ∧ w1.listLog = w.listLog ++ extra ∧
        extra.length + (pcs1.map ReadDirPc.pending).sum
          ≤ (pcs.map ReadDirPc.pending).sum := by
  induction events with
  | nil =>
    intro w pcs dir hdir
    exact ⟨w, pcs, [], dir, rfl, hdir, rfl, rfl, by simp, by simp⟩
  | cons ev rest ih =>
    intro w pcs dir hdir
    cases ev with
    | advance i =>
      cases hi : pcs[i]? with
      | none =>
        obtain ⟨w1, pcs1, extra, d1, h1, h2, h3, h4, h5, h6⟩ := ih w pcs dir hdir
        exact ⟨w1, pcs1, extra, d1, by simp only [interleave, hi, h1], h2, h3, h4, h5, h6⟩
      | some pc =>
        obtain ⟨wa, pca, xa, da, ha1, ha2, ha3, ha4, ha5⟩ :=
          ServiceDir.advance_log env self w dir pc hdir
        obtain ⟨w1, pcs1, extra, d1, h1, h2, h3, h4, h5, h6⟩ := ih wa (pcs.set i pca) da ha2
        have hsum := pending_set pcs i pc pca hi
        refine ⟨w1, pcs1, xa ++ extra, d1, by simp only [interleave, hi, ha1, h1], h2,
          by rw [h3, ha3], by rw [h4, List.length_set], by rw [h5, ha4, List.append_assoc], ?_⟩
        simp only [List.length_append]
        omega
    | refresh =>
      have hs : self < w.heap.length := (List.getElem?_eq_some.mp hdir).1
      obtain ⟨w1, pcs1, extra, d1, h1, h2, h3, h4, h5, h6⟩ :=
        ih (World.mk (w.heap.set self (.serviceDir { dir with cache := none }))
          w.listLog w.ticks) pcs { dir with cache := none } (List.getElem?_set_self hs)
      exact ⟨w1, pcs1, extra, d1, by simp only [interleave, ServiceDir.Refresh, hdir, h1],
        h2, h3, h4, h5, h6⟩

/-- Each part that a call runs brings it nearer to its return. -/
theorem ServiceDir.advance_stepsLeft (env : Env) (self : Addr) (w w1 : World)
    (pc pc1 : ReadDirPc) (h : ServiceDir.advance env self w pc = some (w1, pc1)) :
    pc1.stepsLeft ≤ pc.stepsLeft - 1 := by
  cases pc with
  | check =>
    cases ho : w.heap[self]? with
    | none => simp [ServiceDir.advance, ho] at h
    | some o =>
      cases o with
      | serviceDir d =>
        cases hc : d.cache with
        | none =>
          simp only [ServiceDir.advance, ho, hc, Option.some.injEq, Prod.mk.injEq] at h
          rw [← h.2]
          decide
        | some c =>
          simp only [ServiceDir.advance, ho, hc, Option.some.injEq, Prod.mk.injEq] at h
          rw [← h.2]
          simp [ReadDirPc.stepsLeft]
      | root x => simp [ServiceDir.advance, ho] at h
      | taskDir x => simp [ServiceDir.advance, ho] at h
      | text x => simp [ServiceDir.advance, ho] at h
      | ctl x => simp [ServiceDir.advance, ho] at h
  | fetch =>
    cases ho : w.heap[self]? with
    | none => simp [ServiceDir.advance, ho] at h
    | some o =>
      cases o with
      | serviceDir d =>
        simp only [ServiceDir.advance, ho, Option.some.injEq, Prod.mk.injEq] at h
        rw [← h.2]
        simp [ReadDirPc.stepsLeft]
      | root x => simp [ServiceDir.advance, ho] at h
      | taskDir x => simp [ServiceDir.advance, ho] at h
      | text x => simp [ServiceDir.advance, ho] at h
      | ctl x => simp [ServiceDir.advance, ho] at h
  | store res =>
    cases res with
    | error err =>
      simp only [ServiceDir.advance, Option.some.injEq, Prod.mk.injEq] at h
      rw [← h.2]
      simp [ReadDirPc.stepsLeft]
    | ok a =>
      cases ho : w.heap[self]? with
      | none => simp [ServiceDir.advance, ho] at h
      | some o =>
        cases o with
        | serviceDir d =>
          simp only [ServiceDir.advance, ho, Option.some.injEq, Prod.mk.injEq] at h
          rw [← h.2]
          simp [ReadDirPc.stepsLeft]
        | root x => simp [ServiceDir.advance, ho] at h
        | taskDir x => simp [ServiceDir.advance, ho] at h
        | text x => simp [ServiceDir.advance, ho] at h
        | ctl x => simp [ServiceDir.advance, ho] at h
  | done r =>
    simp only [ServiceDir.advance, Option.some.injEq, Prod.mk.injEq] at h
    rw [← h.2]
    simp [ReadDirPc.stepsLeft]

/-- Whatever else happens, a call has at most as many parts left as it had, less the
number of parts it was given to run. -/
theorem interleave_stepsLeft (env : Env) (self : Addr) (events : List Event) :
    ∀ (w w1 : World) (pcs pcs1 : List ReadDirPc),
      interleave env self (w, pcs) events = some (w1, pcs1) →
      ∀ (i : Nat) (pc : ReadDirPc), pcs[i]? = some pc →
        ∃ pc1, pcs1[i]? = some pc1 ∧
          pc1.stepsLeft ≤ pc.stepsLeft - events.count (Event.advance i) := by
  induction events with
  | nil =>
    intro w w1 pcs pcs1 h i pc hi
    simp only [interleave, Option.some.injEq, Prod.mk.injEq] at h
    rw [← h.2]
    exact ⟨pc, hi, by simp⟩
  | cons e rest ih =>
    intro w w1 pcs pcs1 h i pc hi
    cases e with
    | refresh =>
      cases hr : ServiceDir.Refresh w self with
      | none => simp [interleave, hr] at h
      | some w2 =>
        simp only [interleave, hr] at h
        obtain ⟨pc1, h1, h2⟩ := ih w2 w1 pcs pcs1 h i pc hi
        refine ⟨pc1, h1, ?_⟩
        rw [List.count_cons_of_ne (by simp)]
        exact h2
    | advance j =>
      cases hj : pcs[j]? with
      | none =>
        simp only [interleave, hj] at h
        have hne : i ≠ j := by
          intro hij
          rw [hij, hj] at hi
          cases hi
        obtain ⟨pc1, h1, h2⟩ := ih w w1 pcs pcs1 h i pc hi
        refine ⟨pc1, h1, ?_⟩
        rw [List.count_cons_of_ne (by simpa using hne)]
        exact h2
      | some pcj =>
        cases ha : ServiceDir.advance env self w pcj with
        | none => simp [interleave, hj, ha] at h
        | some x =>
          obtain ⟨w2, pcj1⟩ := x
          simp only [interleave, hj, ha] at h
          by_cases hij : i = j
          · subst hij
            rw [hj] at hi
            cases hi
            have hlt : i < pcs.length := (List.getElem?_eq_some.mp hj).1
            obtain ⟨pc1, h1, h2⟩ := ih w2 w1 _ pcs1 h i pcj1 (List.getElem?_set_self hlt)
            have h3 := ServiceDir.advance_stepsLeft env self w w2 pc pcj1 ha
            refine ⟨pc1, h1, ?_⟩
            rw [List.count_cons_self]
            omega
          · have hset : (pcs.set j pcj1)[i]? = some pc := by
              rw [List.getElem?_set_ne (Ne.symm hij)]
              exact hi
            obtain ⟨pc1, h1, h2⟩ := ih w2 w1 _ pcs1 h i pc hset
            refine ⟨pc1, h1, ?_⟩
            rw [List.count_cons_of_ne (by simpa using hij)]
            exact h2

/-- A call with no part left to run has returned. -/
theorem ReadDirPc.done_of_stepsLeft (pc : ReadDirPc) (h : pc.stepsLeft = 0) :
    ∃ r, pc = ReadDirPc.done r := by
  cases pc with
  | check => cases h
  | fetch => cases h
  | store res => cases h
  | done r => exact ⟨r, rfl⟩

/-- The three parts of a call that has not started, run in a row among other calls. -/
theorem interleave_triple (env : Env) (self : Addr) (w : World) (pcs : List ReadDirPc)
    (k : Nat) (rest : List Event) (hk : pcs[k]? = some ReadDirPc.check) :
    interleave env self (w, pcs)
        (Event.advance k :: Event.advance k :: Event.advance k :: rest)
      = match ServiceDir.advance3 env self w with
        | some (w1, pc1) => interleave env self (w1, pcs.set k pc1) rest
        | none => none := by
  have hlt : k < pcs.length := (List.getElem?_eq_some.mp hk).1
  unfold ServiceDir.advance3
  simp only [interleave, hk]
  cases h1 : ServiceDir.advance env self w ReadDirPc.check with
  | none => rfl
  | some x1 =>
    obtain ⟨w1, pc1⟩ := x1
    have hk1 : (pcs.set k pc1)[k]? = some pc1 := List.getElem?_set_self hlt
    simp only [interleave, hk1]
    cases h2 : ServiceDir.advance env self w1 pc1 with
    | none => rfl
    | some x2 =>
      obtain ⟨w2, pc2⟩ := x2
      have hk2 : ((pcs.set k pc1).set k pc2)[k]? = some pc2 :=
        List.getElem?_set_self (by simpa using hlt)
      simp only [interleave, hk2]
      cases h3 : ServiceDir.advance env self w2 pc2 with
      | none => rfl
      | some x3 =>
        obtain ⟨w3, pc3⟩ := x3
        simp only [set_set_same]

/-- Calls that do not overlap, after the calls `pre` that have returned: they are calls of
`ServiceDir.ReadDir` made in a row. -/
theorem interleave_serial_from (env : Env) (self : Addr) (m : Nat) :
    ∀ (pre : List ReadDirPc) (w : World),
      interleave env self (w, pre ++ List.replicate m ReadDirPc.check)
          ((List.range' pre.length m).flatMap
            (fun i => [Event.advance i, Event.advance i, Event.advance i]))
        = (ServiceDir.readDirs env self w m).map
            (fun x => (x.1, pre ++ x.2.map ReadDirPc.done)) := by
  induction m with
  | zero =>
    intro pre w
    simp [interleave, ServiceDir.readDirs]
  | succ m ih =>
    intro pre w
    have hk : (pre ++ List.replicate (m + 1) ReadDirPc.check)[pre.length]?
        = some ReadDirPc.check := by
      rw [List.getElem?_append_right (Nat.le_refl _)]
      simp [List.replicate_succ]
    rw [List.range'_succ, List.flatMap_cons]
    simp only [List.cons_append, List.nil_append]
    rw [interleave_triple env self w _ pre.length _ hk, ServiceDir.advance3_eq]
    cases hr : ServiceDir.ReadDir env w self with
    | none => simp [ServiceDir.readDirs, hr]
    | some x =>
      obtain ⟨w1, r⟩ := x
      have hset : (pre ++ List.replicate (m + 1) ReadDirPc.check).set pre.length
          (ReadDirPc.done r) = (pre ++ [ReadDirPc.done r]) ++ List.replicate m ReadDirPc.check := by
        rw [List.set_append_right _ _ (Nat.le_refl _)]
        simp [List.replicate_succ]
      have hih := ih (pre ++ [ReadDirPc.done r]) w1
      simp only [List.length_append, List.length_singleton] at hih
      simp only [Option.map_some', hset, hih, ServiceDir.readDirs, hr, Option.map_map]
      congr 1
      funext x
      simp [Function.comp]

/-- Listings of a populated ServiceDir made in a row: each returns the cache and the world
stays as it is. -/
theorem ServiceDir.readDirs_warm (env : Env) (self : Addr) (w : World) (dir : ServiceDir)
    (c : List Addr) (n : Nat)
    (hdir : w.heap[self]? = some (.serviceDir dir)) (hc : dir.cache = some c) :
    ServiceDir.readDirs env self w n = some (w, List.replicate n (some c, none)) := by
  induction n with
  | zero => rfl
  | succ n ih =>
    simp only [ServiceDir.readDirs, ServiceDir.ReadDir_warm env w self dir c hdir hc, ih,
      Option.map_some']
    simp [List.replicate_succ]

/-- Calls that do not overlap are calls of `ServiceDir.ReadDir` made in a row. -/
theorem interleave_serial (env : Env) (self : Addr) (w : World) (m : Nat) :
    interleave env self (w, List.replicate m ReadDirPc.check) (serialEvents m)
      = (ServiceDir.readDirs env self w m).map (fun x => (x.1, x.2.map ReadDirPc.done)) := by
  have h := interleave_serial_from env self m [] w
  simp only [List.nil_append, List.length_nil] at h
  rw [serialEvents, List.range_eq_range']
  exact h

/-- C15, amended: ServiceDir.ReadDir takes no lock.  However `n` listings of one
ServiceDir and Refresh calls overlap, no part of a listing is stuck, every listing that
has run three parts has returned, and List is called at most `n` times in all, so at
most once by a single listing; a listing that runs in one piece is
ServiceDir.ReadDir, and listings that run one after the other are ServiceDir.ReadDir
calls made in a row.  Of such listings of a cold ServiceDir, when the List call of the
first succeeds it is the only List call and all return the same entries; when it
fails, the first returns the error, nothing is cached, and the others are listings of
the still cold ServiceDir after one List call. -/
theorem ReadDir_overlapping (env : Env) (w : World) (self : Addr) (dir : ServiceDir) (n : Nat)
    (events : List Event) (hdir : w.heap[self]? = some (.serviceDir dir)) :
    (∃ (w1 : World) (pcs1 : List ReadDirPc) (extra : List Nat),
      interleave env self (w, List.replicate n ReadDirPc.check) events = some (w1, pcs1) ∧
      pcs1.length = n ∧ w1.listLog = w.listLog ++ extra ∧ extra.length ≤ n ∧
      (∀ i, i < n → 3 ≤ events.count (Event.advance i) →
        ∃ r, pcs1[i]? = some (ReadDirPc.done r))) ∧
    ServiceDir.advance3 env self w
      = (ServiceDir.ReadDir env w self).map (fun x => (x.1, ReadDirPc.done x.2)) ∧
    (∀ m, interleave env self (w, List.replicate m ReadDirPc.check) (serialEvents m)
      = (ServiceDir.readDirs env self w m).map (fun x => (x.1, x.2.map ReadDirPc.done))) ∧
    (∀ m a, dir.cache = none → env.list dir.svc.id (w.listLog.count dir.svc.id) = .ok a →
      ∃ (w2 : World) (entries : List Addr),
        interleave env self (w, List.replicate (m + 1) ReadDirPc.check) (serialEvents (m + 1))
          = some (w2, List.replicate (m + 1) (ReadDirPc.done (some entries, none))) ∧
        w2.listLog = w.listLog ++ [dir.svc.id]) ∧
    (∀ m err, dir.cache = none →
      env.list dir.svc.id (w.listLog.count dir.svc.id) = .error err →
      (World.mk w.heap (w.listLog ++ [dir.svc.id]) w.ticks).heap[self]?
        = some (.serviceDir dir) ∧
      interleave env self (w, List.replicate (m + 1) ReadDirPc.check) (serialEvents (m + 1))
        = (ServiceDir.readDirs env self
            (World.mk w.heap (w.listLog ++ [dir.svc.id]) w.ticks) m).map
            (fun x => (x.1, ReadDirPc.done (none, some err) :: x.2.map ReadDirPc.done))) := by
  refine ⟨?_, ServiceDir.advance3_eq env w self, interleave_serial env self w, ?_, ?_⟩
  · obtain ⟨w1, pcs1, extra, d1, h1, _, _, h4, h5, h6⟩ :=
      interleave_log env self events w (List.replicate n ReadDirPc.check) dir hdir
    refine ⟨w1, pcs1, extra, h1, by simpa using h4, h5, ?_, ?_⟩
    · have hsum : ((List.replicate n ReadDirPc.check).map ReadDirPc.pending).sum = n := by
        simp [ReadDirPc.pending]
      omega
    · intro i hi hcount
      have hpc : (List.replicate n ReadDirPc.check)[i]? = some ReadDirPc.check := by
        simp [List.getElem?_replicate, hi]
      obtain ⟨pc1, hp1, hp2⟩ :=
        interleave_stepsLeft env self events w w1 _ pcs1 h1 i ReadDirPc.check hpc
      have h0 : pc1.stepsLeft = 0 := by
        have h3 : ReadDirPc.check.stepsLeft = 3 := rfl
        omega
      obtain ⟨r, hr⟩ := ReadDirPc.done_of_stepsLeft pc1 h0
      exact ⟨r, by rw [hp1, hr]⟩
  · intro m a hc hlist
    have hself : ((w.heap ++ a.map (fun task => Obj.taskDir (newTaskDir task)) ++
        [Obj.ctl (newCtl (env.now w.ticks) self)]).set self
          (.serviceDir { dir with
            cache := some ((List.range (a.length + 1)).map (w.heap.length + ·)) }))[self]?
        = some (.serviceDir { dir with
            cache := some ((List.range (a.length + 1)).map (w.heap.length + ·)) }) := by
      simp only [List.append_assoc]
      exact getElem?_set_append_self _ _ _ _ _ hdir
    refine ⟨World.mk ((w.heap ++ a.map (fun task => Obj.taskDir (newTaskDir task)) ++
        [Obj.ctl (newCtl (env.now w.ticks) self)]).set self
          (.serviceDir { dir with
            cache := some ((List.range (a.length + 1)).map (w.heap.length + ·)) }))
        (w.listLog ++ [dir.svc.id]) (w.ticks + 1),
      (List.range (a.length + 1)).map (w.heap.length + ·), ?_, rfl⟩
    rw [interleave_serial, ServiceDir.readDirs,
      ServiceDir.ReadDir_cold_ok env w self dir a hdir hc hlist]
    simp only []
    rw [ServiceDir.readDirs_warm env self _ _ _ m hself rfl]
    simp [List.replicate_succ]
  · intro m err hc hlist
    refine ⟨hdir, ?_⟩
    rw [interleave_serial, ServiceDir.readDirs,
      ServiceDir.ReadDir_cold_error env w self dir err hdir hc hlist]
    simp only [Option.map_map]
    congr 1

/-- Witness of C15, amended: three listings of the cold ServiceDir of the scenario and a
Refresh overlap; List is called three times, once by each listing.  Three listings that
run one after the other call List once and return the same three entries; when the
first List call fails, the first listing returns the error, the second calls List again
and the third returns what the second cached. -/
theorem ReadDir_overlapping_witness :
    demoCold.heap[0]? = some (.serviceDir demoDir) ∧
    (interleave demoEnv 0 (demoCold, List.replicate 3 ReadDirPc.check)
      [Event.advance 0, Event.advance 1, Event.advance 2, Event.advance 1, Event.refresh,
        Event.advance 0, Event.advance 2, Event.advance 2, Event.advance 0,
        Event.advance 1]).map (fun s => s.1.listLog) = some [7, 7, 7] ∧
    (interleave demoEnv 0 (demoCold, List.replicate 3 ReadDirPc.check) (serialEvents 3)).map
      (fun s => (s.1.listLog, s.2))
      = some ([7], List.replicate 3 (ReadDirPc.done (some [1, 2, 3], none))) ∧
    (interleave demoEnvFail 0 (demoCold, List.replicate 3 ReadDirPc.check)
      (serialEvents 3)).map (fun s => (s.1.listLog, s.2))
      = some ([7, 7], [ReadDirPc.done (none, some (Error.upstream "timeout")),
          ReadDirPc.done (some [1, 2], none), ReadDirPc.done (some [1, 2], none)]) ∧
    ((∃ (w1 : World) (pcs1 : List ReadDirPc) (extra : List Nat),
      interleave demoEnv 0 (demoCold, List.replicate 3 ReadDirPc.check)
        [Event.advance 0, Event.advance 1, Event.advance 2, Event.advance 1, Event.refresh,
          Event.advance 0, Event.advance 2, Event.advance 2, Event.advance 0,
          Event.advance 1] = some (w1, pcs1) ∧
      pcs1.length = 3 ∧ w1.listLog = demoCold.listLog ++ extra ∧ extra.length ≤ 3 ∧
      (∀ i, i < 3 →
        3 ≤ [Event.advance 0, Event.advance 1, Event.advance 2, Event.advance 1,
          Event.refresh, Event.advance 0, Event.advance 2, Event.advance 2, Event.advance 0,
          Event.advance 1].count (Event.advance i) →
        ∃ r, pcs1[i]? = some (ReadDirPc.done r))) ∧
    ServiceDir.advance3 demoEnv 0 demoCold
      = (ServiceDir.ReadDir demoEnv demoCold 0).map (fun x => (x.1, ReadDirPc.done x.2)) ∧
    (∀ m, interleave demoEnv 0 (demoCold, List.replicate m ReadDirPc.check) (serialEvents m)
      = (ServiceDir.readDirs demoEnv 0 demoCold m).map
          (fun x => (x.1, x.2.map ReadDirPc.done))) ∧
    (∀ m a, demoDir.cache = none →
      demoEnv.list demoDir.svc.id (demoCold.listLog.count demoDir.svc.id) = .ok a →
      ∃ (w2 : World) (entries : List Addr),
        interleave demoEnv 0 (demoCold, List.replicate (m + 1) ReadDirPc.check)
            (serialEvents (m + 1))
          = some (w2, List.replicate (m + 1) (ReadDirPc.done (some entries, none))) ∧
        w2.listLog = demoCold.listLog ++ [demoDir.svc.id]) ∧
    (∀ m err, demoDir.cache = none →
      demoEnv.list demoDir.svc.id (demoCold.listLog.count demoDir.svc.id) = .error err →
      (World.mk demoCold.heap (demoCold.listLog ++ [demoDir.svc.id]) demoCold.ticks).heap[0]?
        = some (.serviceDir demoDir) ∧
      interleave demoEnv 0 (demoCold, List.replicate (m + 1) ReadDirPc.check)
          (serialEvents (m + 1))
        = (ServiceDir.readDirs demoEnv 0
            (World.mk demoCold.heap (demoCold.listLog ++ [demoDir.svc.id]) demoCold.ticks) m).map
            (fun x => (x.1, ReadDirPc.done (none, some err) :: x.2.map ReadDirPc.done)))) :=
  ⟨rfl, rfl, rfl, rfl,
    ReadDir_overlapping demoEnv demoCold 0 demoDir 3
      [Event.advance 0, Event.advance 1, Event.advance 2, Event.advance 1, Event.refresh,
        Event.advance 0, Event.advance 2, Event.advance 2, Event.advance 0,
        Event.advance 1] rfl⟩

end Taskfs

